import Mathlib

/-!
# The track index of siren (`track.c`)

A shallow embedding of `track.c`: the process-wide index of tracks, its
comparison functions, the refresh pass and the synchronisation with the
metadata cache.  C strings are lists of bytes, a nullable `char *` is an
`Option`, the red-black tree `track_tree` is the list of its entries in
iteration order, and the global variables of `track.c` are the fields of
`State`.
-/

namespace Siren

/-! ## C strings and the libc comparisons -/

/-- A C string, given by its bytes before the terminating NUL. -/
abbrev CStr := List Nat

/-- The bytes of an ASCII string literal. -/
def cstr (s : String) : CStr := s.toList.map Char.toNat

/-- The libc routine `tolower` in the C locale, on one byte. -/
def tolower (c : Nat) : Nat := if 65 ≤ c ∧ c ≤ 90 then c + 32 else c

/-- Byte-wise lexicographic comparison, the terminating NUL being smaller
than every byte of a string.  C fixes only the sign of the result of
`strcmp`, and the model returns that sign. -/
def strcmp : CStr → CStr → Int
  | [], [] => 0
  | [], _ :: _ => -1
  | _ :: _, [] => 1
  | a :: s1, b :: s2 => if a < b then -1 else if b < a then 1 else strcmp s1 s2

/-- The libc routine `strcasecmp`: `strcmp` on the lower-cased bytes. -/
def strcasecmp (s1 s2 : CStr) : Int := strcmp (s1.map tolower) (s2.map tolower)

/-- The constant `INT_MAX` of a 32-bit `int`. -/
def INT_MAX : Nat := 2147483647

/-- The libc predicate `isspace` in the C locale. -/
def isspace (c : Nat) : Bool := c == 32 || (9 ≤ c && c ≤ 13)

/-- Whether a byte is a decimal digit. -/
def isdigit (c : Nat) : Bool := 48 ≤ c && c ≤ 57

/-- The value of a run of decimal digits, most significant first. -/
def digits_value (ds : CStr) : Nat := ds.foldl (fun acc c => 10 * acc + (c - 48)) 0

/-- Modelled from the spec: the routine `strtonum` is not among the sources
(libc on OpenBSD, a compatibility file elsewhere); the spec has it parse a
non-negative integer.  This is `strtonum(s, 0, INT_MAX, &errstr)`, the only
way the source calls it, and `none` stands for `errstr != NULL`.  As
`strtoll` does in base ten, it skips leading white space, takes an optional
sign and then needs at least one digit and nothing after the digits; the
value has to lie in `[0, INT_MAX]`. -/
def strtonum (s : CStr) : Option Nat :=
  let body := s.dropWhile isspace
  let (neg, ds) :=
    match body with
    | 43 :: r => (false, r)
    | 45 :: r => (true, r)
    | r => (false, r)
  if ds.isEmpty || !ds.all isdigit then none
  else
    let v := digits_value ds
    if neg then (if v = 0 then some 0 else none)
    else if v ≤ INT_MAX then some v else none

/-! ## The data model of `siren.h` -/

/-- An input plug-in (`const struct ip *`), known by its place in the
registry. -/
abbrev Ip := Nat

/-- The structure `sample_format`. -/
structure sample_format where
  byte_order : Nat
  nbits : Nat
  nchannels : Nat
  rate : Nat
deriving DecidableEq, Repr

/-- The structure `track`. -/
structure track where
  path : CStr
  ip : Option Ip
  ipdata : Option Nat
  album : Option CStr
  albumartist : Option CStr
  artist : Option CStr
  comment : Option CStr
  date : Option CStr
  discnumber : Option CStr
  disctotal : Option CStr
  filename : Option CStr
  genre : Option CStr
  title : Option CStr
  tracknumber : Option CStr
  tracktotal : Option CStr
  duration : Nat
  format : sample_format
deriving DecidableEq, Repr

/-- The structure `track_entry` of `track.c`, without its tree links. -/
structure track_entry where
  track : Siren.track
  delete : Int
deriving DecidableEq, Repr

/-! ## The comparison functions of `track.c` -/

/-- The function `track_cmp_string`. -/
def track_cmp_string (s1 s2 : Option CStr) : Int :=
  match s1, s2 with
  | none, none => 0
  | none, some _ => -1
  | some _, none => 1
  | some a, some b => strcasecmp a b

/-- The function `track_cmp_number`. -/
def track_cmp_number (s1 s2 : Option CStr) : Int :=
  match s1, s2 with
  | none, none => 0
  | none, some _ => -1
  | some _, none => 1
  | some a, some b =>
    match strtonum a with
    | none => strcasecmp a b
    | some i1 =>
      match strtonum b with
      | none => strcasecmp a b
      | some i2 => if i1 < i2 then -1 else if i1 > i2 then 1 else 0

/-- The function `track_cmp`. -/
def track_cmp (t1 t2 : track) : Int :=
  let ret := track_cmp_string t1.artist t2.artist
  if ret ≠ 0 then ret else
  let ret := track_cmp_number t1.date t2.date
  if ret ≠ 0 then ret else
  let ret := track_cmp_string t1.album t2.album
  if ret ≠ 0 then ret else
  let ret := track_cmp_number t1.discnumber t2.discnumber
  if ret ≠ 0 then ret else
  let ret := track_cmp_number t1.tracknumber t2.tracknumber
  if ret ≠ 0 then ret else
  let ret := track_cmp_string t1.title t2.title
  if ret ≠ 0 then ret else
  strcmp t1.path t2.path

/-- The function `track_cmp_entry`, the order of the tree. -/
def track_cmp_entry (t1 t2 : track_entry) : Int := strcmp t1.track.path t2.track.path


/-! ## The collaborators of `track.c` -/

/-- The constant `SIZE_MAX` of a 64-bit `size_t`. -/
def SIZE_MAX : Nat := 18446744073709551615

/-- The enumeration `cache_mode`. -/
inductive cache_mode where
  | CACHE_MODE_READ
  | CACHE_MODE_WRITE
deriving DecidableEq, Repr

/-- What a plug-in finds in a file when its `get_metadata` runs: the tags
that are present, and the duration when the file could be opened. -/
structure metadata where
  album : Option CStr
  albumartist : Option CStr
  artist : Option CStr
  comment : Option CStr
  date : Option CStr
  discnumber : Option CStr
  disctotal : Option CStr
  genre : Option CStr
  title : Option CStr
  tracknumber : Option CStr
  tracktotal : Option CStr
  duration : Option Nat
deriving DecidableEq, Repr

/-- Modelled from the spec: one snapshot of the metadata cache, whose code
(`cache.c`) is not among the sources.  It holds the path, the eleven metadata
fields and the duration of a track. -/
structure cache_record where
  path : CStr
  album : Option CStr
  albumartist : Option CStr
  artist : Option CStr
  comment : Option CStr
  date : Option CStr
  discnumber : Option CStr
  disctotal : Option CStr
  genre : Option CStr
  title : Option CStr
  tracknumber : Option CStr
  tracktotal : Option CStr
  duration : Nat
deriving DecidableEq, Repr

/-- What the functions of `track.c` do that is seen from outside: the calls
of a plug-in's `get_metadata`, the messages and the log lines. -/
inductive Event where
  | get_metadata (ip : Ip) (path : CStr)
  | msg_unsupported (path : CStr)
  | log_in_tree (path : CStr)
  | log_no_ip (path : CStr)
  | msg_updating (i n : Nat) (percent : Option Nat)
deriving DecidableEq, Repr

/-- The world around `track.c` during one call: the plug-in registry, the
files as the plug-ins and `access` see them, whether the cache can be opened,
and the content of the memory that `xmalloc` hands out. -/
structure Env where
  plugin_find_ip : CStr → Option Ip
  tags : Ip → CStr → metadata
  access : CStr → Int
  cache_open : cache_mode → Int
  xmalloc : track_entry

/-- The global variables of `track.c`, the content of the metadata cache
(`none` is a record that cannot be read back) and the events so far. -/
structure State where
  track_tree : List track_entry
  track_nentries : Nat
  track_tree_modified : Int
  cache : List (Option cache_record)
  trace : List Event
deriving DecidableEq, Repr

/-- The state at program start: the variables of `track.c` as C initialises
them, and the cache as an earlier run left it. -/
def State.init (cache : List (Option cache_record)) : State :=
  { track_tree := [], track_nentries := 0, track_tree_modified := 0, cache := cache,
    trace := [] }

/-- The call `ip->get_metadata(t)` as `ip_aac_get_metadata` and
`ip_sndfile_get_metadata` do it: a tag found in the file overwrites its
field and a tag not found leaves the field as it is; the duration is written
when the file could be opened. -/
def ip_get_metadata (env : Env) (ip : Ip) (t : track) : track :=
  let m := env.tags ip t.path
  { t with
    album := m.album.orElse fun _ => t.album
    albumartist := m.albumartist.orElse fun _ => t.albumartist
    artist := m.artist.orElse fun _ => t.artist
    comment := m.comment.orElse fun _ => t.comment
    date := m.date.orElse fun _ => t.date
    discnumber := m.discnumber.orElse fun _ => t.discnumber
    disctotal := m.disctotal.orElse fun _ => t.disctotal
    genre := m.genre.orElse fun _ => t.genre
    title := m.title.orElse fun _ => t.title
    tracknumber := m.tracknumber.orElse fun _ => t.tracknumber
    tracktotal := m.tracktotal.orElse fun _ => t.tracktotal
    duration := m.duration.getD t.duration }

/-- Modelled from the spec: what `cache_write_entry` stores of a track. -/
def cache_record_of (t : track) : cache_record :=
  { path := t.path, album := t.album, albumartist := t.albumartist, artist := t.artist,
    comment := t.comment, date := t.date, discnumber := t.discnumber,
    disctotal := t.disctotal, genre := t.genre, title := t.title,
    tracknumber := t.tracknumber, tracktotal := t.tracktotal, duration := t.duration }

/-- Modelled from the spec: `cache_read_entry` on the unread rest of the
cache.  A readable next record fills the path, the metadata fields and the
duration of the track and leaves it without plug-in and without session;
at the end of the data, or on a record that cannot be read, it returns -1. -/
def cache_read_entry (unread : List (Option cache_record)) (t : track) : Int × track :=
  match unread with
  | some r :: _ =>
    (0, { t with
          path := r.path, ip := none, ipdata := none, album := r.album,
          albumartist := r.albumartist, artist := r.artist, comment := r.comment,
          date := r.date, discnumber := r.discnumber, disctotal := r.disctotal,
          genre := r.genre, title := r.title, tracknumber := r.tracknumber,
          tracktotal := r.tracktotal, duration := r.duration })
  | _ => (-1, t)

/-- Modelled from the spec: `cache_write_entry`, which appends one snapshot
to the cache opened for writing. -/
def cache_write_entry (cache : List (Option cache_record)) (t : track) :
    List (Option cache_record) :=
  cache ++ [some (cache_record_of t)]

/-- Modelled from the spec: the macro `RB_FIND` of `tree.h`, which is not
among the sources.  The index is an ordered collection keyed by path, and
the lookup gives the entry that compares equal to the key, if there is
one. -/
def RB_FIND (tree : List track_entry) (path : CStr) : Option track_entry :=
  tree.find? fun te => strcmp path te.track.path = 0

/-- The place of a new entry in the iteration order: before the first
entry that compares greater. -/
def RB_PLACE (te : track_entry) : List track_entry → List track_entry
  | [] => [te]
  | x :: rest =>
    if track_cmp_entry te x < 0 then te :: x :: rest else x :: RB_PLACE te rest

/-- Modelled from the spec: the macro `RB_INSERT` of `tree.h`.  When an
entry compares equal to the new one the tree is left as it is and that entry
is returned; otherwise the new entry is put at its place in the order and
the result is `NULL`. -/
def RB_INSERT (tree : List track_entry) (te : track_entry) :
    Option track_entry × List track_entry :=
  match RB_FIND tree te.track.path with
  | some old => (some old, tree)
  | none => (none, RB_PLACE te tree)

/-- An assignment through the pointer that `RB_FIND` returned: the entry
found for the path is replaced by its image under `f`. -/
def RB_MODIFY (f : track_entry → track_entry) (path : CStr) :
    List track_entry → List track_entry
  | [] => []
  | x :: rest =>
    if strcmp path x.track.path = 0 then f x :: rest else x :: RB_MODIFY f path rest

/-! ## The functions of `track.c` -/

/-- The expression `(ip != NULL) ? ip : plugin_find_ip(path)` of
`track_add_new_entry` and `track_find_entry`. -/
def resolve_ip (env : Env) (path : CStr) (ip : Option Ip) : Option Ip :=
  match ip with
  | some i => some i
  | none => env.plugin_find_ip path

/-- The function `track_add_entry`. -/
def track_add_entry (s : State) (te : track_entry) : Int × State :=
  if s.track_nentries = SIZE_MAX then (-1, s)
  else
    match RB_INSERT s.track_tree te with
    | (some _, _) => (-1, { s with trace := s.trace ++ [Event.log_in_tree te.track.path] })
    | (none, tree) =>
      (0, { s with track_tree := tree, track_nentries := s.track_nentries + 1 })

/-- The function `track_init_metadata`. -/
def track_init_metadata (te : track_entry) : track_entry :=
  { te with
    track := { te.track with
      album := none, artist := none, date := none, discnumber := none, genre := none,
      title := none, tracknumber := none, duration := 0 } }

/-- The function `track_free_metadata`: it releases the strings of `album`,
`artist`, `date`, `genre`, `title` and `tracknumber` and assigns nothing, so
that every field still holds what it held. -/
def track_free_metadata (te : track_entry) : track_entry := te

/-- The function `track_add_new_entry`. -/
def track_add_new_entry (env : Env) (s : State) (path : CStr) (ip : Option Ip) :
    Option track × State :=
  let te := env.xmalloc
  let te := { te with delete := 0 }
  let te := { te with track := { te.track with path := path } }
  let te := { te with track := { te.track with ip := resolve_ip env path ip } }
  let te := { te with track := { te.track with ipdata := none } }
  let te := track_init_metadata te
  let (te, s) :=
    match te.track.ip with
    | some i =>
      ({ te with track := ip_get_metadata env i te.track },
       { s with trace := s.trace ++ [Event.get_metadata i te.track.path] })
    | none => (te, s)
  let (ret, s) := track_add_entry s te
  if ret = -1 then (none, s)
  else (some te.track, { s with track_tree_modified := 1 })

/-- The function `track_find_entry`.  The entry it returns is the one in the
tree after the assignment to its `ip`. -/
def track_find_entry (env : Env) (s : State) (path : CStr) (ip : Option Ip) :
    Option track_entry × State :=
  match RB_FIND s.track_tree path with
  | none => (none, s)
  | some te =>
    if te.track.ip = none then
      let f : track_entry → track_entry := fun x =>
        { x with track := { x.track with ip := resolve_ip env path ip } }
      (some (f te), { s with track_tree := RB_MODIFY f path s.track_tree })
    else (some te, s)

/-- The function `track_get`. -/
def track_get (env : Env) (s : State) (path : CStr) (ip : Option Ip) :
    Option track × State :=
  match track_find_entry env s path ip with
  | (some te, s) =>
    if te.track.ip ≠ none then (some te.track, s)
    else (none, { s with trace := s.trace ++ [Event.msg_unsupported path] })
  | (none, s) =>
    match ip with
    | some i => track_add_new_entry env s path (some i)
    | none =>
      match env.plugin_find_ip path with
      | none => (none, { s with trace := s.trace ++ [Event.msg_unsupported path] })
      | some i => track_add_new_entry env s path (some i)

/-- The loop of `track_read_cache` on the unread rest of the cache. -/
def track_read_cache_loop (env : Env) : List (Option cache_record) → State → State
  | [], s => s
  | r :: unread, s =>
    let te := env.xmalloc
    let te := { te with delete := 0 }
    let (ret, t) := cache_read_entry (r :: unread) te.track
    if ret = -1 then s
    else
      let (_, s) := track_add_entry s { te with track := t }
      track_read_cache_loop env unread s

/-- The function `track_read_cache`. -/
def track_read_cache (env : Env) (s : State) : State :=
  if env.cache_open cache_mode.CACHE_MODE_READ = -1 then s
  else track_read_cache_loop env s.cache s

/-- The function `track_init`. -/
def track_init (env : Env) (s : State) : State := track_read_cache env s

/-- The function `track_require`. -/
def track_require (env : Env) (s : State) (path : CStr) : Option track × State :=
  match track_find_entry env s path none with
  | (some te, s) => (some te.track, s)
  | (none, s) => track_add_new_entry env s path none

/-- One pass of the loop of `track_update_metadata` on one entry, after the
progress message: the entry afterwards and the events of the pass. -/
def track_update_entry (env : Env) (delete : Int) (te : track_entry) :
    track_entry × List Event :=
  if env.access te.track.path = -1 then
    (if delete ≠ 0 then { te with delete := 1 } else te, [])
  else
    let te :=
      if te.track.ip = none then
        { te with track := { te.track with ip := env.plugin_find_ip te.track.path } }
      else te
    match te.track.ip with
    | none => (te, [Event.log_no_ip te.track.path])
    | some i =>
      let te := track_free_metadata te
      let te := track_init_metadata te
      ({ te with track := ip_get_metadata env i te.track },
       [Event.get_metadata i te.track.path])

/-- The loop of `track_update_metadata` from the counter `i` on: the entries
afterwards, in the same order, and the events.  The counter and the
percentage are computed in `size_t`; `none` is a division by zero. -/
def track_update_loop (env : Env) (delete : Int) (n : Nat) :
    Nat → List track_entry → List track_entry × List Event
  | _, [] => ([], [])
  | i, te :: rest =>
    let percent := if n = 0 then none else some (100 * i % (SIZE_MAX + 1) / n)
    let (te, evs) := track_update_entry env delete te
    let (rest, evs_rest) := track_update_loop env delete n ((i + 1) % (SIZE_MAX + 1)) rest
    (te :: rest, Event.msg_updating i n percent :: evs ++ evs_rest)

/-- The function `track_update_metadata`. -/
def track_update_metadata (env : Env) (s : State) (delete : Int) : State :=
  let (tree, evs) := track_update_loop env delete s.track_nentries 1 s.track_tree
  { s with track_tree := tree, trace := s.trace ++ evs, track_tree_modified := 1 }

/-- The loop of `track_write_cache` over the entries in iteration order, on
the cache opened for writing. -/
def track_write_cache_loop :
    List track_entry → List (Option cache_record) → List (Option cache_record)
  | [], cache => cache
  | te :: rest, cache =>
    track_write_cache_loop rest (if te.delete = 0 then cache_write_entry cache te.track else cache)

/-- The function `track_write_cache`.  Opening the cache for writing starts
it afresh. -/
def track_write_cache (env : Env) (s : State) : Int × State :=
  if env.cache_open cache_mode.CACHE_MODE_WRITE = -1 then (-1, s)
  else
    (0, { s with cache := track_write_cache_loop s.track_tree [], track_tree_modified := 0 })

/-- The function `track_end`. -/
def track_end (env : Env) (s : State) : State :=
  let s := if s.track_tree_modified ≠ 0 then (track_write_cache env s).2 else s
  { s with track_tree := [] }

/-! ## Sequences of calls -/

/-- The calls of `track.c` that change the index. -/
inductive Op where
  | track_read_cache
  | track_get (path : CStr) (ip : Option Ip)
  | track_require (path : CStr)
  | track_update_metadata (delete : Int)
  | track_write_cache

/-- The state after one call, in the world `env`. -/
def step (env : Env) (s : State) : Op → State
  | Op.track_read_cache => track_read_cache env s
  | Op.track_get path ip => (track_get env s path ip).2
  | Op.track_require path => (track_require env s path).2
  | Op.track_update_metadata delete => track_update_metadata env s delete
  | Op.track_write_cache => (track_write_cache env s).2

/-- The states that a run of the program reaches from the empty index,
whatever the world is at each call. -/
inductive Reachable : State → Prop where
  | init (cache : List (Option cache_record)) : Reachable (State.init cache)
  | step (env : Env) (op : Op) {s : State} : Reachable s → Reachable (step env s op)

/-- The entries have pairwise distinct paths. -/
def distinct_paths (tree : List track_entry) : Prop :=
  tree.Pairwise fun a b => a.track.path ≠ b.track.path

/-- The entries are in strictly ascending byte-wise order of their paths,
the iteration order of the tree. -/
def path_sorted (tree : List track_entry) : Prop :=
  tree.Pairwise fun a b => track_cmp_entry a b < 0

/-- The invariant of the index: the entries are in strictly ascending order
of their paths, and the live-entry count is the number of entries and fits
`size_t`. -/
def State.WF (s : State) : Prop :=
  path_sorted s.track_tree ∧ s.track_nentries = s.track_tree.length ∧
  s.track_nentries ≤ SIZE_MAX

/-- The entry that `track_add_new_entry` has built when it calls
`track_add_entry`: fresh memory with the path, the resolved plug-in, no
session and the fields that `track_init_metadata` resets, after the fetch of
the plug-in when there is one. -/
def new_entry (env : Env) (path : CStr) (ip : Option Ip) : track_entry :=
  let te := track_init_metadata
    { track := { env.xmalloc.track with
                 path := path, ip := resolve_ip env path ip, ipdata := none },
      delete := 0 }
  match resolve_ip env path ip with
  | some i => { te with track := ip_get_metadata env i te.track }
  | none => te

/-- The events of `track_add_new_entry` before it calls `track_add_entry`:
the fetch of the plug-in when there is one. -/
def new_entry_events (env : Env) (path : CStr) (ip : Option Ip) : List Event :=
  match resolve_ip env path ip with
  | some i => [Event.get_metadata i path]
  | none => []

/-- The entry that the loop of `track_read_cache` passes to
`track_add_entry` for a record it could read. -/
def cache_entry (env : Env) (r : cache_record) : track_entry :=
  { track := (cache_read_entry [some r] env.xmalloc.track).2, delete := 0 }

/-- The events that are calls of a plug-in's `get_metadata`. -/
def fetches (evs : List Event) : List Event :=
  evs.filter fun e =>
    match e with
    | Event.get_metadata _ _ => true
    | _ => false

/-- A track that has only a path; the other fields are absent or zero. -/
def track.blank (path : CStr) : track :=
  { path := path, ip := none, ipdata := none, album := none, albumartist := none,
    artist := none, comment := none, date := none, discnumber := none, disctotal := none,
    filename := none, genre := none, title := none, tracknumber := none,
    tracktotal := none, duration := 0,
    format := { byte_order := 0, nbits := 0, nchannels := 0, rate := 0 } }

/-- A file without tags. -/
def metadata.none : metadata :=
  { album := Option.none, albumartist := Option.none, artist := Option.none,
    comment := Option.none, date := Option.none, discnumber := Option.none,
    disctotal := Option.none, genre := Option.none, title := Option.none,
    tracknumber := Option.none, tracktotal := Option.none, duration := Option.none }

/-- A sample world: plug-in 0 plays every file whose path ends in the byte
`a`, every file is reachable and carries the title `t` and a duration of 5 s,
the cache can be opened, and fresh memory is blank. -/
def Env.sample : Env :=
  { plugin_find_ip := fun p => if p.getLast? = some 97 then some 0 else none
    tags := fun _ _ => { metadata.none with title := some [116], duration := some 5 }
    access := fun _ => 0
    cache_open := fun _ => 0
    xmalloc := { track := track.blank [], delete := 0 } }

/-- The entry of the sample world for the path `a`, once fetched. -/
def track.sample : track :=
  { track.blank [97] with ip := some 0, title := some [116], duration := 5 }

/-- The value is absent or parses as an integer in `[0, INT_MAX]`. -/
def numeric (v : Option CStr) : Bool :=
  match v with
  | none => true
  | some a => (strtonum a).isSome

/-- The value is absent or fails to parse as an integer in `[0, INT_MAX]`. -/
def textual (v : Option CStr) : Bool :=
  match v with
  | none => true
  | some a => (strtonum a).isNone

/-- Among three values of one key, those present all parse as integers, or
none of them does. -/
def uniform (x y z : Option CStr) : Bool :=
  (numeric x && numeric y && numeric z) || (textual x && textual y && textual z)

/-- The results of one comparison on the pairs of a triple, `x` with `y`,
`y` with `z` and `x` with `z`, fit together as those of an order do. -/
def Tr (xy yz xz : Int) : Prop :=
  (xy < 0 → yz < 0 → xz < 0) ∧ (xy = 0 → yz = 0 → xz = 0) ∧
  (xy < 0 → yz = 0 → xz < 0) ∧ (xy = 0 → yz < 0 → xz < 0)

/-- A track that has only a path and a date. -/
def track.dated (path date : String) : track :=
  { track.blank (cstr path) with date := some (cstr date) }

/-- The index of the sample world after `track_get` for the path `a` on the
empty index. -/
def State.sample : State := step Env.sample (State.init []) (Op.track_get [97] none)

/-- An index of two entries, the second one tombstoned. -/
def State.two : State :=
  { track_tree :=
      [{ track := track.sample, delete := 0 },
       { track := { track.blank [98] with artist := some [120] }, delete := 1 }]
    track_nentries := 2
    track_tree_modified := 1
    cache := []
    trace := [] }

/-- The index of the sample world after `track_require` for the path `b`,
for which the registry has no plug-in. -/
def State.lazy : State := step Env.sample (State.init []) (Op.track_require [98])

/-- A tree of `SIZE_MAX` entries; the path of entry `i` is `i + 1` times the
byte 1. -/
@[irreducible]
def full_tree : List track_entry :=
  (List.range SIZE_MAX).map fun i =>
    { track := track.blank (List.replicate (i + 1) 1), delete := 0 }

/-- An index that holds `SIZE_MAX` entries. -/
def State.full : State :=
  { track_tree := full_tree
    track_nentries := SIZE_MAX
    track_tree_modified := 0
    cache := []
    trace := [] }

/-- The sample world with files that carry an album artist as well. -/
def Env.tagged : Env :=
  { Env.sample with
    tags := fun _ _ =>
      { metadata.none with albumartist := some [120], title := some [116],
                           duration := some 5 } }

/-- The index after `track_get` for the path `a` while its file carried an
album artist. -/
def State.tagged : State := step Env.tagged (State.init []) (Op.track_get [97] none)

/-- The sample world with no file reachable. -/
def Env.offline : Env := { Env.sample with access := fun _ => -1 }

/-- The tree that the loop of `track_read_cache` makes of a tree and of
records that it can read, as long as the live-entry count stays below
`SIZE_MAX`: each record whose path is not yet there is put at its place. -/
def cache_insert_all (env : Env) : List cache_record → List track_entry → List track_entry
  | [], tree => tree
  | r :: recs, tree =>
    cache_insert_all env recs
      (match RB_FIND tree r.path with
       | none => RB_PLACE (cache_entry env r) tree
       | some _ => tree)

/-- The record of a track that has only a path, which is `i + 1` times the
byte 1. -/
def ones_record (i : Nat) : cache_record :=
  cache_record_of (track.blank (List.replicate (i + 1) 1))

/-- A cache of `SIZE_MAX + 1` records with pairwise distinct paths. -/
@[irreducible]
def over_full_cache : List cache_record := (List.range (SIZE_MAX + 1)).map ones_record

/-! ## The output plug-in `op/oss.c` -/

/-- The conversion of an `unsigned int` to `int`, both of 32 bits. -/
def int_of_uint (n : Nat) : Int :=
  if n % 4294967296 < 2147483648 then (n % 4294967296 : Nat) else (n % 4294967296 : Nat) - 4294967296

/-- The conversion of an `int` to `unsigned int`, both of 32 bits. -/
def uint_of_int (i : Int) : Nat := (i % 4294967296).toNat

/-- The conversion of an `int` to `size_t`, of 64 bits. -/
def size_of_int (i : Int) : Nat := (i % 18446744073709551616).toNat

/-- The constant `OP_OSS_BUFSIZE`. -/
def OP_OSS_BUFSIZE : Nat := 4096

/-- The constants `BYTE_ORDER_BIG` and `BYTE_ORDER_LITTLE` of the
enumeration `byte_order`. -/
def BYTE_ORDER_BIG : Nat := 0

/-- The second constant of the enumeration `byte_order`. -/
def BYTE_ORDER_LITTLE : Nat := 1

/-- The system calls that `oss.c` makes on the device. -/
inductive OssCall where
  | sys_open
  | sys_close (fd : Int)
  | channels (arg : Int)
  | setfmt (arg : Int)
  | speed (arg : Int)
  | getblksize
  | getplayvol
  | setplayvol (arg : Int)
  | sys_write (bufsize : Nat)
deriving DecidableEq, Repr

/-- The world around `oss.c` during one call.  `sys_open` is the result of
`open` on the device, a descriptor or -1; an `ioctl` gives its return value
and what it leaves in `arg`; `sys_write` gives the return value of `write`
for a buffer of the given length, the number of bytes that the device took
or -1.  `AFMT_S16_NE` and `AFMT_S16_BE` are the constants of `soundcard.h`,
`have_volume_support` says whether `OP_OSS_HAVE_VOLUME_SUPPORT` is defined,
and `oss_device` is the value of the option `oss-device`. -/
structure OssEnv where
  sys_open : Int
  ioctl_channels : Int → Int × Int
  ioctl_setfmt : Int → Int × Int
  ioctl_speed : Int → Int × Int
  ioctl_getblksize : Int × Int
  ioctl_getplayvol : Int × Int
  ioctl_setplayvol : Int → Int
  sys_write : Nat → Int
  AFMT_S16_NE : Int
  AFMT_S16_BE : Int
  have_volume_support : Bool
  oss_device : CStr

/-- The global variables of `oss.c` and the system calls so far. -/
structure Oss where
  op_oss_buffer_size : Nat
  op_oss_fd : Int
  op_oss_device : Option CStr
  op_oss_volume : Int
  calls : List OssCall
deriving DecidableEq, Repr

/-- The function `op_oss_get_buffer_size`. -/
def op_oss_get_buffer_size (s : Oss) : Nat := s.op_oss_buffer_size

/-- The function `op_oss_get_volume`. -/
def op_oss_get_volume (env : OssEnv) (s : Oss) : Int × Oss :=
  if s.op_oss_fd = -1 then (s.op_oss_volume, s)
  else
    let (ret, arg) := env.ioctl_getplayvol
    let s := { s with calls := s.calls ++ [OssCall.getplayvol] }
    if ret = -1 then (-1, s)
    else (arg % 256, s)

/-- The function `op_oss_get_volume_support`. -/
def op_oss_get_volume_support (env : OssEnv) (s : Oss) : Int :=
  if env.have_volume_support then (if s.op_oss_volume = -1 then 0 else 1) else 0

/-- The function `op_oss_set_volume`. -/
def op_oss_set_volume (env : OssEnv) (s : Oss) (volume : Nat) : Oss :=
  if s.op_oss_fd = -1 then { s with op_oss_volume := int_of_uint volume }
  else
    let arg := int_of_uint (volume ||| (volume <<< 8))
    let _ := env.ioctl_setplayvol arg
    { s with calls := s.calls ++ [OssCall.setplayvol arg] }

/-- The function `op_oss_open`. -/
def op_oss_open (env : OssEnv) (s : Oss) : Int × Oss :=
  let s := { s with op_oss_device := some env.oss_device }
  if env.have_volume_support then
    let s := { s with op_oss_fd := env.sys_open, calls := s.calls ++ [OssCall.sys_open] }
    if s.op_oss_fd = -1 then (-1, s)
    else
      let (vol, s) := op_oss_get_volume env s
      let s := { s with op_oss_volume := vol }
      let s := { s with calls := s.calls ++ [OssCall.sys_close s.op_oss_fd] }
      (0, { s with op_oss_fd := -1 })
  else (0, s)

/-- The label `error` of `op_oss_start`. -/
def op_oss_start_error (s : Oss) (sf : sample_format) : Int × Oss × sample_format :=
  let s := { s with calls := s.calls ++ [OssCall.sys_close s.op_oss_fd] }
  (-1, { s with op_oss_fd := -1 }, sf)

/-- The function `op_oss_start`. -/
def op_oss_start (env : OssEnv) (s : Oss) (sf : sample_format) : Int × Oss × sample_format :=
  let s := { s with op_oss_fd := env.sys_open, calls := s.calls ++ [OssCall.sys_open] }
  if s.op_oss_fd = -1 then (-1, s, sf)
  else
    let arg := int_of_uint sf.nchannels
    let (ret, arg') := env.ioctl_channels arg
    let s := { s with calls := s.calls ++ [OssCall.channels arg] }
    if ret = -1 then op_oss_start_error s sf
    else if arg' ≠ int_of_uint sf.nchannels then op_oss_start_error s sf
    else
      let arg := env.AFMT_S16_NE
      let (ret, arg') := env.ioctl_setfmt arg
      let s := { s with calls := s.calls ++ [OssCall.setfmt arg] }
      if ret = -1 then op_oss_start_error s sf
      else if arg' ≠ env.AFMT_S16_NE then op_oss_start_error s sf
      else
        let arg := int_of_uint sf.rate
        let (ret, arg') := env.ioctl_speed arg
        let s := { s with calls := s.calls ++ [OssCall.speed arg] }
        if ret = -1 then op_oss_start_error s sf
        else if uint_of_int arg' < sf.rate * 995 % 4294967296 / 1000 ∨
            uint_of_int arg' > sf.rate * 1005 % 4294967296 / 1000 then
          op_oss_start_error s sf
        else
          let sf := { sf with
            byte_order :=
              if env.AFMT_S16_NE = env.AFMT_S16_BE then BYTE_ORDER_BIG else BYTE_ORDER_LITTLE }
          let (ret, arg') := env.ioctl_getblksize
          let s := { s with calls := s.calls ++ [OssCall.getblksize] }
          let s :=
            if ret = -1 then { s with op_oss_buffer_size := OP_OSS_BUFSIZE }
            else { s with op_oss_buffer_size := size_of_int arg' }
          let s :=
            if env.have_volume_support ∧ s.op_oss_volume ≠ -1 then
              op_oss_set_volume env s (uint_of_int s.op_oss_volume)
            else s
          (0, s, sf)

/-- The function `op_oss_stop`. -/
def op_oss_stop (env : OssEnv) (s : Oss) : Int × Oss :=
  let s :=
    if env.have_volume_support ∧ s.op_oss_volume ≠ -1 then
      let (vol, s) := op_oss_get_volume env s
      if vol ≠ -1 then { s with op_oss_volume := vol } else s
    else s
  let s := { s with calls := s.calls ++ [OssCall.sys_close s.op_oss_fd] }
  (0, { s with op_oss_fd := -1 })

/-- The function `op_oss_write`, on a buffer of `bufsize` bytes. -/
def op_oss_write (env : OssEnv) (s : Oss) (bufsize : Nat) : Int × Oss :=
  let s := { s with calls := s.calls ++ [OssCall.sys_write bufsize] }
  if env.sys_write bufsize = -1 then (-1, s) else (0, s)

/-- A device that takes every setting: descriptor 3, stereo or whatever is
asked, the format asked, the given rate whatever is asked, blocks of 1024
bytes, and every buffer whole. -/
def OssEnv.sample (rate : Int) : OssEnv :=
  { sys_open := 3
    ioctl_channels := fun arg => (0, arg)
    ioctl_setfmt := fun arg => (0, arg)
    ioctl_speed := fun _ => (0, rate)
    ioctl_getblksize := (0, 1024)
    ioctl_getplayvol := (0, 12850)
    ioctl_setplayvol := fun _ => 0
    sys_write := fun n => n
    AFMT_S16_NE := 16
    AFMT_S16_BE := 32
    have_volume_support := true
    oss_device := [47, 100, 101, 118, 47, 100, 115, 112] }

/-- The variables of `oss.c` after `op_oss_open` on the sample device and a
first session with blocks of 512 bytes: the device is closed. -/
def Oss.sample : Oss :=
  { op_oss_buffer_size := 512, op_oss_fd := -1,
    op_oss_device := some [47, 100, 101, 118, 47, 100, 115, 112], op_oss_volume := 50,
    calls := [] }

/-- The sample format of a compact disc, before the byte order is set. -/
def sample_format.cd : sample_format :=
  { byte_order := 0, nbits := 16, nchannels := 2, rate := 44100 }

/-- The failure points of `op_oss_start`: the device cannot be opened, the
number of channels is refused or not taken as asked, the sample encoding is
refused or not taken as asked, the rate is refused or, as the device reports
it, lies outside the bounds that `op_oss_start` computes. -/
def op_oss_start_fails (env : OssEnv) (sf : sample_format) : Prop :=
  env.sys_open = -1 ∨
  (env.ioctl_channels (int_of_uint sf.nchannels)).1 = -1 ∨
  (env.ioctl_channels (int_of_uint sf.nchannels)).2 ≠ int_of_uint sf.nchannels ∨
  (env.ioctl_setfmt env.AFMT_S16_NE).1 = -1 ∨
  (env.ioctl_setfmt env.AFMT_S16_NE).2 ≠ env.AFMT_S16_NE ∨
  (env.ioctl_speed (int_of_uint sf.rate)).1 = -1 ∨
  uint_of_int (env.ioctl_speed (int_of_uint sf.rate)).2 < sf.rate * 995 % 4294967296 / 1000 ∨
  uint_of_int (env.ioctl_speed (int_of_uint sf.rate)).2 > sf.rate * 1005 % 4294967296 / 1000

/-- The sample device, but it takes only mono. -/
def OssEnv.mono : OssEnv :=
  { OssEnv.sample 44100 with ioctl_channels := fun _ => (0, 1) }

/-- The sample device, but it takes 10 bytes of every buffer. -/
def OssEnv.short : OssEnv :=
  { OssEnv.sample 44100 with sys_write := fun _ => 10 }

/-! ## The input plug-in `ip/aac.c` -/

/-- The constant `UINT32_MAX`, the largest `MP4SampleId`. -/
def UINT32_MAX : Nat := 4294967295

/-- The constant `UINT64_MAX`, the largest `MP4Duration`. -/
def UINT64_MAX : Nat := 18446744073709551615

/-- What the libraries give for one frame of the track, by its sample id:
whether `MP4ReadSample` can read it, its duration from
`MP4GetSampleDuration`, and from `NeAACDecDecode` the error code
`frame.error` and the decoded 16-bit samples, each as its two bytes in
memory; `frame.samples` is their number. -/
structure aac_frame where
  read_ok : Bool
  duration : Nat
  error : Nat
  samples : List (Nat × Nat)
deriving DecidableEq, Repr

/-- The file and the decoder as `aac.c` sees them during one call. -/
structure AacEnv where
  frame : Nat → aac_frame

/-- The bytes of decoded samples, in memory order. -/
def pcm_bytes : List (Nat × Nat) → List Nat
  | [] => []
  | (lo, hi) :: rest => lo :: hi :: pcm_bytes rest

/-- The structure `ip_aac_ipdata`, without the handles of the libraries and
the read buffer.  `pcmbuf` is given by the bytes from that pointer on to the
end of the decoder's output. -/
structure ip_aac_ipdata where
  nsamples : Nat
  sample : Nat
  pos : Nat
  aacbufsize : Nat
  pcmbuflen : Nat
  pcmbuf : List Nat
deriving DecidableEq, Repr

/-- The structure `sample_buffer`; `data` is given by the bytes of the
buffer. -/
structure sample_buffer where
  data : List Nat
  size_b : Nat
  size_s : Nat
  len_b : Nat
  len_s : Nat
  nbytes : Nat
  swap : Int
deriving DecidableEq, Repr

/-- The function `ip_aac_fill_buffer`; its loop runs at most `fuel` passes,
and `none` means that it has not returned within them. -/
def ip_aac_fill_buffer (env : AacEnv) :
    Nat → ip_aac_ipdata → Option (Int × ip_aac_ipdata)
  | 0, _ => none
  | fuel + 1, ipd =>
    if ipd.sample > ipd.nsamples then some (0, ipd)
    else if (env.frame ipd.sample).read_ok = false then some (-1, ipd)
    else
      let frame := env.frame ipd.sample
      let ipd := { ipd with pos := (ipd.pos + frame.duration) % (UINT64_MAX + 1) }
      let ipd := { ipd with sample := (ipd.sample + 1) % (UINT32_MAX + 1) }
      let ipd := { ipd with pcmbuf := pcm_bytes frame.samples }
      if frame.error ≠ 0 then some (-1, ipd)
      else if frame.samples.length > 0 then
        some (1, { ipd with pcmbuflen := frame.samples.length * 2 })
      else ip_aac_fill_buffer env fuel ipd

/-- The end of one pass of the loop of `ip_aac_read`: `len` bytes go from
`pcmbuf` to the buffer, behind the bytes copied so far. -/
def ip_aac_read_copy (ipd : ip_aac_ipdata) (buf : List Nat) (bufsize : Nat) :
    ip_aac_ipdata × List Nat × Nat :=
  let len := if bufsize < ipd.pcmbuflen then bufsize else ipd.pcmbuflen
  ({ ipd with pcmbuf := ipd.pcmbuf.drop len, pcmbuflen := ipd.pcmbuflen - len },
    buf ++ ipd.pcmbuf.take len, bufsize - len)

/-- The loop of `ip_aac_read`, with the bytes copied so far and `bufsize`;
it runs at most the given number of passes, each call of
`ip_aac_fill_buffer` having `fuel` passes.  The result says whether the
loop was left by `return -1`. -/
def ip_aac_read_loop (env : AacEnv) (fuel : Nat) :
    Nat → ip_aac_ipdata → List Nat → Nat → Option (Bool × ip_aac_ipdata × List Nat × Nat)
  | 0, _, _, _ => none
  | passes + 1, ipd, buf, bufsize =>
    if bufsize > 0 then
      if ipd.pcmbuflen = 0 then
        match ip_aac_fill_buffer env fuel ipd with
        | none => none
        | some (ret, ipd) =>
          if ret = 0 then some (false, ipd, buf, bufsize)
          else if ret = -1 then some (true, ipd, buf, bufsize)
          else
            ip_aac_read_loop env fuel passes (ip_aac_read_copy ipd buf bufsize).1
              (ip_aac_read_copy ipd buf bufsize).2.1 (ip_aac_read_copy ipd buf bufsize).2.2
      else
        ip_aac_read_loop env fuel passes (ip_aac_read_copy ipd buf bufsize).1
          (ip_aac_read_copy ipd buf bufsize).2.1 (ip_aac_read_copy ipd buf bufsize).2.2
    else some (false, ipd, buf, bufsize)

/-- The function `ip_aac_read` on the session `ipd` of the track and the
buffer `sb`; each of its loops runs at most `fuel` passes, and `none` means
that it has not returned within them.  The division by `nbytes` is that of
C for `nbytes > 0`. -/
def ip_aac_read (env : AacEnv) (fuel : Nat) (ipd : ip_aac_ipdata) (sb : sample_buffer) :
    Option (Int × ip_aac_ipdata × sample_buffer) :=
  match ip_aac_read_loop env fuel fuel ipd [] sb.size_b with
  | none => none
  | some (true, ipd, buf, _) =>
    some (-1, ipd, { sb with data := buf ++ sb.data.drop buf.length })
  | some (false, ipd, buf, bufsize) =>
    let sb := { sb with data := buf ++ sb.data.drop buf.length }
    let sb := { sb with len_b := sb.size_b - bufsize }
    let sb := { sb with len_s := sb.len_b / sb.nbytes }
    some (if sb.len_s ≠ 0 then 1 else 0, ipd, sb)

/-- A frame that decodes to the given samples. -/
def aac_frame.ok (samples : List (Nat × Nat)) : aac_frame :=
  { read_ok := true, duration := 1024, error := 0, samples := samples }

/-- A stream of three frames: a priming frame without samples, a frame of
two samples and a frame of one sample. -/
def AacEnv.sample : AacEnv :=
  { frame := fun k =>
      if k = 2 then aac_frame.ok [(1, 2), (3, 4)]
      else if k = 3 then aac_frame.ok [(5, 6)]
      else aac_frame.ok [] }

/-- The session on the sample stream after `ip_aac_open`. -/
def ip_aac_ipdata.opened : ip_aac_ipdata :=
  { nsamples := 3, sample := 1, pos := 0, aacbufsize := 768, pcmbuflen := 0, pcmbuf := [] }

/-- A buffer of `size` zero bytes for 16-bit samples. -/
def sample_buffer.sample (size : Nat) : sample_buffer :=
  { data := List.replicate size 0, size_b := size, size_s := size / 2, len_b := 0,
    len_s := 0, nbytes := 2, swap := 0 }

/-- The session on a stream whose only frame is a priming frame, before
that frame. -/
def ip_aac_ipdata.priming : ip_aac_ipdata := { ip_aac_ipdata.opened with nsamples := 1 }

/-- The session on the sample stream before its last frame, without
carried-over data. -/
def ip_aac_ipdata.last : ip_aac_ipdata := { ip_aac_ipdata.opened with sample := 3 }

/-- The session on the sample stream past its last frame, with one byte
carried over. -/
def ip_aac_ipdata.odd : ip_aac_ipdata :=
  { ip_aac_ipdata.opened with sample := 4, pcmbuflen := 1, pcmbuf := [9] }

/-! ## `ip_aac_seek`, `ip_aac_get_aac_track` and the bytes of a session -/

/-- The calls of `ip_aac_seek` into the MP4 library, on the handle and the
track of the session: the constant `MP4_INVALID_SAMPLE_ID`,
`MP4ConvertToTrackTimestamp` from a time in seconds, `MP4GetSampleIdFromTime`
from a timestamp, with `wantSyncSample` set, and `MP4GetSampleTime` from a
sample id. -/
structure AacSeekEnv where
  MP4_INVALID_SAMPLE_ID : Nat
  MP4ConvertToTrackTimestamp : Nat → Nat
  MP4GetSampleIdFromTime : Nat → Nat
  MP4GetSampleTime : Nat → Nat

/-- The function `ip_aac_seek` on the session `ipd` of the track. -/
def ip_aac_seek (env : AacSeekEnv) (ipd : ip_aac_ipdata) (pos : Nat) : ip_aac_ipdata :=
  let tim := env.MP4ConvertToTrackTimestamp pos
  let sample := env.MP4GetSampleIdFromTime tim
  if sample ≠ env.MP4_INVALID_SAMPLE_ID then
    { ipd with sample := sample, pos := env.MP4GetSampleTime sample }
  else ipd

/-- A track of three frames of 1024 time units each, at 1024 units a second:
second `pos` starts frame `pos + 1`, and sample id 0 is the invalid one. -/
def AacSeekEnv.sample : AacSeekEnv :=
  { MP4_INVALID_SAMPLE_ID := 0
    MP4ConvertToTrackTimestamp := fun pos => pos * 1024
    MP4GetSampleIdFromTime := fun tim => if tim / 1024 < 3 then tim / 1024 + 1 else 0
    MP4GetSampleTime := fun sample => (sample - 1) * 1024 }

/-- The file as `ip_aac_get_aac_track` sees it through the MP4 library:
`MP4GetNumberOfTracks` for the audio tracks, `MP4FindTrackId` from the index
of an audio track, `MP4GetTrackEsdsObjectTypeId` from a track id, the test
`MP4_IS_AAC_AUDIO_TYPE` on an object type and the constant
`MP4_INVALID_TRACK_ID`. -/
structure MP4FileHandle where
  MP4GetNumberOfTracks : Nat
  MP4FindTrackId : Nat → Nat
  MP4GetTrackEsdsObjectTypeId : Nat → Nat
  MP4_IS_AAC_AUDIO_TYPE : Nat → Bool
  MP4_INVALID_TRACK_ID : Nat

/-- The loop of `ip_aac_get_aac_track` from index `i` on, with the number of
indices left below `ntracks`. -/
def ip_aac_get_aac_track_loop (hdl : MP4FileHandle) : Nat → Nat → Nat
  | 0, _ => hdl.MP4_INVALID_TRACK_ID
  | left + 1, i =>
    let trk := hdl.MP4FindTrackId i
    let obj := hdl.MP4GetTrackEsdsObjectTypeId trk
    if hdl.MP4_IS_AAC_AUDIO_TYPE obj then trk
    else ip_aac_get_aac_track_loop hdl left (i + 1)

/-- The function `ip_aac_get_aac_track`. -/
def ip_aac_get_aac_track (hdl : MP4FileHandle) : Nat :=
  let ntracks := hdl.MP4GetNumberOfTracks
  ip_aac_get_aac_track_loop hdl ntracks 0

/-- Whether the audio track of index `i` has an AAC object type, as the loop
of `ip_aac_get_aac_track` tests it. -/
def MP4FileHandle.aac_at (hdl : MP4FileHandle) (i : Nat) : Bool :=
  hdl.MP4_IS_AAC_AUDIO_TYPE (hdl.MP4GetTrackEsdsObjectTypeId (hdl.MP4FindTrackId i))

/-- A file with the audio tracks 11, 12 and 13, of the object types 0x6b
(MP3), 0x40 (MPEG-4 audio) and 0x67 (MPEG-2 AAC LC); the AAC types are 0x40
and 0x66 to 0x68, and track id 0 is the invalid one. -/
def MP4FileHandle.sample : MP4FileHandle :=
  { MP4GetNumberOfTracks := 3
    MP4FindTrackId := fun i => if i < 3 then i + 11 else 0
    MP4GetTrackEsdsObjectTypeId := fun trk =>
      if trk = 11 then 107 else if trk = 12 then 64 else if trk = 13 then 103 else 0
    MP4_IS_AAC_AUDIO_TYPE := fun obj => (102 ≤ obj && obj ≤ 104) || obj == 64
    MP4_INVALID_TRACK_ID := 0 }

/-- The sum of the durations of the `n` frames from sample id `k` on. -/
def durations (env : AacEnv) : Nat → Nat → Nat
  | _, 0 => 0
  | k, n + 1 => (env.frame k).duration + durations env (k + 1) n

/-- The bytes of the `n` frames from sample id `k` on, as decoded, in
order. -/
def decoded_bytes (env : AacEnv) : Nat → Nat → List Nat
  | _, 0 => []
  | k, n + 1 => pcm_bytes (env.frame k).samples ++ decoded_bytes env (k + 1) n

/-- The bytes that a session has still to deliver: the bytes carried over,
then those of the frames from the cursor to the last frame. -/
def ip_aac_ipdata.pending (env : AacEnv) (ipd : ip_aac_ipdata) : List Nat :=
  ipd.pcmbuf.take ipd.pcmbuflen ++ decoded_bytes env ipd.sample (ipd.nsamples + 1 - ipd.sample)

/-- The bytes that a call of `ip_aac_read` has delivered in the buffer. -/
def sample_buffer.delivered (sb : sample_buffer) : List Nat := sb.data.take sb.len_b

/-- Successive calls of `ip_aac_read` on one session, one for each of the
given buffers, as long as none returns -1: the bytes delivered, in order, and
the session after the last call. -/
def ip_aac_read_all (env : AacEnv) (fuel : Nat) :
    ip_aac_ipdata → List sample_buffer → Option (List Nat × ip_aac_ipdata)
  | ipd, [] => some ([], ipd)
  | ipd, sb :: sbs =>
    match ip_aac_read env fuel ipd sb with
    | none => none
    | some (ret, ipd, sb) =>
      if ret = -1 then none
      else
        match ip_aac_read_all env fuel ipd sbs with
        | none => none
        | some (bytes, ipd) => some (sb.delivered ++ bytes, ipd)

/-! ## The input plug-in `ip/sndfile.c` -/

/-- The structure `ip_sndfile_ipdata` of `ip/sndfile.c`, without the handle
of the library: the position, in samples, of type `sf_count_t`. -/
structure ip_sndfile_ipdata where
  position : Int
deriving DecidableEq, Repr

/-- The division of C on signed integers, which truncates; `none` when the
divisor is 0, where C leaves it undefined. -/
def c_div (a b : Int) : Option Int :=
  if b = 0 then none else some (a.tdiv b)

/-- The function `ip_sndfile_get_position` on the track `t` and its session
`ipd`: what it returns and what it stores in `*pos`, an `unsigned int`; `none`
when it divides by 0.  The channel count and the rate are `unsigned int`, so
that the divisions are those of `sf_count_t`. -/
def ip_sndfile_get_position (t : track) (ipd : ip_sndfile_ipdata) : Option (Int × Nat) :=
  if t.format.nchannels ≤ 0 ∨ t.format.rate ≤ 0 then some (0, 0)
  else
    match c_div ipd.position t.format.nchannels with
    | none => none
    | some q =>
      match c_div q t.format.rate with
      | none => none
      | some pos => some (0, uint_of_int pos)

/-- The constant `UINT_MAX`. -/
def UINT_MAX : Nat := 4294967295

/-! ## Strings -/

theorem strcmp_self (a : CStr) : strcmp a a = 0 := by
  induction a with
  | nil => rfl
  | cons x xs ih => simp [strcmp, ih]

theorem strcmp_eq_zero_iff (a b : CStr) : strcmp a b = 0 ↔ a = b := by
  induction a generalizing b with
  | nil => cases b <;> simp [strcmp]
  | cons x xs ih =>
    cases b with
    | nil => simp [strcmp]
    | cons y ys =>
      simp only [strcmp]
      split_ifs with h1 h2
      · simp; omega
      · simp; omega
      · have : x = y := by omega
        simp [ih, this]

theorem strcmp_range (a b : CStr) : strcmp a b = -1 ∨ strcmp a b = 0 ∨ strcmp a b = 1 := by
  induction a generalizing b with
  | nil => cases b <;> simp [strcmp]
  | cons x xs ih =>
    cases b with
    | nil => simp [strcmp]
    | cons y ys =>
      simp only [strcmp]
      split_ifs
      · simp
      · simp
      · exact ih ys

theorem strcmp_swap (a b : CStr) : strcmp b a = -strcmp a b := by
  induction a generalizing b with
  | nil => cases b <;> simp [strcmp]
  | cons x xs ih =>
    cases b with
    | nil => simp [strcmp]
    | cons y ys =>
      simp only [strcmp]
      split_ifs <;> first | omega | rfl | exact ih ys

theorem strcmp_trans (a b c : CStr) (h1 : strcmp a b < 0) (h2 : strcmp b c < 0) :
    strcmp a c < 0 := by
  induction a generalizing b c with
  | nil =>
    cases c with
    | nil => cases b <;> simp [strcmp] at h1 h2
    | cons z zs => simp [strcmp]
  | cons x xs ih =>
    cases b with
    | nil => simp [strcmp] at h1
    | cons y ys =>
      cases c with
      | nil => simp [strcmp] at h2
      | cons z zs =>
        simp only [strcmp] at h1 h2 ⊢
        split_ifs at h1 h2 ⊢ <;> first | omega | exact ih ys zs h1 h2

/-! ## The tree -/

theorem RB_FIND_path {tree : List track_entry} {p : CStr} {te : track_entry}
    (h : RB_FIND tree p = some te) : te.track.path = p := by
  have := List.find?_some h
  simp only [decide_eq_true_eq] at this
  exact ((strcmp_eq_zero_iff _ _).1 this).symm

theorem RB_FIND_mem {tree : List track_entry} {p : CStr} {te : track_entry}
    (h : RB_FIND tree p = some te) : te ∈ tree :=
  List.mem_of_find?_eq_some h

theorem RB_FIND_eq_none {tree : List track_entry} {p : CStr} :
    RB_FIND tree p = none ↔ ∀ te ∈ tree, te.track.path ≠ p := by
  simp only [RB_FIND, List.find?_eq_none, decide_eq_true_eq, strcmp_eq_zero_iff]
  constructor
  · intro h te hte e
    exact h te hte e.symm
  · intro h te hte e
    exact h te hte e.symm

theorem RB_FIND_cons (x : track_entry) (tree : List track_entry) (p : CStr) :
    RB_FIND (x :: tree) p = if p = x.track.path then some x else RB_FIND tree p := by
  simp only [RB_FIND, List.find?_cons]
  by_cases h : p = x.track.path
  · simp [h, strcmp_self]
  · have : strcmp p x.track.path ≠ 0 := fun e => h ((strcmp_eq_zero_iff _ _).1 e)
    simp [h, this]

theorem RB_PLACE_mem (te x : track_entry) (tree : List track_entry) :
    x ∈ RB_PLACE te tree ↔ x = te ∨ x ∈ tree := by
  induction tree with
  | nil => simp [RB_PLACE]
  | cons y rest ih =>
    simp only [RB_PLACE]
    split_ifs
    · simp
    · simp only [List.mem_cons, ih]
      tauto

theorem RB_PLACE_length (te : track_entry) (tree : List track_entry) :
    (RB_PLACE te tree).length = tree.length + 1 := by
  induction tree with
  | nil => simp [RB_PLACE]
  | cons y rest ih =>
    simp only [RB_PLACE]
    split_ifs <;> simp [ih]

theorem RB_FIND_place {tree : List track_entry} {p : CStr} (te : track_entry)
    (hp : te.track.path = p) (h : RB_FIND tree p = none) :
    RB_FIND (RB_PLACE te tree) p = some te := by
  induction tree with
  | nil => simp [RB_PLACE, RB_FIND_cons, hp]
  | cons y rest ih =>
    rw [RB_FIND_cons] at h
    split_ifs at h with hy
    simp only [RB_PLACE]
    split_ifs
    · simp [RB_FIND_cons, hp]
    · rw [RB_FIND_cons, if_neg hy]
      exact ih h

theorem RB_FIND_place_ne {tree : List track_entry} {p : CStr} (te : track_entry)
    (hp : te.track.path ≠ p) :
    RB_FIND (RB_PLACE te tree) p = RB_FIND tree p := by
  induction tree with
  | nil => rw [RB_PLACE, RB_FIND_cons, if_neg (Ne.symm hp)]
  | cons y rest ih =>
    simp only [RB_PLACE]
    split_ifs
    · rw [RB_FIND_cons, if_neg (Ne.symm hp)]
    · rw [RB_FIND_cons, RB_FIND_cons, ih]

theorem RB_FIND_modify {tree : List track_entry} {p : CStr} {te : track_entry}
    (f : track_entry → track_entry) (hf : ∀ x, (f x).track.path = x.track.path)
    (h : RB_FIND tree p = some te) :
    RB_FIND (RB_MODIFY f p tree) p = some (f te) := by
  induction tree with
  | nil => simp [RB_FIND] at h
  | cons y rest ih =>
    rw [RB_FIND_cons] at h
    simp only [RB_MODIFY, strcmp_eq_zero_iff]
    split_ifs at h ⊢ with hy
    · simp only [Option.some.injEq] at h
      rw [RB_FIND_cons, hf, if_pos hy, h]
    · rw [RB_FIND_cons, if_neg hy]
      exact ih h

theorem RB_MODIFY_length (f : track_entry → track_entry) (p : CStr)
    (tree : List track_entry) : (RB_MODIFY f p tree).length = tree.length := by
  induction tree with
  | nil => rfl
  | cons y rest ih =>
    simp only [RB_MODIFY]
    split_ifs <;> simp [ih]

theorem RB_MODIFY_paths (f : track_entry → track_entry)
    (hf : ∀ x, (f x).track.path = x.track.path) (p : CStr) (tree : List track_entry) :
    (RB_MODIFY f p tree).map (fun te => te.track.path) = tree.map fun te => te.track.path := by
  induction tree with
  | nil => rfl
  | cons y rest ih =>
    simp only [RB_MODIFY]
    split_ifs <;> simp [ih, hf]

theorem ip_get_metadata_path (env : Env) (i : Ip) (t : track) :
    (ip_get_metadata env i t).path = t.path := rfl

theorem ip_get_metadata_ip (env : Env) (i : Ip) (t : track) :
    (ip_get_metadata env i t).ip = t.ip := rfl

/-! ## The functions on the index -/

theorem track_add_new_entry_eq (env : Env) (s : State) (p : CStr) (ip : Option Ip) :
    track_add_new_entry env s p ip =
      if (track_add_entry { s with trace := s.trace ++ new_entry_events env p ip }
          (new_entry env p ip)).1 = -1 then
        (none, (track_add_entry { s with trace := s.trace ++ new_entry_events env p ip }
          (new_entry env p ip)).2)
      else
        (some (new_entry env p ip).track,
          { (track_add_entry { s with trace := s.trace ++ new_entry_events env p ip }
              (new_entry env p ip)).2 with track_tree_modified := 1 }) := by
  cases h : resolve_ip env p ip with
  | some i => simp [track_add_new_entry, new_entry, new_entry_events, h, track_init_metadata]
  | none => simp [track_add_new_entry, new_entry, new_entry_events, h, track_init_metadata]

theorem new_entry_path (env : Env) (p : CStr) (ip : Option Ip) :
    (new_entry env p ip).track.path = p := by
  unfold new_entry
  cases resolve_ip env p ip <;> rfl

theorem new_entry_ip (env : Env) (p : CStr) (ip : Option Ip) :
    (new_entry env p ip).track.ip = resolve_ip env p ip := by
  unfold new_entry
  cases h : resolve_ip env p ip <;> simp [track_init_metadata, ip_get_metadata]

theorem new_entry_delete (env : Env) (p : CStr) (ip : Option Ip) :
    (new_entry env p ip).delete = 0 := by
  unfold new_entry
  cases resolve_ip env p ip <;> rfl

theorem RB_MODIFY_id {tree : List track_entry} {p : CStr} {te : track_entry}
    (f : track_entry → track_entry) (h : RB_FIND tree p = some te) (hf : f te = te) :
    RB_MODIFY f p tree = tree := by
  induction tree with
  | nil => rfl
  | cons y rest ih =>
    rw [RB_FIND_cons] at h
    simp only [RB_MODIFY, strcmp_eq_zero_iff]
    split_ifs at h ⊢ with hy
    · simp only [Option.some.injEq] at h
      rw [h, hf]
    · rw [ih h]

theorem track_add_entry_absent {s : State} {te : track_entry}
    (hn : s.track_nentries ≠ SIZE_MAX) (h : RB_FIND s.track_tree te.track.path = none) :
    track_add_entry s te =
      (0, { s with
            track_tree := RB_PLACE te s.track_tree, track_nentries := s.track_nentries + 1 }) := by
  simp [track_add_entry, hn, RB_INSERT, h]

theorem track_add_entry_present {s : State} {te old : track_entry}
    (hn : s.track_nentries ≠ SIZE_MAX) (h : RB_FIND s.track_tree te.track.path = some old) :
    track_add_entry s te =
      (-1, { s with trace := s.trace ++ [Event.log_in_tree te.track.path] }) := by
  simp [track_add_entry, hn, RB_INSERT, h]

theorem track_add_entry_full {s : State} (te : track_entry)
    (hn : s.track_nentries = SIZE_MAX) : track_add_entry s te = (-1, s) := by
  simp [track_add_entry, hn]

theorem track_get_bound {s : State} {p : CStr} {te : track_entry} (env : Env)
    (ip : Option Ip) (h : RB_FIND s.track_tree p = some te) (hip : te.track.ip ≠ none) :
    track_get env s p ip = (some te.track, s) := by
  simp [track_get, track_find_entry, h, hip]

theorem track_get_unbound {s : State} {p : CStr} {te : track_entry} (env : Env)
    (ip : Option Ip) (h : RB_FIND s.track_tree p = some te) (hip : te.track.ip = none) :
    track_get env s p ip =
      match resolve_ip env p ip with
      | some i =>
        (some { te.track with ip := some i },
         { s with
           track_tree :=
             RB_MODIFY (fun x => { x with track := { x.track with ip := some i } }) p
               s.track_tree })
      | none => (none, { s with trace := s.trace ++ [Event.msg_unsupported p] }) := by
  cases hr : resolve_ip env p ip with
  | some i => simp [track_get, track_find_entry, h, hip, hr]
  | none =>
    have hid : RB_MODIFY (fun x => { x with track := { x.track with ip := none } }) p
        s.track_tree = s.track_tree := by
      apply RB_MODIFY_id _ h
      cases te with
      | mk t d =>
        cases t
        simp only at hip
        simp [hip]
    simp [track_get, track_find_entry, h, hip, hr, hid]

theorem track_get_absent {s : State} {p : CStr} (env : Env) (ip : Option Ip)
    (h : RB_FIND s.track_tree p = none) :
    track_get env s p ip =
      match resolve_ip env p ip with
      | some i => track_add_new_entry env s p (some i)
      | none => (none, { s with trace := s.trace ++ [Event.msg_unsupported p] }) := by
  cases ip with
  | some i => simp [track_get, track_find_entry, h, resolve_ip]
  | none =>
    cases hr : env.plugin_find_ip p <;> simp [track_get, track_find_entry, h, resolve_ip, hr]

theorem track_add_new_entry_absent {s : State} {p : CStr} (env : Env) (ip : Option Ip)
    (hn : s.track_nentries ≠ SIZE_MAX) (h : RB_FIND s.track_tree p = none) :
    track_add_new_entry env s p ip =
      (some (new_entry env p ip).track,
       { s with
         track_tree := RB_PLACE (new_entry env p ip) s.track_tree
         track_nentries := s.track_nentries + 1
         track_tree_modified := 1
         trace := s.trace ++ new_entry_events env p ip }) := by
  rw [track_add_new_entry_eq,
    track_add_entry_absent (by simpa using hn) (by simpa [new_entry_path] using h)]
  simp

theorem track_add_new_entry_full {s : State} (env : Env) (p : CStr) (ip : Option Ip)
    (hn : s.track_nentries = SIZE_MAX) :
    track_add_new_entry env s p ip =
      (none, { s with trace := s.trace ++ new_entry_events env p ip }) := by
  rw [track_add_new_entry_eq, track_add_entry_full _ (by simpa using hn)]
  simp

/-- When `track_get` returns a track, that track is afterwards the entry of
the path, it has a plug-in, and at most one entry was added. -/
theorem track_get_returns {env : Env} {s : State} {p : CStr} {ip : Option Ip} {t : track}
    (h : (track_get env s p ip).1 = some t) :
    (∃ te, RB_FIND (track_get env s p ip).2.track_tree p = some te ∧ te.track = t ∧
      te.track.ip ≠ none) ∧
    (track_get env s p ip).2.track_nentries ≤ s.track_nentries + 1 := by
  cases hf : RB_FIND s.track_tree p with
  | some te =>
    by_cases hip : te.track.ip = none
    · rw [track_get_unbound env ip hf hip] at h ⊢
      cases hr : resolve_ip env p ip with
      | none => simp [hr] at h
      | some i =>
        simp only [hr, Option.some.injEq] at h ⊢
        refine ⟨⟨_, RB_FIND_modify _ (fun _ => rfl) hf, h, ?_⟩, Nat.le_succ _⟩
        simp
    · rw [track_get_bound env ip hf hip] at h ⊢
      simp only [Option.some.injEq] at h
      exact ⟨⟨te, hf, h, hip⟩, Nat.le_succ _⟩
  | none =>
    rw [track_get_absent env ip hf] at h ⊢
    cases hr : resolve_ip env p ip with
    | none => simp [hr] at h
    | some i =>
      simp only [hr] at h ⊢
      by_cases hn : s.track_nentries = SIZE_MAX
      · rw [track_add_new_entry_full env p (some i) hn] at h
        simp at h
      · rw [track_add_new_entry_absent env (some i) hn hf] at h ⊢
        simp only [Option.some.injEq] at h
        refine ⟨⟨_, RB_FIND_place _ (new_entry_path env p (some i)) hf, h, ?_⟩, le_refl _⟩
        simp [new_entry_ip, resolve_ip]

/-- C1: two calls of `track_get` for the same path in succession: when the
first call returns a track, the second call returns the same track, that
track is the entry of the path in the index, and the live-entry count after
both calls is at most the count before the first call plus one. -/
theorem track_get_twice (env1 env2 : Env) (s : State) (p : CStr) (ip : Option Ip)
    (t : track) (h : (track_get env1 s p ip).1 = some t) :
    (track_get env2 (track_get env1 s p ip).2 p ip).1 = some t ∧
    (∃ te, RB_FIND (track_get env2 (track_get env1 s p ip).2 p ip).2.track_tree p = some te ∧
      te.track = t) ∧
    (track_get env2 (track_get env1 s p ip).2 p ip).2.track_nentries ≤
      s.track_nentries + 1 := by
  obtain ⟨⟨te, hf, ht, hip⟩, hn⟩ := track_get_returns h
  rw [track_get_bound env2 ip hf hip]
  exact ⟨by rw [ht], ⟨te, hf, ht⟩, hn⟩

/-- Witness of C1 in the sample world: the first call on the empty index
creates the entry of the path `a`, the second call returns it again. -/
theorem track_get_twice_witness :
    (track_get Env.sample (State.init []) [97] none).1 = some track.sample ∧
    (track_get Env.sample (track_get Env.sample (State.init []) [97] none).2 [97] none).1 =
      some track.sample ∧
    (∃ te, RB_FIND
        (track_get Env.sample (track_get Env.sample (State.init []) [97] none).2
          [97] none).2.track_tree [97] = some te ∧ te.track = track.sample) ∧
    (track_get Env.sample (track_get Env.sample (State.init []) [97] none).2
      [97] none).2.track_nentries ≤ (State.init []).track_nentries + 1 :=
  ⟨by decide,
    track_get_twice Env.sample Env.sample (State.init []) [97] none track.sample (by decide)⟩

/-! ## The display order -/

theorem Tr_lex {xy1 yz1 xz1 xy2 yz2 xz2 : Int} (h1 : Tr xy1 yz1 xz1) (h2 : Tr xy2 yz2 xz2) :
    Tr (if xy1 ≠ 0 then xy1 else xy2) (if yz1 ≠ 0 then yz1 else yz2)
      (if xz1 ≠ 0 then xz1 else xz2) := by
  obtain ⟨a1, b1, c1, d1⟩ := h1
  obtain ⟨a2, b2, c2, d2⟩ := h2
  unfold Tr
  split_ifs <;> omega

theorem Tr_strcmp (a b c : CStr) : Tr (strcmp a b) (strcmp b c) (strcmp a c) := by
  refine ⟨strcmp_trans a b c, ?_, ?_, ?_⟩
  · intro h1 h2
    rw [strcmp_eq_zero_iff] at h1 h2 ⊢
    rw [h1, h2]
  · intro h1 h2
    rw [strcmp_eq_zero_iff] at h2
    rwa [← h2]
  · intro h1 h2
    rw [strcmp_eq_zero_iff] at h1
    rwa [h1]

theorem Tr_strcasecmp (a b c : CStr) :
    Tr (strcasecmp a b) (strcasecmp b c) (strcasecmp a c) :=
  Tr_strcmp _ _ _

theorem Tr_track_cmp_string (x y z : Option CStr) :
    Tr (track_cmp_string x y) (track_cmp_string y z) (track_cmp_string x z) := by
  cases x <;> cases y <;> cases z <;>
    first
    | exact Tr_strcasecmp _ _ _
    | (simp only [track_cmp_string, Tr]
       refine ⟨?_, ?_, ?_, ?_⟩ <;> intro h1 h2 <;> first | omega | contradiction | trivial)

theorem Tr_int (i j k : Nat) :
    Tr (if i < j then -1 else if i > j then 1 else 0)
      (if j < k then -1 else if j > k then 1 else 0)
      (if i < k then -1 else if i > k then 1 else 0) := by
  have lt : ∀ m n : Nat,
      (if m < n then (-1 : Int) else if m > n then 1 else 0) < 0 ↔ m < n := by
    intro m n
    by_cases h : m < n
    · simp [h]
    · by_cases h2 : m > n <;> simp [h, h2]
  have eq : ∀ m n : Nat,
      (if m < n then (-1 : Int) else if m > n then 1 else 0) = 0 ↔ m = n := by
    intro m n
    by_cases h : m < n
    · simp [h]; omega
    · by_cases h2 : m > n
      · simp [h, h2]; omega
      · simp [h, h2]; omega
  simp only [Tr, lt, eq]
  refine ⟨?_, ?_, ?_, ?_⟩ <;> intro h1 h2 <;> omega

theorem Tr_track_cmp_number (x y z : Option CStr) (h : uniform x y z = true) :
    Tr (track_cmp_number x y) (track_cmp_number y z) (track_cmp_number x z) := by
  cases x with
  | none =>
    cases y <;> cases z <;> simp only [track_cmp_number, Tr] <;>
      refine ⟨?_, ?_, ?_, ?_⟩ <;> intro h1 h2 <;> first | omega | contradiction | trivial
  | some a =>
    cases y with
    | none =>
      cases z <;> simp only [track_cmp_number, Tr] <;>
        refine ⟨?_, ?_, ?_, ?_⟩ <;> intro h1 h2 <;> omega
    | some b =>
      cases z with
      | none =>
        simp only [track_cmp_number, Tr]
        refine ⟨?_, ?_, ?_, ?_⟩ <;> intro h1 h2 <;> omega
      | some c =>
        simp only [uniform, numeric, textual, Bool.or_eq_true, Bool.and_eq_true,
          Option.isSome_iff_exists, Option.isNone_iff_eq_none] at h
        rcases h with ⟨⟨⟨i, hi⟩, ⟨j, hj⟩⟩, ⟨k, hk⟩⟩ | ⟨⟨ha, hb⟩, hc⟩
        · simp only [track_cmp_number, hi, hj, hk]
          exact Tr_int i j k
        · simp only [track_cmp_number, ha, hb]
          exact Tr_strcasecmp a b c

theorem track_cmp_string_self (x : Option CStr) : track_cmp_string x x = 0 := by
  cases x <;> simp [track_cmp_string, strcasecmp, strcmp_self]

theorem track_cmp_number_self (x : Option CStr) : track_cmp_number x x = 0 := by
  cases x with
  | none => rfl
  | some a =>
    simp only [track_cmp_number]
    cases strtonum a <;> simp [strcasecmp, strcmp_self]

theorem track_cmp_self (a : track) : track_cmp a a = 0 := by
  simp [track_cmp, track_cmp_string_self, track_cmp_number_self, strcmp_self]

theorem Tr_track_cmp (a b c : track) (hd : uniform a.date b.date c.date = true)
    (hn : uniform a.discnumber b.discnumber c.discnumber = true)
    (ht : uniform a.tracknumber b.tracknumber c.tracknumber = true) :
    Tr (track_cmp a b) (track_cmp b c) (track_cmp a c) :=
  Tr_lex (Tr_track_cmp_string _ _ _) <| Tr_lex (Tr_track_cmp_number _ _ _ hd) <|
    Tr_lex (Tr_track_cmp_string _ _ _) <| Tr_lex (Tr_track_cmp_number _ _ _ hn) <|
    Tr_lex (Tr_track_cmp_number _ _ _ ht) <| Tr_lex (Tr_track_cmp_string _ _ _) <|
    Tr_strcmp _ _ _

/-- C2, as the code has it: `track_cmp a a = 0` for every track, and
`track_cmp` is transitive on three tracks when, for each of date,
disc-number and track-number, the values present among the three all parse
as integers in `[0, INT_MAX]` or none of them does. -/
theorem track_cmp_strict_order (a b c : track)
    (hd : uniform a.date b.date c.date = true)
    (hn : uniform a.discnumber b.discnumber c.discnumber = true)
    (ht : uniform a.tracknumber b.tracknumber c.tracknumber = true) :
    track_cmp a a = 0 ∧ (track_cmp a b < 0 → track_cmp b c < 0 → track_cmp a c < 0) :=
  ⟨track_cmp_self a, (Tr_track_cmp a b c hd hn ht).1⟩

/-- Witness of C2 as amended: the dates 9, 10 and 11 all parse. -/
theorem track_cmp_strict_order_witness :
    uniform (track.dated "a" "9").date (track.dated "b" "10").date
      (track.dated "c" "11").date = true ∧
    track_cmp (track.dated "a" "9") (track.dated "b" "10") < 0 ∧
    track_cmp (track.dated "b" "10") (track.dated "c" "11") < 0 ∧
    track_cmp (track.dated "a" "9") (track.dated "c" "11") < 0 :=
  ⟨by decide, by decide, by decide,
    (track_cmp_strict_order (track.dated "a" "9") (track.dated "b" "10")
      (track.dated "c" "11") (by decide) (by decide) (by decide)).2 (by decide) (by decide)⟩

/-- C2 fails as stated: with the dates 10, 1a and 9, where 1a does not
parse, the first track is before the second and the second before the third,
yet the first is after the third (10 and 9 compare as integers). -/
theorem track_cmp_not_transitive :
    track_cmp (track.dated "a" "10") (track.dated "b" "1a") < 0 ∧
    track_cmp (track.dated "b" "1a") (track.dated "c" "9") < 0 ∧
    ¬ track_cmp (track.dated "a" "10") (track.dated "c" "9") < 0 := by
  decide

/-! ## The invariant of the index -/

theorem path_sorted_iff (tree : List track_entry) :
    path_sorted tree ↔
      (tree.map fun te => te.track.path).Pairwise fun a b => strcmp a b < 0 := by
  simp [path_sorted, List.pairwise_map, track_cmp_entry]

theorem path_sorted_distinct {tree : List track_entry} (h : path_sorted tree) :
    distinct_paths tree := by
  refine List.Pairwise.imp ?_ h
  intro a b hab e
  simp only [track_cmp_entry, e, strcmp_self] at hab
  exact absurd hab (by decide)

theorem path_sorted_place {tree : List track_entry} {te : track_entry}
    (h : path_sorted tree) (hf : RB_FIND tree te.track.path = none) :
    path_sorted (RB_PLACE te tree) := by
  induction tree with
  | nil => simp [RB_PLACE, path_sorted]
  | cons x rest ih =>
    have hx := List.pairwise_cons.1 h
    rw [RB_FIND_cons] at hf
    split_ifs at hf with hp
    simp only [RB_PLACE]
    split_ifs with hlt
    · refine List.pairwise_cons.2 ⟨?_, h⟩
      intro y hy
      rcases List.mem_cons.1 hy with rfl | hy
      · exact hlt
      · exact strcmp_trans _ _ _ hlt (hx.1 y hy)
    · refine List.pairwise_cons.2 ⟨?_, ih hx.2 hf⟩
      intro y hy
      rcases (RB_PLACE_mem te y rest).1 hy with rfl | hy
      · have h0 : strcmp y.track.path x.track.path ≠ 0 := fun e =>
          hp ((strcmp_eq_zero_iff _ _).1 e)
        have hs := strcmp_swap y.track.path x.track.path
        simp only [track_cmp_entry] at hlt ⊢
        omega
      · exact hx.1 y hy

theorem WF_of_eq {s s' : State} (h : s.WF) (ht : s'.track_tree = s.track_tree)
    (hn : s'.track_nentries = s.track_nentries) : s'.WF := by
  unfold State.WF at *
  rw [ht, hn]
  exact h

theorem WF_init (cache : List (Option cache_record)) : (State.init cache).WF := by
  simp [State.WF, State.init, path_sorted]

theorem WF_track_add_entry {s : State} (te : track_entry) (h : s.WF) :
    (track_add_entry s te).2.WF := by
  by_cases hn : s.track_nentries = SIZE_MAX
  · rw [track_add_entry_full te hn]
    exact h
  · cases hf : RB_FIND s.track_tree te.track.path with
    | some old =>
      rw [track_add_entry_present hn hf]
      exact WF_of_eq h rfl rfl
    | none =>
      rw [track_add_entry_absent hn hf]
      obtain ⟨h1, h2, h3⟩ := h
      refine ⟨path_sorted_place h1 hf, ?_, ?_⟩
      · simp [RB_PLACE_length, h2]
      · simp only
        omega

theorem WF_track_add_new_entry {s : State} (env : Env) (p : CStr) (ip : Option Ip)
    (h : s.WF) : (track_add_new_entry env s p ip).2.WF := by
  have h0 : State.WF { s with trace := s.trace ++ new_entry_events env p ip } :=
    WF_of_eq h rfl rfl
  have h1 := WF_track_add_entry (new_entry env p ip) h0
  rw [track_add_new_entry_eq]
  split_ifs
  · exact h1
  · exact WF_of_eq h1 rfl rfl

theorem WF_track_find_entry {s : State} (env : Env) (p : CStr) (ip : Option Ip)
    (h : s.WF) : (track_find_entry env s p ip).2.WF := by
  unfold track_find_entry
  split
  · exact h
  · split_ifs
    · obtain ⟨h1, h2, h3⟩ := h
      refine ⟨?_, ?_, h3⟩
      · rw [path_sorted_iff] at h1 ⊢
        have hp := RB_MODIFY_paths
          (fun x : track_entry =>
            { x with track := { x.track with ip := resolve_ip env p ip } })
          (fun _ => rfl) p s.track_tree
        simp only
        rw [hp]
        exact h1
      · simp [RB_MODIFY_length, h2]
    · exact h

theorem WF_track_get {s : State} (env : Env) (p : CStr) (ip : Option Ip) (h : s.WF) :
    (track_get env s p ip).2.WF := by
  have hf := WF_track_find_entry env p ip h
  unfold track_get
  split
  · rename_i te s1 heq
    rw [heq] at hf
    split_ifs
    · exact hf
    · exact WF_of_eq hf rfl rfl
  · rename_i s1 heq
    rw [heq] at hf
    split
    · exact WF_track_add_new_entry env p _ hf
    · split
      · exact WF_of_eq hf rfl rfl
      · exact WF_track_add_new_entry env p _ hf

theorem WF_track_require {s : State} (env : Env) (p : CStr) (h : s.WF) :
    (track_require env s p).2.WF := by
  have hf := WF_track_find_entry env p none h
  unfold track_require
  split
  · rename_i te s1 heq
    rw [heq] at hf
    exact hf
  · rename_i s1 heq
    rw [heq] at hf
    exact WF_track_add_new_entry env p _ hf

theorem WF_track_read_cache_loop (env : Env) (unread : List (Option cache_record))
    {s : State} (h : s.WF) : (track_read_cache_loop env unread s).WF := by
  induction unread generalizing s with
  | nil => exact h
  | cons r rest ih =>
    simp only [track_read_cache_loop]
    split_ifs
    · exact h
    · exact ih (WF_track_add_entry _ h)

theorem WF_track_read_cache {s : State} (env : Env) (h : s.WF) :
    (track_read_cache env s).WF := by
  unfold track_read_cache
  split_ifs
  · exact h
  · exact WF_track_read_cache_loop env _ h

theorem track_update_entry_path (env : Env) (delete : Int) (te : track_entry) :
    (track_update_entry env delete te).1.track.path = te.track.path := by
  unfold track_update_entry
  by_cases ha : env.access te.track.path = -1
  · simp only [ha, if_true]
    split_ifs <;> rfl
  · simp only [ha, if_false]
    cases hip : te.track.ip with
    | some i => simp [hip, track_free_metadata, track_init_metadata, ip_get_metadata]
    | none =>
      cases hr : env.plugin_find_ip te.track.path <;>
        simp [hr, track_free_metadata, track_init_metadata, ip_get_metadata]

theorem track_update_loop_paths (env : Env) (delete : Int) (n i : Nat)
    (tree : List track_entry) :
    (track_update_loop env delete n i tree).1.map (fun te => te.track.path) =
      tree.map fun te => te.track.path := by
  induction tree generalizing i with
  | nil => rfl
  | cons te rest ih =>
    simp only [track_update_loop, List.map_cons, track_update_entry_path, ih]

theorem WF_track_update_metadata {s : State} (env : Env) (delete : Int) (h : s.WF) :
    (track_update_metadata env s delete).WF := by
  obtain ⟨h1, h2, h3⟩ := h
  have hp := track_update_loop_paths env delete s.track_nentries 1 s.track_tree
  refine ⟨?_, ?_, h3⟩
  · rw [path_sorted_iff] at h1 ⊢
    simp only [track_update_metadata]
    rw [hp]
    exact h1
  · have hl := congrArg List.length hp
    simp only [List.length_map] at hl
    simp only [track_update_metadata]
    rw [hl]
    exact h2

theorem WF_track_write_cache {s : State} (env : Env) (h : s.WF) :
    (track_write_cache env s).2.WF := by
  unfold track_write_cache
  split_ifs
  · exact h
  · exact WF_of_eq h rfl rfl

theorem WF_step {s : State} (env : Env) (op : Op) (h : s.WF) : (step env s op).WF := by
  cases op with
  | track_read_cache => exact WF_track_read_cache env h
  | track_get p ip => exact WF_track_get env p ip h
  | track_require p => exact WF_track_require env p h
  | track_update_metadata d => exact WF_track_update_metadata env d h
  | track_write_cache => exact WF_track_write_cache env h

theorem WF_of_reachable {s : State} (h : Reachable s) : s.WF := by
  induction h with
  | init cache => exact WF_init cache
  | step env op _ ih => exact WF_step env op ih

/-- C3: in every state that the calls `track_read_cache`, `track_get`,
`track_require`, `track_update_metadata` and `track_write_cache` reach from
the empty index, the entries have pairwise distinct paths; and
`track_add_entry` rejects an entry whose path is already present, leaving
the tree, the live-entry count and the dirty flag as they were. -/
theorem index_paths_distinct (s : State) (h : Reachable s) :
    distinct_paths s.track_tree ∧
    ∀ te : track_entry, (∃ x ∈ s.track_tree, x.track.path = te.track.path) →
      (track_add_entry s te).1 = -1 ∧
      (track_add_entry s te).2.track_tree = s.track_tree ∧
      (track_add_entry s te).2.track_nentries = s.track_nentries ∧
      (track_add_entry s te).2.track_tree_modified = s.track_tree_modified := by
  refine ⟨path_sorted_distinct (WF_of_reachable h).1, ?_⟩
  rintro te ⟨x, hx, hp⟩
  by_cases hn : s.track_nentries = SIZE_MAX
  · rw [track_add_entry_full te hn]
    exact ⟨rfl, rfl, rfl, rfl⟩
  · cases hf : RB_FIND s.track_tree te.track.path with
    | none => exact absurd hp (RB_FIND_eq_none.1 hf x hx)
    | some old =>
      rw [track_add_entry_present hn hf]
      exact ⟨rfl, rfl, rfl, rfl⟩

/-- Witness of C3: the index after one `track_get` in the sample world is
reached from the empty index. -/
theorem index_paths_distinct_witness :
    Reachable State.sample ∧ distinct_paths State.sample.track_tree :=
  ⟨Reachable.step _ _ (Reachable.init []),
    (index_paths_distinct State.sample (Reachable.step _ _ (Reachable.init []))).1⟩

/-! ## The cache -/

theorem track_write_cache_loop_eq (tree : List track_entry)
    (cache : List (Option cache_record)) :
    track_write_cache_loop tree cache =
      cache ++ (tree.filter fun te => te.delete = 0).map fun te =>
        some (cache_record_of te.track) := by
  induction tree generalizing cache with
  | nil => simp [track_write_cache_loop]
  | cons te rest ih =>
    simp only [track_write_cache_loop, ih]
    by_cases hd : te.delete = 0
    · simp [hd, cache_write_entry]
    · simp [hd]

theorem RB_PLACE_last {tree : List track_entry} {te : track_entry}
    (h : ∀ x ∈ tree, track_cmp_entry x te < 0) : RB_PLACE te tree = tree ++ [te] := by
  induction tree with
  | nil => rfl
  | cons x rest ih =>
    have hx := h x (List.mem_cons_self _ _)
    have hs := strcmp_swap x.track.path te.track.path
    simp only [track_cmp_entry] at hx
    have hlt : ¬ track_cmp_entry te x < 0 := by
      simp only [track_cmp_entry]
      omega
    simp only [RB_PLACE, hlt, if_false, List.cons_append]
    rw [ih fun y hy => h y (List.mem_cons_of_mem _ hy)]

theorem cache_entry_record (env : Env) (r : cache_record) :
    cache_record_of (cache_entry env r).track = r := rfl

theorem track_read_cache_loop_some (env : Env) (r : cache_record)
    (unread : List (Option cache_record)) (s : State) :
    track_read_cache_loop env (some r :: unread) s =
      track_read_cache_loop env unread (track_add_entry s (cache_entry env r)).2 := by
  simp [track_read_cache_loop, cache_read_entry, cache_entry]

/-- Reading back records whose paths ascend and lie after every path of the
index appends one entry for each of them. -/
theorem track_read_cache_loop_sorted (env : Env) (recs : List cache_record) (s : State)
    (hsorted : recs.Pairwise fun a b => strcmp a.path b.path < 0)
    (hafter : ∀ x ∈ s.track_tree, ∀ r ∈ recs, strcmp x.track.path r.path < 0)
    (hn : s.track_nentries = s.track_tree.length)
    (hlen : s.track_tree.length + recs.length ≤ SIZE_MAX) :
    (track_read_cache_loop env (recs.map some) s).track_tree =
      s.track_tree ++ recs.map (cache_entry env) ∧
    (track_read_cache_loop env (recs.map some) s).track_nentries =
      s.track_tree.length + recs.length := by
  induction recs generalizing s with
  | nil => simp [track_read_cache_loop, hn]
  | cons r rest ih =>
    have hr := List.pairwise_cons.1 hsorted
    have hne : s.track_nentries ≠ SIZE_MAX := by
      simp only [List.length_cons] at hlen
      omega
    have hfind : RB_FIND s.track_tree (cache_entry env r).track.path = none := by
      rw [RB_FIND_eq_none]
      intro x hx e
      have := hafter x hx r (List.mem_cons_self _ _)
      have e2 : x.track.path = r.path := e
      rw [e2, strcmp_self] at this
      exact absurd this (by decide)
    have hplace : RB_PLACE (cache_entry env r) s.track_tree =
        s.track_tree ++ [cache_entry env r] :=
      RB_PLACE_last fun x hx => hafter x hx r (List.mem_cons_self _ _)
    rw [List.map_cons, track_read_cache_loop_some, track_add_entry_absent hne hfind, hplace]
    have := ih
      { s with
        track_tree := s.track_tree ++ [cache_entry env r]
        track_nentries := s.track_nentries + 1 }
      hr.2
      (by
        intro x hx q hq
        rcases List.mem_append.1 hx with hx | hx
        · exact hafter x hx q (List.mem_cons_of_mem _ hq)
        · rw [List.mem_singleton.1 hx]
          exact hr.1 q hq)
      (by simp [hn])
      (by
        simp only [List.length_append, List.length_cons, List.length_nil] at hlen ⊢
        omega)
    simp only [List.length_append, List.length_cons, List.length_nil] at this
    rw [this.1, this.2]
    simp only [List.append_assoc, List.map_cons, List.length_cons, List.singleton_append,
      true_and]
    omega

theorem distinct_paths_eq {tree : List track_entry} (h : distinct_paths tree)
    {a b : track_entry} (ha : a ∈ tree) (hb : b ∈ tree)
    (hp : a.track.path = b.track.path) : a = b := by
  by_contra hab
  exact List.Pairwise.forall (fun _ _ hxy => Ne.symm hxy) h ha hb hab hp

theorem track_write_cache_ok {env : Env} (s : State)
    (h : env.cache_open cache_mode.CACHE_MODE_WRITE ≠ -1) :
    track_write_cache env s =
      (0, { s with
            cache := (s.track_tree.filter fun te => te.delete = 0).map fun te =>
              some (cache_record_of te.track)
            track_tree_modified := 0 }) := by
  simp [track_write_cache, h, track_write_cache_loop_eq]

/-- C4: with the cache a faithful sequential store and both openings of the
cache successful, `track_write_cache` on an index that satisfies its
invariant, followed by `track_read_cache` into the empty index, gives an
index whose entries are, in the same order, those that were not tombstoned,
each with its path, its eleven metadata fields and its duration as before;
their number is the live-entry count, and no tombstoned path has an
entry. -/
theorem cache_round_trip (env1 env2 : Env) (s : State) (h : s.WF)
    (hw : env1.cache_open cache_mode.CACHE_MODE_WRITE ≠ -1)
    (hr : env2.cache_open cache_mode.CACHE_MODE_READ ≠ -1) :
    (track_read_cache env2 (State.init (track_write_cache env1 s).2.cache)).track_tree.map
        (fun te => cache_record_of te.track) =
      (s.track_tree.filter fun te => te.delete = 0).map (fun te => cache_record_of te.track) ∧
    (track_read_cache env2 (State.init (track_write_cache env1 s).2.cache)).track_nentries =
      (s.track_tree.filter fun te => te.delete = 0).length ∧
    (∀ te ∈ (track_read_cache env2
        (State.init (track_write_cache env1 s).2.cache)).track_tree, te.delete = 0) ∧
    ∀ te ∈ s.track_tree, te.delete ≠ 0 →
      RB_FIND (track_read_cache env2
        (State.init (track_write_cache env1 s).2.cache)).track_tree te.track.path = none := by
  obtain ⟨h1, h2, h3⟩ := h
  have hsorted : ((s.track_tree.filter fun te => te.delete = 0).map
      fun te => cache_record_of te.track).Pairwise fun a b => strcmp a.path b.path < 0 := by
    rw [List.pairwise_map]
    exact List.Pairwise.sublist (List.filter_sublist _) h1
  have hlen : (s.track_tree.filter fun te => te.delete = 0).length ≤ SIZE_MAX :=
    le_trans (List.length_filter_le _ _) (h2 ▸ h3)
  have hloop := track_read_cache_loop_sorted env2
    ((s.track_tree.filter fun te => te.delete = 0).map fun te => cache_record_of te.track)
    (State.init ((s.track_tree.filter fun te => te.delete = 0).map fun te =>
      some (cache_record_of te.track)))
    hsorted (by simp [State.init]) (by simp [State.init])
    (by simpa [State.init] using hlen)
  have hread : track_read_cache env2 (State.init (track_write_cache env1 s).2.cache) =
      track_read_cache_loop env2
        (((s.track_tree.filter fun te => te.delete = 0).map
          fun te => cache_record_of te.track).map some)
        (State.init ((s.track_tree.filter fun te => te.delete = 0).map fun te =>
          some (cache_record_of te.track))) := by
    simp only [track_read_cache, hr, track_write_cache_ok s hw, State.init, if_false,
      List.map_map]
    rfl
  rw [hread, hloop.1, hloop.2]
  have hrec : ∀ l : List cache_record,
      (l.map (cache_entry env2)).map (fun te => cache_record_of te.track) = l := by
    intro l
    induction l with
    | nil => rfl
    | cons r rest ih => simp [cache_entry_record, ih]
  refine ⟨?_, ?_, ?_, ?_⟩
  · simp only [State.init, List.nil_append]
    exact hrec _
  · simp [State.init]
  · intro te hte
    simp only [State.init, List.nil_append, List.mem_map] at hte
    obtain ⟨r, _, rfl⟩ := hte
    rfl
  · intro te hte hdel
    rw [RB_FIND_eq_none]
    intro x hx e
    simp only [State.init, List.nil_append, List.mem_map, List.mem_filter,
      decide_eq_true_eq] at hx
    obtain ⟨r, ⟨y, ⟨hy, hy0⟩, rfl⟩, rfl⟩ := hx
    have hpath : y.track.path = te.track.path := e
    have := distinct_paths_eq (path_sorted_distinct h1) hy hte hpath
    rw [this] at hy0
    exact hdel hy0

theorem WF_two : State.two.WF := by
  refine ⟨?_, rfl, by decide⟩
  unfold path_sorted
  decide

/-- Witness of C4: the index of two entries, of which the cache keeps the
one that is not tombstoned. -/
theorem cache_round_trip_witness :
    State.two.WF ∧
    (track_read_cache Env.sample
        (State.init (track_write_cache Env.sample State.two).2.cache)).track_tree.map
        (fun te => cache_record_of te.track) = [cache_record_of track.sample] :=
  ⟨WF_two, (cache_round_trip Env.sample Env.sample State.two WF_two (by decide) (by decide)).1⟩

/-! ## `track_get` -/

/-- C5: `track_get` returns no track when no plug-in resolves, in both
cases: the path has an entry without plug-in, or the path has no entry; no
explicit plug-in is given and the registry has none for the path.  The state
afterwards is the state before with the message `Unsupported file format`
added: the tree, the live-entry count and the dirty flag are as they
were. -/
theorem track_get_unsupported (env : Env) (s : State) (p : CStr) (ip : Option Ip)
    (hip : ip = none) (hreg : env.plugin_find_ip p = none)
    (h : (∃ te, RB_FIND s.track_tree p = some te ∧ te.track.ip = none) ∨
      RB_FIND s.track_tree p = none) :
    (track_get env s p ip).1 = none ∧
    (track_get env s p ip).2 = { s with trace := s.trace ++ [Event.msg_unsupported p] } ∧
    (track_get env s p ip).2.track_tree = s.track_tree ∧
    (track_get env s p ip).2.track_nentries = s.track_nentries ∧
    (track_get env s p ip).2.track_tree_modified = s.track_tree_modified := by
  have hr : resolve_ip env p ip = none := by simp [resolve_ip, hip, hreg]
  rcases h with ⟨te, hf, hte⟩ | hf
  · rw [track_get_unbound env ip hf hte, hr]
    exact ⟨rfl, rfl, rfl, rfl, rfl⟩
  · rw [track_get_absent env ip hf, hr]
    exact ⟨rfl, rfl, rfl, rfl, rfl⟩

/-- Witness of C5: the path `b`, for which the sample registry has no
plug-in, on the empty index. -/
theorem track_get_unsupported_witness :
    (track_get Env.sample (State.init []) [98] none).1 = none ∧
    (track_get Env.sample (State.init []) [98] none).2.track_tree = [] :=
  have h := track_get_unsupported Env.sample (State.init []) [98] none rfl (by decide)
    (Or.inr (by decide))
  ⟨h.1, h.2.2.1⟩

theorem track_add_entry_fails_iff (s : State) (te : track_entry) :
    (track_add_entry s te).1 = -1 ↔
      s.track_nentries = SIZE_MAX ∨ ∃ x ∈ s.track_tree, x.track.path = te.track.path := by
  by_cases hn : s.track_nentries = SIZE_MAX
  · simp [track_add_entry_full te hn, hn]
  · cases hf : RB_FIND s.track_tree te.track.path with
    | none =>
      rw [track_add_entry_absent hn hf]
      have := RB_FIND_eq_none.1 hf
      simp only [hn, false_or]
      constructor
      · intro h
        exact absurd h (by decide)
      · rintro ⟨x, hx, hp⟩
        exact absurd hp (this x hx)
    | some old =>
      rw [track_add_entry_present hn hf]
      simp only [hn, false_or, true_iff]
      exact ⟨old, RB_FIND_mem hf, RB_FIND_path hf⟩

/-- C6, as the code has it: for a path without entry for which a plug-in
resolves, and a live-entry count below `SIZE_MAX`, `track_get` returns a new
track with that path and plug-in, which is what one call of the plug-in's
fetch makes of the freshly initialised track; the track is inserted at its
place in the order and is then the entry of the path, the live-entry count
grows by one, the dirty flag is set, and the events grow by exactly that one
fetch.  In any state `track_add_entry` fails exactly when the path is
already present or the live-entry count is `SIZE_MAX`. -/
theorem track_get_new (env : Env) (s : State) (p : CStr) (ip : Option Ip) (i : Ip)
    (hf : RB_FIND s.track_tree p = none) (hr : resolve_ip env p ip = some i)
    (hn : s.track_nentries ≠ SIZE_MAX) :
    (∃ t : track,
      (track_get env s p ip).1 = some t ∧ t.path = p ∧ t.ip = some i ∧
      t = ip_get_metadata env i
        (track_init_metadata
          { track := { env.xmalloc.track with path := p, ip := some i, ipdata := none },
            delete := 0 }).track ∧
      (track_get env s p ip).2.track_tree =
        RB_PLACE { track := t, delete := 0 } s.track_tree ∧
      RB_FIND (track_get env s p ip).2.track_tree p = some { track := t, delete := 0 }) ∧
    (track_get env s p ip).2.track_nentries = s.track_nentries + 1 ∧
    (track_get env s p ip).2.track_tree_modified = 1 ∧
    (track_get env s p ip).2.trace = s.trace ++ [Event.get_metadata i p] ∧
    ∀ (s0 : State) (te : track_entry),
      (track_add_entry s0 te).1 = -1 ↔
        s0.track_nentries = SIZE_MAX ∨ ∃ x ∈ s0.track_tree, x.track.path = te.track.path := by
  have hnew : new_entry env p (some i) =
      { track := ip_get_metadata env i
          (track_init_metadata
            { track := { env.xmalloc.track with path := p, ip := some i, ipdata := none },
              delete := 0 }).track,
        delete := 0 } := by
    simp [new_entry, resolve_ip, track_init_metadata]
  have hev : new_entry_events env p (some i) = [Event.get_metadata i p] := by
    simp [new_entry_events, resolve_ip]
  rw [track_get_absent env ip hf, hr]
  simp only
  rw [track_add_new_entry_absent env (some i) hn hf, hnew, hev]
  refine ⟨⟨_, rfl, rfl, rfl, rfl, rfl, ?_⟩, rfl, rfl, rfl, track_add_entry_fails_iff⟩
  exact RB_FIND_place _ rfl hf

/-- Witness of C6 as amended: the path `a` on the empty index in the sample
world. -/
theorem track_get_new_witness :
    (track_get Env.sample (State.init []) [97] none).2.track_nentries = 1 ∧
    (track_get Env.sample (State.init []) [97] none).2.trace = [Event.get_metadata 0 [97]] :=
  have h := track_get_new Env.sample (State.init []) [97] none 0 (by decide) (by decide)
    (by decide)
  ⟨h.2.1, h.2.2.2.1⟩

theorem strcmp_replicate {m n : Nat} (h : m < n) :
    strcmp (List.replicate m 1) (List.replicate n 1) < 0 := by
  induction m generalizing n with
  | zero =>
    obtain ⟨k, rfl⟩ : ∃ k, n = k + 1 := ⟨n - 1, by omega⟩
    simp [List.replicate, strcmp]
  | succ m ih =>
    obtain ⟨k, rfl⟩ : ∃ k, n = k + 1 := ⟨n - 1, by omega⟩
    simp only [List.replicate, strcmp, lt_self_iff_false, if_false]
    exact ih (by omega)

theorem full_track_tree : State.full.track_tree = full_tree := rfl

theorem full_track_nentries : State.full.track_nentries = SIZE_MAX := rfl

theorem WF_full : State.full.WF := by
  unfold State.WF
  rw [full_track_tree, full_track_nentries]
  refine ⟨?_, ?_, le_refl _⟩
  · unfold path_sorted full_tree
    rw [List.pairwise_map]
    refine List.Pairwise.imp ?_ (List.pairwise_lt_range SIZE_MAX)
    intro a b hab
    exact strcmp_replicate (by omega)
  · unfold full_tree
    rw [List.length_map, List.length_range]

theorem RB_FIND_full : RB_FIND State.full.track_tree [97] = none := by
  rw [full_track_tree, RB_FIND_eq_none]
  unfold full_tree
  intro te hte
  rw [List.mem_map] at hte
  obtain ⟨i, _, rfl⟩ := hte
  simp [track.blank, List.replicate]

/-- C6 fails as stated: the index of `SIZE_MAX` entries satisfies the
invariant and has no entry for the path `a`, for which the sample registry
resolves plug-in 0; yet `track_get` returns no track and leaves the tree and
the live-entry count as they were, because `track_add_entry` refuses to
count beyond `SIZE_MAX`. -/
theorem track_get_full_index :
    State.full.WF ∧ RB_FIND State.full.track_tree [97] = none ∧
    resolve_ip Env.sample [97] none = some 0 ∧
    (track_get Env.sample State.full [97] none).1 = none ∧
    (track_get Env.sample State.full [97] none).2.track_tree = State.full.track_tree ∧
    (track_get Env.sample State.full [97] none).2.track_nentries =
      State.full.track_nentries := by
  have hr : resolve_ip Env.sample [97] none = some 0 := by decide
  refine ⟨WF_full, RB_FIND_full, hr, ?_⟩
  rw [track_get_absent Env.sample none RB_FIND_full, hr]
  simp only
  rw [track_add_new_entry_full Env.sample [97] (some 0) full_track_nentries]
  exact ⟨rfl, rfl, rfl⟩

/-- C7, as the code has it: for a path that has an entry, `track_get` calls
no plug-in's fetch and leaves the live-entry count and the dirty flag as
they were; the entry of the path is afterwards the entry as it was, in every
field but the plug-in, which is resolved now if it was unbound; and
`track_get` returns that entry when it has a plug-in and no track when it
has none. -/
theorem track_get_existing (env : Env) (s : State) (p : CStr) (ip : Option Ip)
    (te : track_entry) (h : RB_FIND s.track_tree p = some te) :
    fetches (track_get env s p ip).2.trace = fetches s.trace ∧
    (track_get env s p ip).2.track_nentries = s.track_nentries ∧
    (track_get env s p ip).2.track_tree_modified = s.track_tree_modified ∧
    ∃ te' : track_entry,
      RB_FIND (track_get env s p ip).2.track_tree p = some te' ∧
      te' = { te with
              track := { te.track with
                ip := if te.track.ip = none then resolve_ip env p ip else te.track.ip } } ∧
      (track_get env s p ip).1 = if te'.track.ip = none then none else some te'.track := by
  by_cases hip : te.track.ip = none
  · rw [track_get_unbound env ip h hip]
    cases hr : resolve_ip env p ip with
    | none =>
      refine ⟨by simp [fetches, List.filter_append], rfl, rfl, te, h, ?_, ?_⟩
      · cases te with
        | mk t d =>
          cases t
          simp only at hip
          simp [hip]
      · simp [hip]
    | some i =>
      refine ⟨rfl, rfl, rfl, _, RB_FIND_modify _ (fun _ => rfl) h, ?_, ?_⟩
      · simp [hip]
      · simp
  · rw [track_get_bound env ip h hip]
    refine ⟨rfl, rfl, rfl, te, h, ?_, ?_⟩
    · simp [hip]
    · simp [hip]

/-- Witness of C7 as amended: the entry of the path `a` in the sample index
is returned as it is. -/
theorem track_get_existing_witness :
    RB_FIND State.sample.track_tree [97] = some { track := track.sample, delete := 0 } ∧
    fetches (track_get Env.sample State.sample [97] none).2.trace =
      fetches State.sample.trace ∧
    (track_get Env.sample State.sample [97] none).2.track_nentries =
      State.sample.track_nentries :=
  have h := track_get_existing Env.sample State.sample [97] none
    { track := track.sample, delete := 0 } (by decide)
  ⟨by decide, h.1, h.2.1⟩

/-- C7 fails as stated: the path `b` has an entry, made by `track_require`,
and the sample registry has no plug-in for it; `track_get` returns no
track. -/
theorem track_get_existing_unresolved :
    (RB_FIND State.lazy.track_tree [98]).isSome = true ∧
    (track_get Env.sample State.lazy [98] none).1 = none := by
  decide

/-! ## `track_update_metadata` -/

theorem track_update_loop_tree (env : Env) (delete : Int) (n i : Nat)
    (tree : List track_entry) :
    (track_update_loop env delete n i tree).1 =
      tree.map fun te => (track_update_entry env delete te).1 := by
  induction tree generalizing i with
  | nil => rfl
  | cons te rest ih => simp only [track_update_loop, List.map_cons, ih]

theorem track_update_loop_cons (env : Env) (delete : Int) (n i : Nat) (te : track_entry)
    (rest : List track_entry) :
    track_update_loop env delete n i (te :: rest) =
      ((track_update_entry env delete te).1 ::
          (track_update_loop env delete n ((i + 1) % (SIZE_MAX + 1)) rest).1,
        Event.msg_updating i n (if n = 0 then none else some (100 * i % (SIZE_MAX + 1) / n)) ::
          ((track_update_entry env delete te).2 ++
            (track_update_loop env delete n ((i + 1) % (SIZE_MAX + 1)) rest).2)) :=
  rfl

theorem track_update_entry_unreachable {env : Env} {te : track_entry} (delete : Int)
    (h : env.access te.track.path = -1) :
    track_update_entry env delete te =
      ({ te with delete := if delete ≠ 0 then 1 else te.delete }, []) := by
  unfold track_update_entry
  simp only [h, if_true]
  split_ifs <;> rfl

theorem track_update_entry_fetch {env : Env} {delete : Int} {te : track_entry} {i : Ip}
    {q : CStr} (h : Event.get_metadata i q ∈ (track_update_entry env delete te).2) :
    env.access q ≠ -1 := by
  by_cases ha : env.access te.track.path = -1
  · rw [track_update_entry_unreachable delete ha] at h
    simp at h
  · unfold track_update_entry at h
    simp only [ha, if_false] at h
    cases hip : te.track.ip with
    | some j =>
      simp [hip, track_free_metadata, track_init_metadata] at h
      rw [h.2]
      exact ha
    | none =>
      cases hr : env.plugin_find_ip te.track.path with
      | none => simp [hip, hr] at h
      | some j =>
        simp [hip, hr, track_free_metadata, track_init_metadata] at h
        rw [h.2]
        exact ha

theorem track_update_loop_fetch {env : Env} {delete : Int} {n : Nat} {j : Ip} {q : CStr}
    (i : Nat) (tree : List track_entry)
    (h : Event.get_metadata j q ∈ (track_update_loop env delete n i tree).2) :
    env.access q ≠ -1 := by
  induction tree generalizing i with
  | nil => simp [track_update_loop] at h
  | cons te rest ih =>
    rw [track_update_loop_cons] at h
    simp only [List.mem_cons, List.mem_append] at h
    rcases h with h | h | h
    · cases h
    · exact track_update_entry_fetch h
    · exact ih _ h

/-- C9: in `track_update_metadata`, an entry whose file is not reachable
stays at its place in the index with its track as it was, the plug-in, the
metadata fields and the duration included; its tombstone flag is set when
`delete` is set and is as before otherwise; the number of entries is the
same, and the events of the call contain no fetch for the path of the
entry. -/
theorem track_update_metadata_unreachable (env : Env) (s : State) (delete : Int) (k : Nat)
    (te : track_entry) (h : s.track_tree[k]? = some te)
    (ha : env.access te.track.path = -1) :
    (track_update_metadata env s delete).track_tree[k]? =
      some { track := te.track, delete := if delete ≠ 0 then 1 else te.delete } ∧
    (track_update_metadata env s delete).track_tree.length = s.track_tree.length ∧
    ∃ evs : List Event,
      (track_update_metadata env s delete).trace = s.trace ++ evs ∧
      ∀ i : Ip, Event.get_metadata i te.track.path ∉ evs := by
  refine ⟨?_, ?_, (track_update_loop env delete s.track_nentries 1 s.track_tree).2, rfl, ?_⟩
  · simp only [track_update_metadata, track_update_loop_tree, List.getElem?_map, h,
      Option.map_some', track_update_entry_unreachable delete ha]
  · simp only [track_update_metadata, track_update_loop_tree, List.length_map]
  · intro i hi
    exact track_update_loop_fetch 1 _ hi ha

/-- Witness of C9: the refresh of the sample index with no file reachable
and `delete` set tombstones the entry of the path `a`. -/
theorem track_update_metadata_unreachable_witness :
    State.sample.track_tree[0]? = some { track := track.sample, delete := 0 } ∧
    (track_update_metadata Env.offline State.sample 1).track_tree[0]? =
      some { track := track.sample, delete := 1 } :=
  ⟨by decide,
    (track_update_metadata_unreachable Env.offline State.sample 1 0
      { track := track.sample, delete := 0 } (by decide) (by decide)).1⟩

/-- C8 fails on the code: the entry of the path `a` was fetched while its
file carried an album artist; the file of the sample world carries none, so
that a fetch started from default fields leaves the album artist absent; yet
after `track_update_metadata` the entry still has the old album artist,
because `track_init_metadata` does not reset that field. -/
theorem track_update_metadata_stale_albumartist :
    (RB_FIND State.tagged.track_tree [97]).map (fun te => te.track.albumartist) =
      some (some [120]) ∧
    Env.sample.access [97] ≠ -1 ∧
    (RB_FIND State.tagged.track_tree [97]).map (fun te => te.track.ip) = some (some 0) ∧
    (ip_get_metadata Env.sample 0 (track.blank [97])).albumartist = none ∧
    (RB_FIND (track_update_metadata Env.sample State.tagged 0).track_tree [97]).map
      (fun te => te.track.albumartist) = some (some [120]) := by
  decide

/-! ## `track_write_cache` -/

/-- C10: when the cache can be opened for writing, `track_write_cache`
returns 0, the cache then holds the records of the entries that are not
tombstoned, one for each, in the order of the index, which ascends strictly
in the byte-wise order of the paths when the index satisfies its invariant;
the dirty flag is cleared, and the tree and the live-entry count are as they
were. -/
theorem track_write_cache_success (env : Env) (s : State) (h : s.WF)
    (hw : env.cache_open cache_mode.CACHE_MODE_WRITE ≠ -1) :
    (track_write_cache env s).1 = 0 ∧
    (track_write_cache env s).2.cache =
      ((s.track_tree.filter fun te => te.delete = 0).map
        fun te => cache_record_of te.track).map some ∧
    ((s.track_tree.filter fun te => te.delete = 0).map
        fun te => cache_record_of te.track).Pairwise (fun a b => strcmp a.path b.path < 0) ∧
    (track_write_cache env s).2.track_tree_modified = 0 ∧
    (track_write_cache env s).2.track_tree = s.track_tree ∧
    (track_write_cache env s).2.track_nentries = s.track_nentries := by
  rw [track_write_cache_ok s hw]
  refine ⟨rfl, ?_, ?_, rfl, rfl, rfl⟩
  · simp only [List.map_map]
    rfl
  · rw [List.pairwise_map]
    exact List.Pairwise.sublist (List.filter_sublist _) h.1

/-- Witness of C10: of the index of two entries, the one that is not
tombstoned is written. -/
theorem track_write_cache_success_witness :
    State.two.WF ∧
    (track_write_cache Env.sample State.two).2.cache = [some (cache_record_of track.sample)] :=
  ⟨WF_two, (track_write_cache_success Env.sample State.two WF_two (by decide)).2.1⟩

/-- C13: after `track_update_metadata` the dirty flag is set, in every state
of the index, the empty index included, for every value of `delete` and in
every world, whatever the loop did to the entries. -/
theorem track_update_metadata_dirty (env : Env) (s : State) (delete : Int)
    (cache : List (Option cache_record)) :
    (track_update_metadata env s delete).track_tree_modified = 1 ∧
    (track_update_metadata env s delete).track_tree.length = s.track_tree.length ∧
    (track_update_metadata env (State.init cache) delete).track_tree_modified = 1 ∧
    (track_update_metadata env (State.init cache) delete).track_tree = [] := by
  refine ⟨rfl, ?_, rfl, rfl⟩
  simp only [track_update_metadata, track_update_loop_tree, List.length_map]

/-! ## The display order, key by key -/

/-- C14: `track_cmp` is the first result other than 0 among the seven
comparisons artist (`track_cmp_string`), date (`track_cmp_number`), album
(`track_cmp_string`), disc number, track number (`track_cmp_number`), title
(`track_cmp_string`) and path (`strcmp`), in this order, and 0 when there is
none; `track_cmp_string` on two present strings is `strcmp` on their
lower-cased bytes; and tracks that compare equal have the same path. -/
theorem track_cmp_lexicographic (a b : track) :
    track_cmp a b =
      (([track_cmp_string a.artist b.artist, track_cmp_number a.date b.date,
          track_cmp_string a.album b.album, track_cmp_number a.discnumber b.discnumber,
          track_cmp_number a.tracknumber b.tracknumber,
          track_cmp_string a.title b.title, strcmp a.path b.path].find?
        fun ret => ret ≠ 0).getD 0) ∧
    (∀ x y : CStr,
      track_cmp_string (some x) (some y) = strcmp (x.map tolower) (y.map tolower)) ∧
    (track_cmp a b = 0 → a.path = b.path) := by
  refine ⟨?_, fun _ _ => rfl, ?_⟩
  · simp only [track_cmp, List.find?]
    by_cases h1 : track_cmp_string a.artist b.artist = 0 <;>
    by_cases h2 : track_cmp_number a.date b.date = 0 <;>
    by_cases h3 : track_cmp_string a.album b.album = 0 <;>
    by_cases h4 : track_cmp_number a.discnumber b.discnumber = 0 <;>
    by_cases h5 : track_cmp_number a.tracknumber b.tracknumber = 0 <;>
    by_cases h6 : track_cmp_string a.title b.title = 0 <;>
    by_cases h7 : strcmp a.path b.path = 0 <;>
    simp [h1, h2, h3, h4, h5, h6, h7]
  · intro h
    simp only [track_cmp] at h
    split_ifs at h with h1 h2 h3 h4 h5 h6
    · exact absurd h h1
    · exact absurd h h2
    · exact absurd h h3
    · exact absurd h h4
    · exact absurd h h5
    · exact absurd h h6
    · exact (strcmp_eq_zero_iff _ _).1 h

/-- Witness of C14: a track compares equal to itself. -/
theorem track_cmp_lexicographic_witness :
    track_cmp track.sample track.sample = 0 ∧ track.sample.path = track.sample.path :=
  ⟨by decide, (track_cmp_lexicographic track.sample track.sample).2.2 (by decide)⟩

theorem strtonum_le {a : CStr} {i : Nat} (h : strtonum a = some i) : i ≤ INT_MAX := by
  unfold strtonum at h
  simp only at h
  split_ifs at h with h1 h2 h3 h4
  · simp only [Option.some.injEq] at h
    omega
  · simp only [Option.some.injEq] at h
    omega

/-- C15: `track_cmp_number` on two present strings.  When both parse, as
integers `i` and `j` of `[0, INT_MAX]`, the result is -1, 0 or 1 as `i` is
below, equal to or above `j`; so 9 is before 10, and 07 is equal to 7.  When
one of them fails to parse the result is that of `strcasecmp` on the two
strings; so the dates unknown and 1998 compare as strings, unknown after
1998. -/
theorem track_cmp_number_present (a b : CStr) :
    (∀ i j : Nat, strtonum a = some i → strtonum b = some j →
      i ≤ INT_MAX ∧ j ≤ INT_MAX ∧
      track_cmp_number (some a) (some b) = if i < j then -1 else if i > j then 1 else 0) ∧
    (strtonum a = none ∨ strtonum b = none →
      track_cmp_number (some a) (some b) = strcasecmp a b) ∧
    track_cmp_number (some (cstr "9")) (some (cstr "10")) = -1 ∧
    track_cmp_number (some (cstr "07")) (some (cstr "7")) = 0 ∧
    track_cmp_number (some (cstr "unknown")) (some (cstr "1998")) =
      strcasecmp (cstr "unknown") (cstr "1998") ∧
    strcasecmp (cstr "unknown") (cstr "1998") = 1 := by
  refine ⟨?_, ?_, by decide, by decide, by decide, by decide⟩
  · intro i j hi hj
    refine ⟨strtonum_le hi, strtonum_le hj, ?_⟩
    simp only [track_cmp_number, hi, hj]
  · rintro (h | h)
    · simp only [track_cmp_number, h]
    · simp only [track_cmp_number, h]
      cases strtonum a <;> rfl

/-- Witness of C15: the dates 1998 and 2001 both parse. -/
theorem track_cmp_number_present_witness :
    strtonum (cstr "1998") = some 1998 ∧ strtonum (cstr "2001") = some 2001 ∧
    track_cmp_number (some (cstr "1998")) (some (cstr "2001")) =
      if 1998 < 2001 then -1 else if 1998 > 2001 then 1 else 0 :=
  ⟨by decide, by decide,
    ((track_cmp_number_present (cstr "1998") (cstr "2001")).1 1998 2001
      (by decide) (by decide)).2.2⟩

/-- C16: a track without artist is before every track with an artist and
the latter is after the former, whatever their other fields and paths are;
two absent artists compare equal at that key. -/
theorem track_cmp_absent_artist (a b : track) (x : CStr) (ha : a.artist = none)
    (hb : b.artist = some x) :
    track_cmp a b < 0 ∧ track_cmp b a > 0 ∧
    track_cmp_string (none : Option CStr) none = 0 := by
  refine ⟨?_, ?_, rfl⟩
  · simp [track_cmp, ha, hb, track_cmp_string]
  · simp [track_cmp, ha, hb, track_cmp_string]

/-- Witness of C16: a blank track and a track with an artist. -/
theorem track_cmp_absent_artist_witness :
    track_cmp (track.blank [98]) { track.blank [97] with artist := some (cstr "Zebra") } < 0 ∧
    track_cmp { track.blank [97] with artist := some (cstr "Zebra") } (track.blank [98]) > 0 :=
  have h := track_cmp_absent_artist (track.blank [98])
    { track.blank [97] with artist := some (cstr "Zebra") } (cstr "Zebra") rfl rfl
  ⟨h.1, h.2.1⟩

/-! ## `track_require` -/

theorem track_require_found {s : State} {p : CStr} {te : track_entry} (env : Env)
    (h : RB_FIND s.track_tree p = some te) :
    track_require env s p =
      if te.track.ip = none then
        (some { te.track with ip := env.plugin_find_ip p },
         { s with
           track_tree :=
             RB_MODIFY
               (fun x => { x with track := { x.track with ip := env.plugin_find_ip p } }) p
               s.track_tree })
      else (some te.track, s) := by
  by_cases hip : te.track.ip = none
  · simp [track_require, track_find_entry, h, hip, resolve_ip]
  · simp [track_require, track_find_entry, h, hip]

theorem track_require_absent {s : State} {p : CStr} (env : Env)
    (h : RB_FIND s.track_tree p = none) :
    track_require env s p = track_add_new_entry env s p none := by
  simp [track_require, track_find_entry, h]

/-- C12, as the code has it.  For a path without entry and a live-entry
count below `SIZE_MAX`, `track_require` returns a new track, which is
afterwards the entry of the path, not tombstoned; the live-entry count grows
by one and the dirty flag is set.  When the registry has no plug-in for the
path the track has none, its album, artist, date, disc number, genre, title
and track number are absent and its duration is 0, and there is no event, so
no fetch; when the registry has a plug-in the track is bound to it and the
events grow by the one fetch of that plug-in.  For a path that has an entry
`track_require` returns that entry, with the plug-in that the registry
resolves now if it had none, also when none resolves; it adds no entry and
no event. -/
theorem track_require_lazy (env : Env) (s : State) (p : CStr) :
    (RB_FIND s.track_tree p = none → s.track_nentries ≠ SIZE_MAX →
      ∃ t : track,
        (track_require env s p).1 = some t ∧ t.path = p ∧
        t.ip = env.plugin_find_ip p ∧
        (track_require env s p).2.track_tree =
          RB_PLACE { track := t, delete := 0 } s.track_tree ∧
        RB_FIND (track_require env s p).2.track_tree p = some { track := t, delete := 0 } ∧
        (track_require env s p).2.track_nentries = s.track_nentries + 1 ∧
        (track_require env s p).2.track_tree_modified = 1 ∧
        (env.plugin_find_ip p = none →
          t.ip = none ∧ t.ipdata = none ∧ t.album = none ∧ t.artist = none ∧
          t.date = none ∧ t.discnumber = none ∧ t.genre = none ∧ t.title = none ∧
          t.tracknumber = none ∧ t.duration = 0 ∧
          (track_require env s p).2.trace = s.trace) ∧
        ∀ i : Ip, env.plugin_find_ip p = some i →
          (track_require env s p).2.trace = s.trace ++ [Event.get_metadata i p]) ∧
    ∀ te : track_entry, RB_FIND s.track_tree p = some te →
      (track_require env s p).1 =
        some { te.track with
               ip := if te.track.ip = none then env.plugin_find_ip p else te.track.ip } ∧
      RB_FIND (track_require env s p).2.track_tree p =
        some { te with
               track := { te.track with
                 ip := if te.track.ip = none then env.plugin_find_ip p else te.track.ip } } ∧
      (track_require env s p).2.track_nentries = s.track_nentries ∧
      (track_require env s p).2.track_tree_modified = s.track_tree_modified ∧
      (track_require env s p).2.trace = s.trace := by
  constructor
  · intro hf hn
    rw [track_require_absent env hf, track_add_new_entry_absent env none hn hf]
    refine ⟨_, rfl, new_entry_path env p none, ?_, ?_, ?_, rfl, rfl, ?_, ?_⟩
    · rw [new_entry_ip]
      rfl
    · have hd := new_entry_delete env p none
      have : new_entry env p none = { track := (new_entry env p none).track, delete := 0 } := by
        rw [← hd]
      simp only
      rw [← this]
    · have hd := new_entry_delete env p none
      have : new_entry env p none = { track := (new_entry env p none).track, delete := 0 } := by
        rw [← hd]
      simp only
      rw [← this]
      exact RB_FIND_place _ (new_entry_path env p none) hf
    · intro hr
      simp [new_entry, new_entry_events, resolve_ip, hr, track_init_metadata]
    · intro i hr
      simp [new_entry_events, resolve_ip, hr]
  · intro te hf
    rw [track_require_found env hf]
    by_cases hip : te.track.ip = none
    · rw [if_pos hip, if_pos hip]
      exact ⟨rfl, RB_FIND_modify _ (fun _ => rfl) hf, rfl, rfl, rfl⟩
    · rw [if_neg hip, if_neg hip]
      exact ⟨rfl, hf, rfl, rfl, rfl⟩

/-- Witness of C12 as amended: the path `b`, for which the sample registry
has no plug-in, on the empty index. -/
theorem track_require_lazy_witness :
    (track_require Env.sample (State.init []) [98]).2.track_nentries = 1 ∧
    (track_require Env.sample (State.init []) [98]).2.trace = [] :=
  have h := (track_require_lazy Env.sample (State.init []) [98]).1 (by decide) (by decide)
  ⟨by
    obtain ⟨t, h1, h2, h3, h4, h5, h6, h7⟩ := h
    exact h6,
   by decide⟩

/-- C12 fails as stated.  For the path `a`, without entry, the sample
registry has plug-in 0: the track that `track_require` returns is bound to
it, carries the title that the fetch found, and the fetch is among the
events.  And on the index of `SIZE_MAX` entries `track_require` for the path
`b`, without entry, returns no track and leaves the live-entry count as it
was. -/
theorem track_require_eager :
    RB_FIND (State.init []).track_tree [97] = none ∧
    (track_require Env.sample (State.init []) [97]).1 = some track.sample ∧
    track.sample.ip = some 0 ∧ track.sample.title = some [116] ∧
    (track_require Env.sample (State.init []) [97]).2.trace = [Event.get_metadata 0 [97]] ∧
    RB_FIND State.full.track_tree [98] = none ∧
    (track_require Env.sample State.full [98]).1 = none ∧
    (track_require Env.sample State.full [98]).2.track_nentries =
      State.full.track_nentries := by
  have hf : RB_FIND State.full.track_tree [98] = none := by
    rw [full_track_tree, RB_FIND_eq_none]
    unfold full_tree
    intro te hte
    rw [List.mem_map] at hte
    obtain ⟨i, _, rfl⟩ := hte
    simp [track.blank, List.replicate]
  refine ⟨by decide, by decide, by decide, by decide, by decide, hf, ?_⟩
  rw [track_require_absent Env.sample hf,
    track_add_new_entry_full Env.sample [98] none full_track_nentries]
  exact ⟨rfl, rfl⟩

/-! ## `track_read_cache` -/

theorem track_read_cache_loop_append (env : Env) (recs : List cache_record)
    (rest : List (Option cache_record)) (s : State) :
    track_read_cache_loop env (recs.map some ++ rest) s =
      track_read_cache_loop env rest (track_read_cache_loop env (recs.map some) s) := by
  induction recs generalizing s with
  | nil => rfl
  | cons r recs ih =>
    simp only [List.map_cons, List.cons_append, track_read_cache_loop_some, ih]

theorem track_read_cache_loop_nil (env : Env) (s : State) :
    track_read_cache_loop env [] s = s := rfl

theorem track_read_cache_loop_fail (env : Env) (rest : List (Option cache_record))
    (s : State) (h : rest = [] ∨ ∃ t, rest = none :: t) :
    track_read_cache_loop env rest s = s := by
  rcases h with rfl | ⟨t, rfl⟩
  · rfl
  · simp [track_read_cache_loop, cache_read_entry]

theorem cache_insert_all_length (env : Env) (recs : List cache_record)
    (tree : List track_entry) : tree.length ≤ (cache_insert_all env recs tree).length := by
  induction recs generalizing tree with
  | nil => exact le_refl _
  | cons r recs ih =>
    simp only [cache_insert_all]
    cases RB_FIND tree r.path with
    | none =>
      have := ih (RB_PLACE (cache_entry env r) tree)
      rw [RB_PLACE_length] at this
      simp only
      omega
    | some old => exact ih tree

theorem cache_entry_path (env : Env) (r : cache_record) :
    (cache_entry env r).track.path = r.path := rfl

/-- While the live-entry count stays below `SIZE_MAX`, the loop of
`track_read_cache` on readable records builds `cache_insert_all`. -/
theorem track_read_cache_loop_tree (env : Env) (recs : List cache_record) (s : State)
    (hn : s.track_nentries = s.track_tree.length)
    (hlen : (cache_insert_all env recs s.track_tree).length ≤ SIZE_MAX) :
    (track_read_cache_loop env (recs.map some) s).track_tree =
      cache_insert_all env recs s.track_tree ∧
    (track_read_cache_loop env (recs.map some) s).track_nentries =
      (cache_insert_all env recs s.track_tree).length := by
  induction recs generalizing s with
  | nil => exact ⟨rfl, hn⟩
  | cons r recs ih =>
    rw [List.map_cons, track_read_cache_loop_some]
    simp only [cache_insert_all] at hlen ⊢
    cases hf : RB_FIND s.track_tree r.path with
    | some old =>
      rw [hf] at hlen
      simp only at hlen ⊢
      have hsame : (track_add_entry s (cache_entry env r)).2.track_tree = s.track_tree ∧
          (track_add_entry s (cache_entry env r)).2.track_nentries = s.track_nentries := by
        by_cases hfull : s.track_nentries = SIZE_MAX
        · rw [track_add_entry_full _ hfull]
          exact ⟨rfl, rfl⟩
        · rw [track_add_entry_present hfull (by rw [cache_entry_path]; exact hf)]
          exact ⟨rfl, rfl⟩
      have := ih (track_add_entry s (cache_entry env r)).2
        (by rw [hsame.1, hsame.2]; exact hn) (by rw [hsame.1]; exact hlen)
      rw [hsame.1] at this
      exact this
    | none =>
      rw [hf] at hlen
      simp only at hlen ⊢
      have hmono := cache_insert_all_length env recs (RB_PLACE (cache_entry env r) s.track_tree)
      rw [RB_PLACE_length] at hmono
      have hfull : s.track_nentries ≠ SIZE_MAX := by omega
      rw [track_add_entry_absent hfull (by rw [cache_entry_path]; exact hf)]
      exact ih _ (by simp [RB_PLACE_length, hn]) hlen

theorem cache_insert_all_sorted (env : Env) (recs : List cache_record)
    {tree : List track_entry} (h : path_sorted tree) :
    path_sorted (cache_insert_all env recs tree) := by
  induction recs generalizing tree with
  | nil => exact h
  | cons r recs ih =>
    simp only [cache_insert_all]
    cases hf : RB_FIND tree r.path with
    | none => exact ih (path_sorted_place h (by rw [cache_entry_path]; exact hf))
    | some old => exact ih h

/-- The entries of `cache_insert_all`: those of the tree, and for each path
that the tree lacks the entry of the first record with that path. -/
theorem cache_insert_all_mem (env : Env) (recs : List cache_record)
    (tree : List track_entry) (te : track_entry) :
    te ∈ cache_insert_all env recs tree ↔
      te ∈ tree ∨
      (RB_FIND tree te.track.path = none ∧
        ∃ r, recs.find? (fun q => q.path = te.track.path) = some r ∧
          te = cache_entry env r) := by
  induction recs generalizing tree with
  | nil => simp [cache_insert_all]
  | cons r recs ih =>
    simp only [cache_insert_all, List.find?_cons]
    by_cases hp : r.path = te.track.path
    · simp only [hp, decide_True, Option.some.injEq, exists_eq_left']
      cases hf : RB_FIND tree te.track.path with
      | some old =>
        rw [ih]
        simp [hf]
      | none =>
        rw [ih]
        have hfind : RB_FIND (RB_PLACE (cache_entry env r) tree) te.track.path =
            some (cache_entry env r) :=
          RB_FIND_place _ (by rw [cache_entry_path]; exact hp) hf
        simp only [hfind, RB_PLACE_mem, reduceCtorEq, false_and, or_false, true_and]
        tauto
    · simp only [hp, decide_False]
      cases hf : RB_FIND tree r.path with
      | some old =>
        simp only
        rw [ih]
      | none =>
        simp only
        rw [ih]
        have hne : (cache_entry env r).track.path ≠ te.track.path := by
          rw [cache_entry_path]
          exact hp
        rw [RB_FIND_place_ne _ hne, RB_PLACE_mem]
        constructor
        · rintro ((rfl | h) | h)
          · exact absurd rfl hne
          · exact Or.inl h
          · exact Or.inr h
        · rintro (h | h)
          · exact Or.inl (Or.inr h)
          · exact Or.inr h

theorem cache_insert_all_paths (env : Env) (recs : List cache_record) (q : CStr) :
    (∃ te ∈ cache_insert_all env recs [], te.track.path = q) ↔ ∃ r ∈ recs, r.path = q := by
  constructor
  · rintro ⟨te, hte, rfl⟩
    rw [cache_insert_all_mem] at hte
    rcases hte with h | ⟨_, r, hr, _⟩
    · simp at h
    · refine ⟨r, List.mem_of_find?_eq_some hr, ?_⟩
      have := List.find?_some hr
      simpa using this
  · rintro ⟨r, hr, rfl⟩
    cases hfind : recs.find? (fun x => x.path = r.path) with
    | none =>
      rw [List.find?_eq_none] at hfind
      have := hfind r hr
      simp at this
    | some r0 =>
      have hp : r0.path = r.path := by
        have := List.find?_some hfind
        simpa using this
      refine ⟨cache_entry env r0, ?_, by rw [cache_entry_path, hp]⟩
      rw [cache_insert_all_mem]
      refine Or.inr ⟨by simp [RB_FIND], r0, ?_, rfl⟩
      rw [cache_entry_path, hp]
      exact hfind

theorem cache_insert_all_count (env : Env) (recs : List cache_record) :
    (cache_insert_all env recs []).length = ((recs.map fun r => r.path).dedup).length := by
  have hsorted : path_sorted (cache_insert_all env recs []) :=
    cache_insert_all_sorted env recs (by simp [path_sorted])
  have hnodup : ((cache_insert_all env recs []).map fun te => te.track.path).Nodup := by
    rw [List.Nodup, List.pairwise_map]
    exact path_sorted_distinct hsorted
  have hset : ((cache_insert_all env recs []).map fun te => te.track.path).toFinset =
      (recs.map fun r => r.path).toFinset := by
    ext q
    simp only [List.mem_toFinset, List.mem_map]
    exact cache_insert_all_paths env recs q
  rw [← List.card_toFinset, ← hset, List.toFinset_card_of_nodup hnodup, List.length_map]

/-- C11, as the code has it: `track_read_cache` on the empty index, with a
cache whose first `k` records can be read and whose next record, if there is
one, cannot, and with at most `SIZE_MAX` distinct paths among the `k`
records.  The entries afterwards are, for each path among the `k` records,
the entry of the first record with that path, in ascending order of the
paths; the live-entry count is the number of distinct paths; no entry is
tombstoned; and the tree is the one that the `k` records alone give, so
that nothing at or after the failed read has a part in it. -/
theorem track_read_cache_stops (env : Env) (recs : List cache_record)
    (rest : List (Option cache_record))
    (hopen : env.cache_open cache_mode.CACHE_MODE_READ ≠ -1)
    (hrest : rest = [] ∨ ∃ t, rest = none :: t)
    (hk : ((recs.map fun r => r.path).dedup).length ≤ SIZE_MAX) :
    (∀ te : track_entry,
      te ∈ (track_read_cache env (State.init (recs.map some ++ rest))).track_tree ↔
        ∃ r, recs.find? (fun q => q.path = te.track.path) = some r ∧
          te = cache_entry env r) ∧
    path_sorted (track_read_cache env (State.init (recs.map some ++ rest))).track_tree ∧
    (track_read_cache env (State.init (recs.map some ++ rest))).track_nentries =
      ((recs.map fun r => r.path).dedup).length ∧
    (track_read_cache env (State.init (recs.map some ++ rest))).track_tree.length =
      ((recs.map fun r => r.path).dedup).length ∧
    (∀ te ∈ (track_read_cache env (State.init (recs.map some ++ rest))).track_tree,
      te.delete = 0) ∧
    (track_read_cache env (State.init (recs.map some ++ rest))).track_tree =
      (track_read_cache env (State.init (recs.map some))).track_tree := by
  have hloop : ∀ c : List (Option cache_record),
      (track_read_cache_loop env (recs.map some) (State.init c)).track_tree =
        cache_insert_all env recs [] ∧
      (track_read_cache_loop env (recs.map some) (State.init c)).track_nentries =
        (cache_insert_all env recs []).length := by
    intro c
    exact track_read_cache_loop_tree env recs (State.init c) rfl
      (by
        show (cache_insert_all env recs []).length ≤ SIZE_MAX
        rw [cache_insert_all_count]
        exact hk)
  have h1 : track_read_cache env (State.init (recs.map some ++ rest)) =
      track_read_cache_loop env (recs.map some) (State.init (recs.map some ++ rest)) := by
    simp only [track_read_cache, hopen, if_false]
    show track_read_cache_loop env (recs.map some ++ rest) _ = _
    rw [track_read_cache_loop_append, track_read_cache_loop_fail env rest _ hrest]
  have h2 : track_read_cache env (State.init (recs.map some)) =
      track_read_cache_loop env (recs.map some) (State.init (recs.map some)) := by
    simp only [track_read_cache, hopen, if_false]
    rfl
  rw [h1, h2, (hloop _).1, (hloop _).1, (hloop _).2, cache_insert_all_count]
  refine ⟨?_, cache_insert_all_sorted env recs (by simp [path_sorted]), rfl, rfl, ?_, rfl⟩
  · intro te
    rw [cache_insert_all_mem]
    simp [RB_FIND]
  · intro te hte
    rw [cache_insert_all_mem] at hte
    rcases hte with h | ⟨_, r, _, rfl⟩
    · simp at h
    · rfl

/-- Witness of C11 as amended: two records for the path `a` and then a
record that cannot be read; the first record is kept. -/
theorem track_read_cache_stops_witness :
    (track_read_cache Env.sample
        (State.init ([cache_record_of track.sample, cache_record_of (track.blank [97])].map some
          ++ [none, some (cache_record_of (track.blank [98]))]))).track_nentries =
      (([cache_record_of track.sample, cache_record_of (track.blank [97])].map
        fun r => r.path).dedup).length ∧
    (track_read_cache Env.sample
        (State.init ([cache_record_of track.sample, cache_record_of (track.blank [97])].map some
          ++ [none, some (cache_record_of (track.blank [98]))]))).track_tree =
      [cache_entry Env.sample (cache_record_of track.sample)] :=
  ⟨(track_read_cache_stops Env.sample
      [cache_record_of track.sample, cache_record_of (track.blank [97])]
      [none, some (cache_record_of (track.blank [98]))] (by decide)
      (Or.inr ⟨_, rfl⟩) (by decide)).2.2.1,
   by decide⟩

theorem ones_record_sorted (n : Nat) :
    ((List.range n).map ones_record).Pairwise fun a b => strcmp a.path b.path < 0 := by
  rw [List.pairwise_map]
  refine List.Pairwise.imp ?_ (List.pairwise_lt_range n)
  intro a b hab
  exact strcmp_replicate (by omega)

theorem over_full_cache_eq :
    over_full_cache = (List.range SIZE_MAX).map ones_record ++ [ones_record SIZE_MAX] := by
  unfold over_full_cache
  rw [List.range_succ, List.map_append, List.map_singleton]

theorem track_read_cache_loop_saturates (env : Env) (s : State)
    (ht : s.track_tree = []) (hn : s.track_nentries = 0) :
    (track_read_cache_loop env
      (((List.range SIZE_MAX).map ones_record).map some ++ [some (ones_record SIZE_MAX)])
      s).track_nentries = SIZE_MAX := by
  have hfirst := track_read_cache_loop_sorted env ((List.range SIZE_MAX).map ones_record) s
    (ones_record_sorted SIZE_MAX)
    (by
      rw [ht]
      exact fun x hx => absurd hx (List.not_mem_nil x))
    (by rw [ht, hn, List.length_nil])
    (by rw [ht, List.length_nil, List.length_map, List.length_range, Nat.zero_add])
  have hcount : (track_read_cache_loop env (((List.range SIZE_MAX).map ones_record).map some)
      s).track_nentries = SIZE_MAX := by
    rw [hfirst.2, ht, List.length_nil, List.length_map, List.length_range, Nat.zero_add]
  rw [track_read_cache_loop_append, track_read_cache_loop_some,
    track_add_entry_full _ hcount, track_read_cache_loop_nil]
  exact hcount

/-- C11 fails as stated: a cache of `SIZE_MAX + 1` records with pairwise
distinct paths, all readable; after `track_read_cache` on the empty index
the live-entry count is `SIZE_MAX`, one less than the number of distinct
paths, because `track_add_entry` refuses the last record. -/
theorem track_read_cache_saturates :
    ((over_full_cache.map fun r => r.path).dedup).length = SIZE_MAX + 1 ∧
    (track_read_cache Env.sample (State.init (over_full_cache.map some))).track_nentries =
      SIZE_MAX := by
  constructor
  · have hnodup : (over_full_cache.map fun r => r.path).Nodup := by
      unfold over_full_cache
      rw [List.Nodup, List.pairwise_map]
      refine List.Pairwise.imp ?_ (ones_record_sorted (SIZE_MAX + 1))
      intro a b hab e
      rw [e, strcmp_self] at hab
      exact absurd hab (by decide)
    rw [List.Nodup.dedup hnodup, List.length_map]
    unfold over_full_cache
    rw [List.length_map, List.length_range]
  · have hopen : Env.sample.cache_open cache_mode.CACHE_MODE_READ ≠ -1 := by decide
    have e : over_full_cache.map some =
        ((List.range SIZE_MAX).map ones_record).map some ++ [some (ones_record SIZE_MAX)] := by
      rw [over_full_cache_eq, List.map_append, List.map_singleton]
    rw [track_read_cache, if_neg hopen,
      show (State.init (over_full_cache.map some)).cache = over_full_cache.map some from rfl]
    have ht : (State.init (over_full_cache.map some)).track_tree = [] := rfl
    have hn : (State.init (over_full_cache.map some)).track_nentries = 0 := rfl
    generalize State.init (over_full_cache.map some) = s0 at ht hn ⊢
    rw [e]
    exact track_read_cache_loop_saturates Env.sample s0 ht hn

/-! ## `op_oss_start` and `op_oss_write` -/

/-- The function `op_oss_start` as one case distinction over its failure
points, with the state and the system calls of each case. -/
theorem op_oss_start_eq (env : OssEnv) (s : Oss) (sf : sample_format) :
    op_oss_start env s sf =
      if env.sys_open = -1 then
        (-1, { s with op_oss_fd := env.sys_open, calls := s.calls ++ [OssCall.sys_open] }, sf)
      else if (env.ioctl_channels (int_of_uint sf.nchannels)).1 = -1 ∨
          (env.ioctl_channels (int_of_uint sf.nchannels)).2 ≠ int_of_uint sf.nchannels then
        (-1,
          { s with
            op_oss_fd := -1
            calls := s.calls ++ [OssCall.sys_open] ++
              [OssCall.channels (int_of_uint sf.nchannels)] ++
              [OssCall.sys_close env.sys_open] }, sf)
      else if (env.ioctl_setfmt env.AFMT_S16_NE).1 = -1 ∨
          (env.ioctl_setfmt env.AFMT_S16_NE).2 ≠ env.AFMT_S16_NE then
        (-1,
          { s with
            op_oss_fd := -1
            calls := s.calls ++ [OssCall.sys_open] ++
              [OssCall.channels (int_of_uint sf.nchannels)] ++
              [OssCall.setfmt env.AFMT_S16_NE] ++ [OssCall.sys_close env.sys_open] }, sf)
      else if (env.ioctl_speed (int_of_uint sf.rate)).1 = -1 ∨
          (uint_of_int (env.ioctl_speed (int_of_uint sf.rate)).2 <
              sf.rate * 995 % 4294967296 / 1000 ∨
            uint_of_int (env.ioctl_speed (int_of_uint sf.rate)).2 >
              sf.rate * 1005 % 4294967296 / 1000) then
        (-1,
          { s with
            op_oss_fd := -1
            calls := s.calls ++ [OssCall.sys_open] ++
              [OssCall.channels (int_of_uint sf.nchannels)] ++
              [OssCall.setfmt env.AFMT_S16_NE] ++ [OssCall.speed (int_of_uint sf.rate)] ++
              [OssCall.sys_close env.sys_open] }, sf)
      else
        (0,
          (if env.have_volume_support ∧ s.op_oss_volume ≠ -1 then
            op_oss_set_volume env
              { s with
                op_oss_fd := env.sys_open
                op_oss_buffer_size :=
                  if env.ioctl_getblksize.1 = -1 then OP_OSS_BUFSIZE
                  else size_of_int env.ioctl_getblksize.2
                calls := s.calls ++ [OssCall.sys_open] ++
                  [OssCall.channels (int_of_uint sf.nchannels)] ++
                  [OssCall.setfmt env.AFMT_S16_NE] ++ [OssCall.speed (int_of_uint sf.rate)] ++
                  [OssCall.getblksize] }
              (uint_of_int s.op_oss_volume)
          else
            { s with
              op_oss_fd := env.sys_open
              op_oss_buffer_size :=
                if env.ioctl_getblksize.1 = -1 then OP_OSS_BUFSIZE
                else size_of_int env.ioctl_getblksize.2
              calls := s.calls ++ [OssCall.sys_open] ++
                [OssCall.channels (int_of_uint sf.nchannels)] ++
                [OssCall.setfmt env.AFMT_S16_NE] ++ [OssCall.speed (int_of_uint sf.rate)] ++
                [OssCall.getblksize] }),
          { sf with
            byte_order :=
              if env.AFMT_S16_NE = env.AFMT_S16_BE then BYTE_ORDER_BIG
              else BYTE_ORDER_LITTLE }) := by
  unfold op_oss_start op_oss_start_error
  by_cases h0 : env.sys_open = -1
  · simp only [h0, if_true]
  · simp only [h0, if_false]
    by_cases h1 : (env.ioctl_channels (int_of_uint sf.nchannels)).1 = -1
    · simp only [h1, if_true, true_or]
    · simp only [h1, if_false, false_or]
      by_cases h2 : (env.ioctl_channels (int_of_uint sf.nchannels)).2 = int_of_uint sf.nchannels
      · simp only [h2, ne_eq, not_true_eq_false, if_false]
        by_cases h3 : (env.ioctl_setfmt env.AFMT_S16_NE).1 = -1
        · simp only [h3, if_true, true_or]
        · simp only [h3, if_false, false_or]
          by_cases h4 : (env.ioctl_setfmt env.AFMT_S16_NE).2 = env.AFMT_S16_NE
          · simp only [h4, not_true_eq_false, if_false]
            by_cases h5 : (env.ioctl_speed (int_of_uint sf.rate)).1 = -1
            · simp only [h5, if_true, true_or]
            · simp only [h5, if_false, false_or]
              split_ifs <;> rfl
          · simp only [h4, not_false_eq_true, if_true]
      · simp only [h2, ne_eq, not_false_eq_true, if_true]

theorem op_oss_set_volume_frame (env : OssEnv) (s : Oss) (v : Nat)
    (h : s.op_oss_fd ≠ -1) :
    (op_oss_set_volume env s v).op_oss_fd = s.op_oss_fd ∧
    (op_oss_set_volume env s v).op_oss_buffer_size = s.op_oss_buffer_size ∧
    (op_oss_set_volume env s v).op_oss_volume = s.op_oss_volume := by
  simp [op_oss_set_volume, h]

/-- A call of `op_oss_start` that meets a failure point: the result is -1,
the descriptor is -1, the buffer size, the volume, the device name and the
sample format are as before, and if the device had been opened the last
system call closes it. -/
theorem op_oss_start_of_fails {env : OssEnv} {sf : sample_format} (s : Oss)
    (h : op_oss_start_fails env sf) :
    (op_oss_start env s sf).1 = -1 ∧
    (op_oss_start env s sf).2.1.op_oss_fd = -1 ∧
    (op_oss_start env s sf).2.1.op_oss_buffer_size = s.op_oss_buffer_size ∧
    (op_oss_start env s sf).2.1.op_oss_volume = s.op_oss_volume ∧
    (op_oss_start env s sf).2.1.op_oss_device = s.op_oss_device ∧
    (op_oss_start env s sf).2.2 = sf ∧
    (env.sys_open ≠ -1 →
      (op_oss_start env s sf).2.1.calls.getLast? = some (OssCall.sys_close env.sys_open)) := by
  rw [op_oss_start_eq]
  by_cases h0 : env.sys_open = -1
  · rw [if_pos h0]
    exact ⟨rfl, h0, rfl, rfl, rfl, rfl, fun hn => absurd h0 hn⟩
  · rw [if_neg h0]
    by_cases h1 : (env.ioctl_channels (int_of_uint sf.nchannels)).1 = -1 ∨
        (env.ioctl_channels (int_of_uint sf.nchannels)).2 ≠ int_of_uint sf.nchannels
    · rw [if_pos h1]
      exact ⟨rfl, rfl, rfl, rfl, rfl, rfl, fun _ => by simp⟩
    · rw [if_neg h1]
      by_cases h2 : (env.ioctl_setfmt env.AFMT_S16_NE).1 = -1 ∨
          (env.ioctl_setfmt env.AFMT_S16_NE).2 ≠ env.AFMT_S16_NE
      · rw [if_pos h2]
        exact ⟨rfl, rfl, rfl, rfl, rfl, rfl, fun _ => by simp⟩
      · rw [if_neg h2]
        by_cases h3 : (env.ioctl_speed (int_of_uint sf.rate)).1 = -1 ∨
            (uint_of_int (env.ioctl_speed (int_of_uint sf.rate)).2 <
                sf.rate * 995 % 4294967296 / 1000 ∨
              uint_of_int (env.ioctl_speed (int_of_uint sf.rate)).2 >
                sf.rate * 1005 % 4294967296 / 1000)
        · rw [if_pos h3]
          exact ⟨rfl, rfl, rfl, rfl, rfl, rfl, fun _ => by simp⟩
        · exfalso
          unfold op_oss_start_fails at h
          tauto

/-- A call of `op_oss_start` that meets no failure point returns 0 and
leaves the device open. -/
theorem op_oss_start_of_not_fails {env : OssEnv} {sf : sample_format} (s : Oss)
    (h : ¬ op_oss_start_fails env sf) :
    (op_oss_start env s sf).1 = 0 ∧ (op_oss_start env s sf).2.1.op_oss_fd = env.sys_open := by
  unfold op_oss_start_fails at h
  rw [op_oss_start_eq]
  have h0 : env.sys_open ≠ -1 := fun e => h (Or.inl e)
  rw [if_neg h0, if_neg (by tauto), if_neg (by tauto), if_neg (by tauto)]
  refine ⟨rfl, ?_⟩
  by_cases hv : env.have_volume_support = true ∧ s.op_oss_volume ≠ -1
  · simp only [if_pos hv]
    exact (op_oss_set_volume_frame env _ _ h0).1
  · simp only [if_neg hv]

/-- C18: `op_oss_start` returns 0 or -1; it returns -1 exactly when it meets
one of its failure points (open, number of channels refused or not as
asked, sample encoding refused or not as asked, rate refused or out of
bounds); and after a failure the descriptor is -1, `op_oss_get_buffer_size`
returns what it returned before the call, the cached volume and the sample
format are as before, and the device, if it had been opened, was closed by
the last system call. -/
theorem op_oss_start_failure_atomic (env : OssEnv) (s : Oss) (sf : sample_format) :
    ((op_oss_start env s sf).1 = 0 ∨ (op_oss_start env s sf).1 = -1) ∧
    ((op_oss_start env s sf).1 = -1 ↔ op_oss_start_fails env sf) ∧
    ((op_oss_start env s sf).1 = -1 →
      (op_oss_start env s sf).2.1.op_oss_fd = -1 ∧
      op_oss_get_buffer_size (op_oss_start env s sf).2.1 = op_oss_get_buffer_size s ∧
      (op_oss_start env s sf).2.1.op_oss_volume = s.op_oss_volume ∧
      (op_oss_start env s sf).2.2 = sf ∧
      (env.sys_open ≠ -1 →
        (op_oss_start env s sf).2.1.calls.getLast? =
          some (OssCall.sys_close env.sys_open))) := by
  by_cases h : op_oss_start_fails env sf
  · obtain ⟨h1, h2, h3, h4, _, h6, h7⟩ := op_oss_start_of_fails s h
    exact ⟨Or.inr h1, ⟨fun _ => h, fun _ => h1⟩, fun _ => ⟨h2, h3, h4, h6, h7⟩⟩
  · obtain ⟨h1, _⟩ := op_oss_start_of_not_fails s h
    refine ⟨Or.inl h1, ⟨fun e => ?_, fun e => absurd e h⟩, fun e => ?_⟩
    · rw [h1] at e
      exact absurd e (by decide)
    · rw [h1] at e
      exact absurd e (by decide)

/-- Witness of C18: the device takes only mono, the format asks for
stereo. -/
theorem op_oss_start_failure_atomic_witness :
    (op_oss_start OssEnv.mono Oss.sample sample_format.cd).1 = -1 ∧
    (op_oss_start OssEnv.mono Oss.sample sample_format.cd).2.1.op_oss_fd = -1 ∧
    op_oss_get_buffer_size (op_oss_start OssEnv.mono Oss.sample sample_format.cd).2.1 = 512 :=
  have h := (op_oss_start_failure_atomic OssEnv.mono Oss.sample sample_format.cd).2.2
    (by decide)
  ⟨by decide, h.1, h.2.1⟩

/-- C17, as the code has it: when the device can be opened and takes the
number of channels, the sample encoding and the rate request, `op_oss_start`
returns 0 exactly when the rate that the device reports lies between
`rate * 995 / 1000` and `rate * 1005 / 1000`, the products taken in
`unsigned int` and the divisions rounded down, and returns -1 with the
descriptor reset to -1 otherwise.  As long as `rate * 1005` fits
`unsigned int` this is: at most 0.5% above the rate asked, and less than one
unit below 0.5% under it; so every rate within 0.5% is taken.  For 44100 the
rate 44000 is taken and 46000 is not. -/
theorem op_oss_start_rate (env : OssEnv) (s : Oss) (sf : sample_format)
    (hopen : env.sys_open ≠ -1)
    (hch : (env.ioctl_channels (int_of_uint sf.nchannels)).1 ≠ -1 ∧
      (env.ioctl_channels (int_of_uint sf.nchannels)).2 = int_of_uint sf.nchannels)
    (hfmt : (env.ioctl_setfmt env.AFMT_S16_NE).1 ≠ -1 ∧
      (env.ioctl_setfmt env.AFMT_S16_NE).2 = env.AFMT_S16_NE)
    (hspeed : (env.ioctl_speed (int_of_uint sf.rate)).1 ≠ -1) :
    ((op_oss_start env s sf).1 = 0 ↔
      sf.rate * 995 % 4294967296 / 1000 ≤
          uint_of_int (env.ioctl_speed (int_of_uint sf.rate)).2 ∧
        uint_of_int (env.ioctl_speed (int_of_uint sf.rate)).2 ≤
          sf.rate * 1005 % 4294967296 / 1000) ∧
    ((op_oss_start env s sf).1 ≠ 0 →
      (op_oss_start env s sf).1 = -1 ∧ (op_oss_start env s sf).2.1.op_oss_fd = -1 ∧
      (op_oss_start env s sf).2.1.calls.getLast? = some (OssCall.sys_close env.sys_open)) ∧
    (sf.rate * 1005 < 4294967296 →
      ((op_oss_start env s sf).1 = 0 ↔
        995 * sf.rate < 1000 * (uint_of_int (env.ioctl_speed (int_of_uint sf.rate)).2 + 1) ∧
        1000 * uint_of_int (env.ioctl_speed (int_of_uint sf.rate)).2 ≤ 1005 * sf.rate)) ∧
    (op_oss_start (OssEnv.sample 44000) Oss.sample sample_format.cd).1 = 0 ∧
    (op_oss_start (OssEnv.sample 46000) Oss.sample sample_format.cd).1 = -1 ∧
    (op_oss_start (OssEnv.sample 46000) Oss.sample sample_format.cd).2.1.op_oss_fd = -1 := by
  have hiff : op_oss_start_fails env sf ↔
      ¬ (sf.rate * 995 % 4294967296 / 1000 ≤
          uint_of_int (env.ioctl_speed (int_of_uint sf.rate)).2 ∧
        uint_of_int (env.ioctl_speed (int_of_uint sf.rate)).2 ≤
          sf.rate * 1005 % 4294967296 / 1000) := by
    unfold op_oss_start_fails
    constructor
    · rintro (h | h | h | h | h | h | h | h)
      · exact absurd h hopen
      · exact absurd h hch.1
      · exact absurd hch.2 h
      · exact absurd h hfmt.1
      · exact absurd hfmt.2 h
      · exact absurd h hspeed
      · omega
      · omega
    · intro h
      have : uint_of_int (env.ioctl_speed (int_of_uint sf.rate)).2 <
            sf.rate * 995 % 4294967296 / 1000 ∨
          uint_of_int (env.ioctl_speed (int_of_uint sf.rate)).2 >
            sf.rate * 1005 % 4294967296 / 1000 := by omega
      tauto
  have hok : (op_oss_start env s sf).1 = 0 ↔
      sf.rate * 995 % 4294967296 / 1000 ≤
          uint_of_int (env.ioctl_speed (int_of_uint sf.rate)).2 ∧
        uint_of_int (env.ioctl_speed (int_of_uint sf.rate)).2 ≤
          sf.rate * 1005 % 4294967296 / 1000 := by
    constructor
    · intro h0
      by_contra hn
      have := (op_oss_start_of_fails s (hiff.2 hn)).1
      rw [this] at h0
      exact absurd h0 (by decide)
    · intro hb
      exact (op_oss_start_of_not_fails s (fun hf => hiff.1 hf hb)).1
  refine ⟨hok, ?_, ?_, by decide, by decide, by decide⟩
  · intro hne
    have hf : op_oss_start_fails env sf := by
      by_contra hn
      exact hne (op_oss_start_of_not_fails s hn).1
    obtain ⟨h1, h2, _, _, _, _, h7⟩ := op_oss_start_of_fails s hf
    exact ⟨h1, h2, h7 hopen⟩
  · intro hfit
    rw [hok]
    have h1 : sf.rate * 995 % 4294967296 = sf.rate * 995 := Nat.mod_eq_of_lt (by omega)
    have h2 : sf.rate * 1005 % 4294967296 = sf.rate * 1005 := Nat.mod_eq_of_lt hfit
    rw [h1, h2]
    omega

/-- Witness of C17 as amended: the sample device reports 44000 for 44100. -/
theorem op_oss_start_rate_witness :
    (op_oss_start (OssEnv.sample 44000) Oss.sample sample_format.cd).1 = 0 ↔
      sample_format.cd.rate * 995 % 4294967296 / 1000 ≤
          uint_of_int ((OssEnv.sample 44000).ioctl_speed
            (int_of_uint sample_format.cd.rate)).2 ∧
        uint_of_int ((OssEnv.sample 44000).ioctl_speed
            (int_of_uint sample_format.cd.rate)).2 ≤
          sample_format.cd.rate * 1005 % 4294967296 / 1000 :=
  (op_oss_start_rate (OssEnv.sample 44000) Oss.sample sample_format.cd (by decide)
    ⟨by decide, by decide⟩ ⟨by decide, by decide⟩ (by decide)).1

/-- C17 fails as stated: for 44100 the device reports 43879, which is more
than 0.5% below (0.5% below is 43879.5), and `op_oss_start` returns 0. -/
theorem op_oss_start_rate_rounded :
    (op_oss_start (OssEnv.sample 43879) Oss.sample sample_format.cd).1 = 0 ∧
    ¬ (995 * 44100 ≤ 1000 * 43879) := by
  decide

/-- C19, as the code has it: `op_oss_write` makes one call of `write` for
the whole buffer; it returns -1 exactly when `write` returns -1 and returns
0 in every other case, whatever the number of bytes that the device took;
the variables of `oss.c` are as before. -/
theorem op_oss_write_result (env : OssEnv) (s : Oss) (bufsize : Nat) :
    ((op_oss_write env s bufsize).1 = -1 ↔ env.sys_write bufsize = -1) ∧
    ((op_oss_write env s bufsize).1 = 0 ↔ env.sys_write bufsize ≠ -1) ∧
    (op_oss_write env s bufsize).2 =
      { s with calls := s.calls ++ [OssCall.sys_write bufsize] } := by
  unfold op_oss_write
  by_cases h : env.sys_write bufsize = -1
  · simp [h]
  · simp [h]

/-- C19 fails as stated: the device takes 10 bytes of a buffer of 4096
bytes, and `op_oss_write` returns 0. -/
theorem op_oss_write_short :
    OssEnv.short.sys_write 4096 = 10 ∧
    (op_oss_write OssEnv.short Oss.sample 4096).1 = 0 := by
  decide

/-! ## `ip_aac_read` -/

/-- What `ip_aac_fill_buffer` returns and how it leaves the session. -/
theorem ip_aac_fill_buffer_spec (env : AacEnv) (fuel : Nat) (ipd ipd' : ip_aac_ipdata)
    (ret : Int) (h : ip_aac_fill_buffer env fuel ipd = some (ret, ipd')) :
    ipd'.nsamples = ipd.nsamples ∧
    (ret = -1 ∨ ret = 0 ∨ ret = 1) ∧
    (ret = 0 → ipd'.sample > ipd'.nsamples ∧ ipd'.pcmbuflen = ipd.pcmbuflen) ∧
    (ret = 1 → 0 < ipd'.pcmbuflen) ∧
    (ret = -1 → ∃ k, k ≤ ipd.nsamples ∧
      (((env.frame k).read_ok = false ∧ ipd'.sample = k) ∨
        ((env.frame k).error ≠ 0 ∧ ipd'.sample = (k + 1) % (UINT32_MAX + 1)))) := by
  induction fuel generalizing ipd with
  | zero => simp [ip_aac_fill_buffer] at h
  | succ fuel ih =>
    simp only [ip_aac_fill_buffer] at h
    split_ifs at h with h1 h2 h3 h4
    · simp only [Option.some.injEq, Prod.mk.injEq] at h
      obtain ⟨rfl, rfl⟩ := h
      refine ⟨rfl, Or.inr (Or.inl rfl), fun _ => ⟨h1, rfl⟩, fun e => absurd e (by decide),
        fun e => absurd e (by decide)⟩
    · simp only [Option.some.injEq, Prod.mk.injEq] at h
      obtain ⟨rfl, rfl⟩ := h
      refine ⟨rfl, Or.inl rfl, fun e => absurd e (by decide), fun e => absurd e (by decide),
        fun _ => ⟨ipd.sample, by omega, Or.inl ⟨h2, rfl⟩⟩⟩
    · simp only [Option.some.injEq, Prod.mk.injEq] at h
      obtain ⟨rfl, rfl⟩ := h
      refine ⟨rfl, Or.inl rfl, fun e => absurd e (by decide), fun e => absurd e (by decide),
        fun _ => ⟨ipd.sample, by omega, Or.inr ⟨h3, rfl⟩⟩⟩
    · simp only [Option.some.injEq, Prod.mk.injEq] at h
      obtain ⟨rfl, rfl⟩ := h
      refine ⟨rfl, Or.inr (Or.inr rfl), fun e => absurd e (by decide), fun _ => ?_,
        fun e => absurd e (by decide)⟩
      simp only
      omega
    · obtain ⟨i1, i2, i3, i4, i5⟩ := ih _ h
      refine ⟨i1, i2, fun e => ?_, i4, fun e => ?_⟩
      · exact i3 e
      · obtain ⟨k, hk, hk'⟩ := i5 e
        exact ⟨k, hk, hk'⟩

/-- On a stream whose number of frames is below the largest sample id,
`ip_aac_fill_buffer` returns within `nsamples + 2` passes. -/
theorem ip_aac_fill_buffer_returns (env : AacEnv) (fuel : Nat) (ipd : ip_aac_ipdata)
    (hmax : ipd.nsamples < UINT32_MAX) (hfuel : ipd.nsamples + 2 ≤ fuel + ipd.sample)
    (hpos : 0 < fuel) :
    ∃ r, ip_aac_fill_buffer env fuel ipd = some r := by
  induction fuel generalizing ipd with
  | zero => exact absurd hpos (by decide)
  | succ fuel ih =>
    simp only [ip_aac_fill_buffer]
    split_ifs with h1 h2 h3 h4
    · exact ⟨_, rfl⟩
    · exact ⟨_, rfl⟩
    · exact ⟨_, rfl⟩
    · exact ⟨_, rfl⟩
    · have hlt : ipd.sample + 1 < UINT32_MAX + 1 := by omega
      apply ih
      · exact hmax
      · simp only [Nat.mod_eq_of_lt hlt]
        omega
      · omega

theorem ip_aac_read_copy_spec (ipd : ip_aac_ipdata) (buf : List Nat) (bufsize : Nat) :
    (ip_aac_read_copy ipd buf bufsize).1.nsamples = ipd.nsamples ∧
    (ip_aac_read_copy ipd buf bufsize).1.sample = ipd.sample ∧
    (ip_aac_read_copy ipd buf bufsize).2.2 ≤ bufsize ∧
    (0 < bufsize → 0 < ipd.pcmbuflen → (ip_aac_read_copy ipd buf bufsize).2.2 < bufsize) := by
  unfold ip_aac_read_copy
  refine ⟨rfl, rfl, ?_, ?_⟩
  · simp only
    omega
  · intro h1 h2
    simp only
    split_ifs <;> omega

/-- What the loop of `ip_aac_read` leaves when it ends. -/
theorem ip_aac_read_loop_spec (env : AacEnv) (fuel passes : Nat) (ipd ipd' : ip_aac_ipdata)
    (buf buf' : List Nat) (bufsize bufsize' : Nat) (err : Bool)
    (h : ip_aac_read_loop env fuel passes ipd buf bufsize = some (err, ipd', buf', bufsize')) :
    ipd'.nsamples = ipd.nsamples ∧ bufsize' ≤ bufsize ∧
    (err = false →
      bufsize' = 0 ∨ (ipd'.sample > ipd'.nsamples ∧ ipd'.pcmbuflen = 0)) ∧
    (err = true → ∃ k, k ≤ ipd.nsamples ∧
      (((env.frame k).read_ok = false ∧ ipd'.sample = k) ∨
        ((env.frame k).error ≠ 0 ∧ ipd'.sample = (k + 1) % (UINT32_MAX + 1)))) := by
  induction passes generalizing ipd buf bufsize with
  | zero => simp [ip_aac_read_loop] at h
  | succ passes ih =>
    simp only [ip_aac_read_loop] at h
    by_cases h1 : bufsize > 0
    · rw [if_pos h1] at h
      by_cases h2 : ipd.pcmbuflen = 0
      · rw [if_pos h2] at h
        cases hfill : ip_aac_fill_buffer env fuel ipd with
        | none => simp [hfill] at h
        | some r =>
          obtain ⟨ret, ipd1⟩ := r
          obtain ⟨f1, f2, f3, f4, f5⟩ := ip_aac_fill_buffer_spec env fuel ipd ipd1 ret hfill
          simp only [hfill] at h
          by_cases h3 : ret = 0
          · rw [if_pos h3] at h
            simp only [Option.some.injEq, Prod.mk.injEq] at h
            obtain ⟨rfl, rfl, rfl, rfl⟩ := h
            refine ⟨f1, le_refl _, fun _ => Or.inr ⟨(f3 h3).1, ?_⟩,
              fun e => absurd e (by decide)⟩
            rw [(f3 h3).2, h2]
          · rw [if_neg h3] at h
            by_cases h4 : ret = -1
            · rw [if_pos h4] at h
              simp only [Option.some.injEq, Prod.mk.injEq] at h
              obtain ⟨rfl, rfl, rfl, rfl⟩ := h
              exact ⟨f1, le_refl _, fun e => absurd e (by decide), fun _ => f5 h4⟩
            · rw [if_neg h4] at h
              obtain ⟨i1, i2, i3, i4⟩ := ih _ _ _ h
              obtain ⟨c1, _, c3, _⟩ := ip_aac_read_copy_spec ipd1 buf bufsize
              refine ⟨by rw [i1, c1, f1], by omega, i3, fun e => ?_⟩
              obtain ⟨k, hk, hk'⟩ := i4 e
              exact ⟨k, by rw [← f1, ← c1]; exact hk, hk'⟩
      · rw [if_neg h2] at h
        obtain ⟨i1, i2, i3, i4⟩ := ih _ _ _ h
        obtain ⟨c1, _, c3, _⟩ := ip_aac_read_copy_spec ipd buf bufsize
        refine ⟨by rw [i1, c1], by omega, i3, fun e => ?_⟩
        obtain ⟨k, hk, hk'⟩ := i4 e
        exact ⟨k, by rw [← c1]; exact hk, hk'⟩
    · rw [if_neg h1] at h
      simp only [Option.some.injEq, Prod.mk.injEq] at h
      obtain ⟨rfl, rfl, rfl, rfl⟩ := h
      exact ⟨rfl, le_refl _, fun _ => Or.inl (by omega), fun e => absurd e (by decide)⟩

/-- On a stream whose number of frames is below the largest sample id, the
loop of `ip_aac_read` ends within `bufsize + 1` passes when each call of
`ip_aac_fill_buffer` has `nsamples + 2` passes. -/
theorem ip_aac_read_loop_returns (env : AacEnv) (fuel passes : Nat) (ipd : ip_aac_ipdata)
    (buf : List Nat) (bufsize : Nat) (hmax : ipd.nsamples < UINT32_MAX)
    (hfuel : ipd.nsamples + 2 ≤ fuel) (hpasses : bufsize + 1 ≤ passes) :
    ∃ r, ip_aac_read_loop env fuel passes ipd buf bufsize = some r := by
  induction passes generalizing ipd buf bufsize with
  | zero => exact absurd hpasses (by omega)
  | succ passes ih =>
    simp only [ip_aac_read_loop]
    by_cases h1 : bufsize > 0
    · rw [if_pos h1]
      by_cases h2 : ipd.pcmbuflen = 0
      · rw [if_pos h2]
        obtain ⟨r, hfill⟩ := ip_aac_fill_buffer_returns env fuel ipd hmax (by omega) (by omega)
        obtain ⟨ret, ipd1⟩ := r
        obtain ⟨f1, f2, f3, f4, f5⟩ := ip_aac_fill_buffer_spec env fuel ipd ipd1 ret hfill
        simp only [hfill]
        by_cases h3 : ret = 0
        · rw [if_pos h3]
          exact ⟨_, rfl⟩
        · rw [if_neg h3]
          by_cases h4 : ret = -1
          · rw [if_pos h4]
            exact ⟨_, rfl⟩
          · rw [if_neg h4]
            have hret : ret = 1 := by
              rcases f2 with e | e | e
              · exact absurd e h4
              · exact absurd e h3
              · exact e
            obtain ⟨c1, _, _, c4⟩ := ip_aac_read_copy_spec ipd1 buf bufsize
            have := c4 h1 (f4 hret)
            apply ih
            · rw [c1, f1]
              exact hmax
            · rw [c1, f1]
              exact hfuel
            · omega
      · rw [if_neg h2]
        obtain ⟨c1, _, _, c4⟩ := ip_aac_read_copy_spec ipd buf bufsize
        have := c4 h1 (by omega)
        apply ih
        · rw [c1]
          exact hmax
        · rw [c1]
          exact hfuel
        · omega
    · rw [if_neg h1]
      exact ⟨_, rfl⟩

theorem ip_aac_read_loop_exhausted (env : AacEnv) (fuel passes : Nat) (ipd : ip_aac_ipdata)
    (buf : List Nat) (bufsize : Nat) (he : ipd.sample > ipd.nsamples)
    (hp : ipd.pcmbuflen = 0) (hfuel : 0 < fuel) :
    ip_aac_read_loop env fuel (passes + 1) ipd buf bufsize = some (false, ipd, buf, bufsize) := by
  obtain ⟨f, rfl⟩ : ∃ f, fuel = f + 1 := ⟨fuel - 1, by omega⟩
  simp only [ip_aac_read_loop]
  by_cases h1 : bufsize > 0
  · simp [h1, hp, ip_aac_fill_buffer, he]
  · simp [h1]

theorem ip_aac_read_loop_failure (env : AacEnv) (fuel passes : Nat) (ipd : ip_aac_ipdata)
    (buf : List Nat) (bufsize : Nat) (hb : 0 < bufsize) (hs : ipd.sample ≤ ipd.nsamples)
    (hp : ipd.pcmbuflen = 0) (hfuel : 0 < fuel)
    (hfail : (env.frame ipd.sample).read_ok = false ∨ (env.frame ipd.sample).error ≠ 0) :
    ∃ ipd', ip_aac_read_loop env fuel (passes + 1) ipd buf bufsize =
      some (true, ipd', buf, bufsize) := by
  obtain ⟨f, rfl⟩ : ∃ f, fuel = f + 1 := ⟨fuel - 1, by omega⟩
  simp only [ip_aac_read_loop, ip_aac_fill_buffer]
  by_cases hr : (env.frame ipd.sample).read_ok = false
  · simp [hb, hp, Nat.not_lt.2 hs, hr]
  · have he : (env.frame ipd.sample).error ≠ 0 := by tauto
    simp [hb, hp, Nat.not_lt.2 hs, hr, he]

/-- C20, as the code has it, for a buffer that holds at least one whole
sample (`size_b >= nbytes > 0`).  On a stream whose number of frames is below
the largest sample id `ip_aac_read` returns, given enough passes.  What it
returns is -1, 0 or 1.  It returns -1 only when a frame of the stream could
not be read or decoded, the cursor being left at that frame or behind it,
and it does return -1 when it starts without carried-over data at such a
frame.  It returns 0 exactly when no frame failed and fewer than `nbytes`
bytes were copied, so that no whole sample was produced; then the cursor is
past the last frame and no carried-over data is left; and a call that
starts with the cursor past the last frame and without carried-over data
returns 0 and leaves the session as it is.  When it returns 1, `len_s > 0`,
`len_b <= size_b` and `len_s = len_b / nbytes`. -/
theorem ip_aac_read_contract (env : AacEnv) (fuel : Nat) (ipd : ip_aac_ipdata)
    (sb : sample_buffer) (hn : 0 < sb.nbytes) (hs : sb.nbytes ≤ sb.size_b) :
    (ipd.nsamples < UINT32_MAX → ipd.nsamples + 2 ≤ fuel → sb.size_b + 1 ≤ fuel →
      ∃ r, ip_aac_read env fuel ipd sb = some r) ∧
    (∀ (ret : Int) (ipd' : ip_aac_ipdata) (sb' : sample_buffer),
      ip_aac_read env fuel ipd sb = some (ret, ipd', sb') →
      (ret = -1 ∨ ret = 0 ∨ ret = 1) ∧
      (ret = -1 → ∃ k, k ≤ ipd.nsamples ∧
        (((env.frame k).read_ok = false ∧ ipd'.sample = k) ∨
          ((env.frame k).error ≠ 0 ∧ ipd'.sample = (k + 1) % (UINT32_MAX + 1)))) ∧
      (ret = 0 ↔ ret ≠ -1 ∧ sb'.len_b < sb.nbytes) ∧
      (ret = 0 → ipd'.sample > ipd'.nsamples ∧ ipd'.pcmbuflen = 0 ∧ sb'.len_s = 0) ∧
      (ret = 1 →
        0 < sb'.len_s ∧ sb'.len_b ≤ sb.size_b ∧ sb'.len_s = sb'.len_b / sb.nbytes)) ∧
    (0 < fuel → ipd.sample > ipd.nsamples → ipd.pcmbuflen = 0 →
      ∃ sb', ip_aac_read env fuel ipd sb = some (0, ipd, sb')) ∧
    (0 < fuel → ipd.sample ≤ ipd.nsamples → ipd.pcmbuflen = 0 →
      (env.frame ipd.sample).read_ok = false ∨ (env.frame ipd.sample).error ≠ 0 →
      ∃ ipd' sb', ip_aac_read env fuel ipd sb = some (-1, ipd', sb')) := by
  refine ⟨?_, ?_, ?_, ?_⟩
  · intro hmax hfuel hpasses
    obtain ⟨r, hr⟩ := ip_aac_read_loop_returns env fuel fuel ipd [] sb.size_b hmax hfuel hpasses
    obtain ⟨err, ipd1, buf1, bufsize1⟩ := r
    unfold ip_aac_read
    rw [hr]
    cases err <;> exact ⟨_, rfl⟩
  · intro ret ipd' sb' h
    unfold ip_aac_read at h
    cases hloop : ip_aac_read_loop env fuel fuel ipd [] sb.size_b with
    | none => simp [hloop] at h
    | some r =>
      obtain ⟨err, ipd1, buf1, bufsize1⟩ := r
      obtain ⟨l1, l2, l3, l4⟩ := ip_aac_read_loop_spec env fuel fuel ipd ipd1 [] buf1
        sb.size_b bufsize1 err hloop
      rw [hloop] at h
      cases err with
      | true =>
        simp only [Option.some.injEq, Prod.mk.injEq] at h
        obtain ⟨rfl, rfl, rfl⟩ := h
        refine ⟨Or.inl rfl, fun _ => l4 rfl, ?_, fun e => absurd e (by decide),
          fun e => absurd e (by decide)⟩
        constructor
        · intro e
          exact absurd e (by decide)
        · intro e
          exact absurd rfl e.1
      | false =>
        simp only [Option.some.injEq, Prod.mk.injEq] at h
        obtain ⟨rfl, rfl, rfl⟩ := h
        simp only
        have hdiv : (sb.size_b - bufsize1) / sb.nbytes = 0 ↔ sb.size_b - bufsize1 < sb.nbytes :=
          Nat.div_eq_zero_iff hn
        by_cases hz : (sb.size_b - bufsize1) / sb.nbytes = 0
        · have hlt := hdiv.1 hz
          have hb : bufsize1 ≠ 0 := by omega
          have hex := (l3 rfl).resolve_left hb
          simp only [hz, ne_eq, not_true_eq_false, if_false]
          refine ⟨by simp, fun e => absurd e (by decide), ?_, fun _ => ⟨hex.1, hex.2, trivial⟩,
            fun e => absurd e (by decide)⟩
          exact ⟨fun _ => ⟨by decide, hlt⟩, fun _ => trivial⟩
        · have hge : ¬ sb.size_b - bufsize1 < sb.nbytes := fun e => hz (hdiv.2 e)
          simp only [hz, ne_eq, not_false_eq_true, if_true]
          refine ⟨by simp, fun e => absurd e (by decide), ?_,
            fun e => absurd e (by decide), fun _ => ⟨Nat.pos_of_ne_zero hz, by omega, trivial⟩⟩
          constructor
          · intro e
            exact absurd e (by decide)
          · intro e
            exact absurd e.2 hge
  · intro hfuel he hp
    obtain ⟨f, rfl⟩ : ∃ f, fuel = f + 1 := ⟨fuel - 1, by omega⟩
    unfold ip_aac_read
    rw [ip_aac_read_loop_exhausted env (f + 1) f ipd [] sb.size_b he hp hfuel]
    simp only [Nat.sub_self, Nat.zero_div, ne_eq, not_true_eq_false, if_false]
    exact ⟨_, rfl⟩
  · intro hfuel hle hp hfail
    obtain ⟨f, rfl⟩ : ∃ f, fuel = f + 1 := ⟨fuel - 1, by omega⟩
    obtain ⟨ipd', hl⟩ := ip_aac_read_loop_failure env (f + 1) f ipd [] sb.size_b
      (by omega) hle hp hfuel hfail
    unfold ip_aac_read
    rw [hl]
    exact ⟨_, _, rfl⟩

/-- Witness of C20 as amended: the first read of the sample stream into a
buffer of four bytes returns 1 with two samples. -/
theorem ip_aac_read_contract_witness :
    (∃ r, ip_aac_read AacEnv.sample 10 ip_aac_ipdata.opened (sample_buffer.sample 4) = some r) ∧
    (ip_aac_read AacEnv.sample 10 ip_aac_ipdata.opened (sample_buffer.sample 4)).map
      (fun r => (r.1, r.2.2.len_b, r.2.2.len_s)) = some (1, 4, 2) :=
  ⟨(ip_aac_read_contract AacEnv.sample 10 ip_aac_ipdata.opened (sample_buffer.sample 4)
      (by decide) (by decide)).1 (by decide) (by decide) (by decide),
   by decide⟩

/-- C20 fails as stated, with buffers of eight bytes for samples of two
bytes.  A call that starts before the only frame of a stream, a priming
frame, with the cursor not past the last frame, returns 0.  A call that
starts past the last frame with one byte carried over returns 0.  And a
call that starts before the last frame returns 1 although it ends with the
cursor past the last frame and without carried-over data. -/
theorem ip_aac_read_zero_not_exact :
    (¬ ip_aac_ipdata.priming.sample > ip_aac_ipdata.priming.nsamples ∧
      (ip_aac_read AacEnv.sample 10 ip_aac_ipdata.priming (sample_buffer.sample 8)).map
        (fun r => r.1) = some 0) ∧
    (ip_aac_ipdata.odd.pcmbuflen = 1 ∧
      (ip_aac_read AacEnv.sample 10 ip_aac_ipdata.odd (sample_buffer.sample 8)).map
        (fun r => r.1) = some 0) ∧
    (ip_aac_read AacEnv.sample 10 ip_aac_ipdata.last (sample_buffer.sample 8)).map
      (fun r => (r.1, decide (r.2.1.sample > r.2.1.nsamples), r.2.1.pcmbuflen)) =
        some (1, true, 0) := by
  decide

/-! ## `ip_aac_seek` -/

/-- C21: `ip_aac_seek` when the lookup of the sample at the requested time
gives the invalid sample id leaves the session as it is, the frame cursor and
the running position included; when the lookup gives another sample id `s`,
the frame cursor becomes `s` and the running position the timestamp of `s`,
and nothing else of the session changes. -/
theorem ip_aac_seek_effect (env : AacSeekEnv) (ipd : ip_aac_ipdata) (pos : Nat) :
    (env.MP4GetSampleIdFromTime (env.MP4ConvertToTrackTimestamp pos) =
        env.MP4_INVALID_SAMPLE_ID →
      ip_aac_seek env ipd pos = ipd) ∧
    (∀ s, env.MP4GetSampleIdFromTime (env.MP4ConvertToTrackTimestamp pos) = s →
      s ≠ env.MP4_INVALID_SAMPLE_ID →
      ip_aac_seek env ipd pos = { ipd with sample := s, pos := env.MP4GetSampleTime s }) := by
  refine ⟨fun h => ?_, fun s h hs => ?_⟩
  · simp [ip_aac_seek, h]
  · subst h
    simp [ip_aac_seek, hs]

/-- Witness of C21: on the sample track a seek to second 7 changes nothing
and a seek to second 2 goes to frame 3, at timestamp 2048. -/
theorem ip_aac_seek_effect_witness :
    ip_aac_seek AacSeekEnv.sample ip_aac_ipdata.opened 7 = ip_aac_ipdata.opened ∧
    ip_aac_seek AacSeekEnv.sample ip_aac_ipdata.opened 2 =
      { ip_aac_ipdata.opened with sample := 3, pos := 2048 } :=
  ⟨(ip_aac_seek_effect AacSeekEnv.sample ip_aac_ipdata.opened 7).1 (by decide),
   (ip_aac_seek_effect AacSeekEnv.sample ip_aac_ipdata.opened 2).2 3 (by decide) (by decide)⟩

/-! ## `ip_sndfile_get_position` -/

/-- C22: `ip_sndfile_get_position` never divides by 0 and always returns 0,
for success.  When the channel count or the rate is 0, the only value of an
`unsigned int` that is not positive, it reports position 0.  Otherwise it
reports the position in samples divided by the channel count and then by the
rate, each division truncating, as an `unsigned int`; for a position that is
not negative this is `position / nchannels / rate` whenever that is at most
`UINT_MAX`. -/
theorem ip_sndfile_get_position_safe (t : track) (ipd : ip_sndfile_ipdata) :
    (∃ pos, ip_sndfile_get_position t ipd = some (0, pos)) ∧
    (t.format.nchannels = 0 ∨ t.format.rate = 0 →
      ip_sndfile_get_position t ipd = some (0, 0)) ∧
    (0 < t.format.nchannels → 0 < t.format.rate →
      ip_sndfile_get_position t ipd =
        some (0, uint_of_int ((ipd.position.tdiv t.format.nchannels).tdiv t.format.rate))) ∧
    (0 < t.format.nchannels → 0 < t.format.rate → 0 ≤ ipd.position →
      ipd.position.toNat / t.format.nchannels / t.format.rate ≤ UINT_MAX →
      ip_sndfile_get_position t ipd =
        some (0, ipd.position.toNat / t.format.nchannels / t.format.rate)) := by
  have hdiv : 0 < t.format.nchannels → 0 < t.format.rate →
      ip_sndfile_get_position t ipd =
        some (0, uint_of_int ((ipd.position.tdiv t.format.nchannels).tdiv t.format.rate)) := by
    intro hc hr
    have hc' : ¬ ((t.format.nchannels : Int) = 0) := by omega
    have hr' : ¬ ((t.format.rate : Int) = 0) := by omega
    have hg : ¬ (t.format.nchannels ≤ 0 ∨ t.format.rate ≤ 0) := by omega
    simp only [ip_sndfile_get_position, c_div, if_neg hg, if_neg hc', if_neg hr']
  have hzero : t.format.nchannels = 0 ∨ t.format.rate = 0 →
      ip_sndfile_get_position t ipd = some (0, 0) := by
    intro h
    have hg : t.format.nchannels ≤ 0 ∨ t.format.rate ≤ 0 := by omega
    simp only [ip_sndfile_get_position, if_pos hg]
  refine ⟨?_, hzero, hdiv, ?_⟩
  · by_cases h : t.format.nchannels = 0 ∨ t.format.rate = 0
    · exact ⟨_, hzero h⟩
    · exact ⟨_, hdiv (by omega) (by omega)⟩
  · intro hc hr hp hfit
    rw [hdiv hc hr]
    obtain ⟨p, hp'⟩ := Int.eq_ofNat_of_zero_le hp
    rw [hp'] at hfit ⊢
    simp only [Int.toNat_ofNat] at hfit ⊢
    have e : ((p : Int).tdiv (t.format.nchannels : Int)).tdiv (t.format.rate : Int) =
        ((p / t.format.nchannels / t.format.rate : Nat) : Int) := by
      rfl
    rw [e]
    unfold uint_of_int
    unfold UINT_MAX at hfit
    have e' : (((p / t.format.nchannels / t.format.rate : Nat) : Int) % 4294967296).toNat =
        p / t.format.nchannels / t.format.rate := by
      generalize p / t.format.nchannels / t.format.rate = q at hfit
      omega
    rw [e']

/-- Witness of C22: 441000 samples into a stereo track at 44100 samples a
second are 5 whole seconds. -/
theorem ip_sndfile_get_position_safe_witness :
    ip_sndfile_get_position { track.blank [] with format := sample_format.cd } ⟨441000⟩ =
      some (0, 5) :=
  (ip_sndfile_get_position_safe { track.blank [] with format := sample_format.cd }
    ⟨441000⟩).2.2.2 (by decide) (by decide) (by decide) (by decide)

/-! ## The volume of `op/oss.c` while the device is closed -/

/-- C23: while the device is closed, that is `op_oss_fd` is -1,
`op_oss_set_volume` with `v` only stores `v`, converted to `int`, in
`op_oss_volume` and makes no system call, and `op_oss_get_volume` returns
`op_oss_volume` and neither changes a variable nor makes a system call; so
for every level `v` of 0 to 100 the value stored is `v`, and
`op_oss_get_volume` after `op_oss_set_volume` with `v` returns `v`. -/
theorem op_oss_volume_closed (env : OssEnv) (s : Oss) (v : Nat) (hclosed : s.op_oss_fd = -1) :
    op_oss_set_volume env s v = { s with op_oss_volume := int_of_uint v } ∧
    (op_oss_set_volume env s v).calls = s.calls ∧
    op_oss_get_volume env s = (s.op_oss_volume, s) ∧
    (v ≤ 100 →
      (op_oss_set_volume env s v).op_oss_volume = v ∧
      op_oss_get_volume env (op_oss_set_volume env s v) =
        ((v : Int), op_oss_set_volume env s v)) := by
  have hset : op_oss_set_volume env s v = { s with op_oss_volume := int_of_uint v } := by
    simp [op_oss_set_volume, hclosed]
  have hget : ∀ s : Oss, s.op_oss_fd = -1 → op_oss_get_volume env s = (s.op_oss_volume, s) := by
    intro s h
    simp [op_oss_get_volume, h]
  refine ⟨hset, by rw [hset], hget s hclosed, fun hv => ?_⟩
  have hconv : int_of_uint v = v := by
    unfold int_of_uint
    rw [if_pos (by omega)]
    congr 1
    omega
  refine ⟨by rw [hset, hconv], ?_⟩
  rw [hget _ (by rw [hset]; exact hclosed), hset, hconv]

/-- Witness of C23: level 70 on the closed sample device. -/
theorem op_oss_volume_closed_witness :
    (op_oss_get_volume (OssEnv.sample 44100)
      (op_oss_set_volume (OssEnv.sample 44100) Oss.sample 70)).1 = 70 ∧
    (op_oss_set_volume (OssEnv.sample 44100) Oss.sample 70).calls = [] :=
  ⟨by
    rw [((op_oss_volume_closed (OssEnv.sample 44100) Oss.sample 70 rfl).2.2.2 (by decide)).2]
    rfl,
   (op_oss_volume_closed (OssEnv.sample 44100) Oss.sample 70 rfl).2.1⟩

/-! ## `ip_aac_get_aac_track` -/

theorem ip_aac_get_aac_track_loop_first (hdl : MP4FileHandle) (left i k : Nat)
    (hk : k < left) (h : hdl.aac_at (i + k) = true)
    (hfirst : ∀ j, j < k → hdl.aac_at (i + j) = false) :
    ip_aac_get_aac_track_loop hdl left i = hdl.MP4FindTrackId (i + k) := by
  induction left generalizing i k with
  | zero => omega
  | succ left ih =>
    simp only [ip_aac_get_aac_track_loop]
    cases k with
    | zero =>
      simp only [MP4FileHandle.aac_at, Nat.add_zero] at h
      rw [if_pos h, Nat.add_zero]
    | succ k =>
      have h0 := hfirst 0 (by omega)
      simp only [MP4FileHandle.aac_at, Nat.add_zero] at h0
      rw [if_neg (by rw [h0]; decide)]
      have e : i + (k + 1) = i + 1 + k := by omega
      rw [e] at h ⊢
      apply ih (i + 1) k (by omega) h
      intro j hj
      have := hfirst (j + 1) (by omega)
      have e' : i + (j + 1) = i + 1 + j := by omega
      rw [e'] at this
      exact this

theorem ip_aac_get_aac_track_loop_none (hdl : MP4FileHandle) (left i : Nat)
    (h : ∀ j, j < left → hdl.aac_at (i + j) = false) :
    ip_aac_get_aac_track_loop hdl left i = hdl.MP4_INVALID_TRACK_ID := by
  induction left generalizing i with
  | zero => rfl
  | succ left ih =>
    simp only [ip_aac_get_aac_track_loop]
    have h0 := h 0 (by omega)
    simp only [MP4FileHandle.aac_at, Nat.add_zero] at h0
    rw [if_neg (by rw [h0]; decide)]
    apply ih
    intro j hj
    have := h (j + 1) (by omega)
    have e' : i + (j + 1) = i + 1 + j := by omega
    rw [e'] at this
    exact this

/-- Below a bound, either no index satisfies a test or there is a first one
that does. -/
theorem first_index (p : Nat → Bool) (n : Nat) :
    (∀ j, j < n → p j = false) ∨
      ∃ k, k < n ∧ p k = true ∧ ∀ j, j < k → p j = false := by
  induction n with
  | zero => exact Or.inl (fun j hj => absurd hj (by omega))
  | succ n ih =>
    rcases ih with h | ⟨k, hk, hp, hf⟩
    · cases hn : p n with
      | false =>
        refine Or.inl (fun j hj => ?_)
        by_cases e : j = n
        · rw [e]; exact hn
        · exact h j (by omega)
      | true => exact Or.inr ⟨n, by omega, hn, h⟩
    · exact Or.inr ⟨k, by omega, hp, hf⟩

/-- C26: `ip_aac_get_aac_track` goes through the audio tracks in the order
of their indices 0 to n - 1 and returns the id of the first one whose object
type is an AAC audio type; when no audio track has an AAC type, also when
there is no audio track, it returns the invalid track id; and, the ids of the
audio tracks being valid, it returns the invalid track id only then. -/
theorem ip_aac_get_aac_track_first (hdl : MP4FileHandle) :
    (∀ k, k < hdl.MP4GetNumberOfTracks → hdl.aac_at k = true →
      (∀ j, j < k → hdl.aac_at j = false) →
      ip_aac_get_aac_track hdl = hdl.MP4FindTrackId k) ∧
    ((∀ j, j < hdl.MP4GetNumberOfTracks → hdl.aac_at j = false) →
      ip_aac_get_aac_track hdl = hdl.MP4_INVALID_TRACK_ID) ∧
    ((∀ j, j < hdl.MP4GetNumberOfTracks → hdl.MP4FindTrackId j ≠ hdl.MP4_INVALID_TRACK_ID) →
      (ip_aac_get_aac_track hdl = hdl.MP4_INVALID_TRACK_ID ↔
        ∀ j, j < hdl.MP4GetNumberOfTracks → hdl.aac_at j = false)) := by
  have hfirst : ∀ k, k < hdl.MP4GetNumberOfTracks → hdl.aac_at k = true →
      (∀ j, j < k → hdl.aac_at j = false) →
      ip_aac_get_aac_track hdl = hdl.MP4FindTrackId k := by
    intro k hk h hf
    have := ip_aac_get_aac_track_loop_first hdl hdl.MP4GetNumberOfTracks 0 k hk
      (by rw [Nat.zero_add]; exact h) (fun j hj => by rw [Nat.zero_add]; exact hf j hj)
    rw [Nat.zero_add] at this
    exact this
  have hnone : (∀ j, j < hdl.MP4GetNumberOfTracks → hdl.aac_at j = false) →
      ip_aac_get_aac_track hdl = hdl.MP4_INVALID_TRACK_ID := by
    intro h
    exact ip_aac_get_aac_track_loop_none hdl hdl.MP4GetNumberOfTracks 0
      (fun j hj => by rw [Nat.zero_add]; exact h j hj)
  refine ⟨hfirst, hnone, fun hvalid => ⟨fun hret => ?_, hnone⟩⟩
  rcases first_index hdl.aac_at hdl.MP4GetNumberOfTracks with h | ⟨k, hk, hp, hf⟩
  · exact h
  · rw [hfirst k hk hp hf] at hret
    exact absurd hret (hvalid k hk)

/-- Witness of C26: in the sample file the first AAC track is the second
audio track, of id 12. -/
theorem ip_aac_get_aac_track_first_witness :
    ip_aac_get_aac_track MP4FileHandle.sample = 12 ∧
    (ip_aac_get_aac_track MP4FileHandle.sample = 0 ↔
      ∀ j, j < 3 → MP4FileHandle.sample.aac_at j = false) :=
  ⟨(ip_aac_get_aac_track_first MP4FileHandle.sample).1 1 (by decide) (by decide) (by decide),
   (ip_aac_get_aac_track_first MP4FileHandle.sample).2.2 (by decide)⟩

/-! ## The frames that `ip_aac_fill_buffer` consumes -/

theorem pcm_bytes_length (l : List (Nat × Nat)) : (pcm_bytes l).length = l.length * 2 := by
  induction l with
  | nil => rfl
  | cons a l ih =>
    obtain ⟨lo, hi⟩ := a
    simp only [pcm_bytes, List.length_cons, ih]
    omega

/-- What `ip_aac_fill_buffer` consumes on a stream whose number of frames is
below the largest sample id: `m` frames from the cursor on, all but the last
of them read and decoded to no sample. -/
theorem ip_aac_fill_buffer_frames (env : AacEnv) (fuel : Nat) (ipd ipd' : ip_aac_ipdata)
    (ret : Int) (hmax : ipd.nsamples < UINT32_MAX) (hpos : ipd.pos ≤ UINT64_MAX)
    (h : ip_aac_fill_buffer env fuel ipd = some (ret, ipd')) :
    ∃ m, ipd'.sample = ipd.sample + m ∧
      ipd'.pos = (ipd.pos + durations env ipd.sample m) % (UINT64_MAX + 1) ∧
      (m = 0 → ipd' = ipd) ∧
      (∀ j, ipd.sample ≤ j → j + 1 < ipd.sample + m →
        (env.frame j).read_ok = true ∧ (env.frame j).error = 0 ∧ (env.frame j).samples = []) ∧
      (0 < m → ipd.sample + m ≤ ipd.nsamples + 1 ∧
        (env.frame (ipd.sample + m - 1)).read_ok = true ∧
        ipd'.pcmbuf = pcm_bytes (env.frame (ipd.sample + m - 1)).samples) ∧
      (ret = 1 → 0 < m ∧ (env.frame (ipd.sample + m - 1)).error = 0 ∧
        (env.frame (ipd.sample + m - 1)).samples ≠ [] ∧
        ipd'.pcmbuflen = 2 * (env.frame (ipd.sample + m - 1)).samples.length) := by
  induction fuel generalizing ipd with
  | zero => simp [ip_aac_fill_buffer] at h
  | succ fuel ih =>
    simp only [ip_aac_fill_buffer] at h
    by_cases h1 : ipd.sample > ipd.nsamples
    · rw [if_pos h1] at h
      simp only [Option.some.injEq, Prod.mk.injEq] at h
      obtain ⟨rfl, rfl⟩ := h
      refine ⟨0, rfl, ?_, fun _ => rfl, fun j _ _ => by omega, fun e => absurd e (by decide),
        fun e => absurd e (by decide)⟩
      simp only [durations, Nat.add_zero]
      exact (Nat.mod_eq_of_lt (by omega)).symm
    · rw [if_neg h1] at h
      by_cases h2 : (env.frame ipd.sample).read_ok = false
      · rw [if_pos h2] at h
        simp only [Option.some.injEq, Prod.mk.injEq] at h
        obtain ⟨rfl, rfl⟩ := h
        refine ⟨0, rfl, ?_, fun _ => rfl, fun j _ _ => by omega,
          fun e => absurd e (by decide), fun e => absurd e (by decide)⟩
        simp only [durations, Nat.add_zero]
        exact (Nat.mod_eq_of_lt (by omega)).symm
      · rw [if_neg h2] at h
        have hok : (env.frame ipd.sample).read_ok = true := by simpa using h2
        have hlt : ipd.sample + 1 < UINT32_MAX + 1 := by omega
        have hone : durations env ipd.sample 1 = (env.frame ipd.sample).duration := by
          simp only [durations, Nat.add_zero]
        simp only [Nat.mod_eq_of_lt hlt] at h
        by_cases h3 : (env.frame ipd.sample).error ≠ 0
        · rw [if_pos h3] at h
          simp only [Option.some.injEq, Prod.mk.injEq] at h
          obtain ⟨rfl, rfl⟩ := h
          refine ⟨1, rfl, ?_, fun e => absurd e (by decide), fun j _ _ => by omega,
            fun _ => ⟨by omega, ?_, ?_⟩, fun e => absurd e (by decide)⟩
          · rw [hone]
          · simpa using hok
          · simp
        · rw [if_neg h3] at h
          have herr : (env.frame ipd.sample).error = 0 := by simpa using h3
          by_cases h4 : (env.frame ipd.sample).samples.length > 0
          · rw [if_pos h4] at h
            simp only [Option.some.injEq, Prod.mk.injEq] at h
            obtain ⟨rfl, rfl⟩ := h
            refine ⟨1, rfl, ?_, fun e => absurd e (by decide), fun j _ _ => by omega,
              fun _ => ⟨by omega, ?_, ?_⟩, fun _ => ⟨by omega, ?_, ?_, ?_⟩⟩
            · rw [hone]
            · simpa using hok
            · simp
            · simpa using herr
            · intro e
              rw [Nat.add_sub_cancel] at e
              rw [e] at h4
              exact absurd h4 (by decide)
            · simp only [Nat.add_sub_cancel]
              omega
          · rw [if_neg h4] at h
            have hnil : (env.frame ipd.sample).samples = [] :=
              List.length_eq_zero.1 (by omega)
            obtain ⟨m, i1, i2, i3, i4, i5, i6⟩ := ih _ (by exact hmax)
              (by
                have := Nat.mod_lt (ipd.pos + (env.frame ipd.sample).duration)
                  (show 0 < UINT64_MAX + 1 by omega)
                show _ % _ ≤ _
                omega) h
            simp only at i1 i2 i3 i4 i5 i6
            have e1 : ipd.sample + 1 + m - 1 = ipd.sample + (m + 1) - 1 := by omega
            refine ⟨m + 1, by rw [i1]; omega, ?_, fun e => absurd e (by omega), ?_, ?_, ?_⟩
            · rw [i2, durations, Nat.mod_add_mod, Nat.add_assoc]
            · intro j hj1 hj2
              by_cases e : j = ipd.sample
              · rw [e]
                exact ⟨hok, herr, hnil⟩
              · exact i4 j (by omega) (by omega)
            · intro _
              by_cases hm : m = 0
              · subst hm
                rw [i3 rfl]
                refine ⟨by omega, ?_, ?_⟩
                · simpa using hok
                · simp
              · obtain ⟨j1, j2, j3⟩ := i5 (by omega)
                rw [e1] at j2 j3
                exact ⟨by omega, j2, j3⟩
            · intro e
              obtain ⟨j1, j2, j3, j4⟩ := i6 e
              rw [e1] at j2 j3 j4
              exact ⟨by omega, j2, j3, j4⟩

/-- C25: `ip_aac_fill_buffer` on a session whose number of frames is below
the largest sample id and whose position is an `MP4Duration`.  When it
returns, it has consumed `m` frames from the cursor on: the cursor has
advanced by one for each, and the position by the sum of their durations,
in the arithmetic of `MP4Duration`, which is the plain sum when that is at
most `UINT64_MAX`; all of them but the last were read and decoded to no
sample and so skipped.  It returns 1 only when the last frame consumed, which
is then the first frame at or after the cursor that decodes to more than zero
samples, lies within the stream and was read and decoded without error, with
`pcmbuf` at the bytes of that frame and `pcmbuflen`, not 0, twice the number
of its samples.  With the cursor past the last frame it returns 0 on its
first pass and leaves the session as it is. -/
theorem ip_aac_fill_buffer_skips (env : AacEnv) (fuel : Nat) (ipd : ip_aac_ipdata)
    (hmax : ipd.nsamples < UINT32_MAX) (hpos : ipd.pos ≤ UINT64_MAX) :
    (∀ (ret : Int) (ipd' : ip_aac_ipdata),
      ip_aac_fill_buffer env fuel ipd = some (ret, ipd') →
      ∃ m, ipd'.sample = ipd.sample + m ∧
        ipd'.pos = (ipd.pos + durations env ipd.sample m) % (UINT64_MAX + 1) ∧
        (ipd.pos + durations env ipd.sample m ≤ UINT64_MAX →
          ipd'.pos = ipd.pos + durations env ipd.sample m) ∧
        (∀ j, ipd.sample ≤ j → j + 1 < ipd.sample + m →
          (env.frame j).read_ok = true ∧ (env.frame j).error = 0 ∧
            (env.frame j).samples = []) ∧
        (ret = 1 → 0 < m ∧ ipd.sample + m - 1 ≤ ipd.nsamples ∧
          (env.frame (ipd.sample + m - 1)).read_ok = true ∧
          (env.frame (ipd.sample + m - 1)).error = 0 ∧
          (env.frame (ipd.sample + m - 1)).samples ≠ [] ∧
          ipd'.pcmbuf = pcm_bytes (env.frame (ipd.sample + m - 1)).samples ∧
          ipd'.pcmbuflen = 2 * (env.frame (ipd.sample + m - 1)).samples.length ∧
          ipd'.pcmbuf.length = ipd'.pcmbuflen ∧ 0 < ipd'.pcmbuflen)) ∧
    (0 < fuel → ipd.sample > ipd.nsamples →
      ip_aac_fill_buffer env fuel ipd = some (0, ipd)) := by
  refine ⟨fun ret ipd' h => ?_, fun hfuel hpast => ?_⟩
  · obtain ⟨m, i1, i2, _, i4, i5, i6⟩ :=
      ip_aac_fill_buffer_frames env fuel ipd ipd' ret hmax hpos h
    refine ⟨m, i1, i2, fun hfit => by rw [i2]; exact Nat.mod_eq_of_lt (by omega), i4,
      fun e => ?_⟩
    obtain ⟨j1, j2, j3, j4⟩ := i6 e
    obtain ⟨k1, k2, k3⟩ := i5 j1
    refine ⟨j1, by omega, k2, j2, j3, k3, j4, ?_, ?_⟩
    · rw [k3, j4, pcm_bytes_length]
      omega
    · rw [j4]
      have := List.length_pos.2 j3
      omega
  · obtain ⟨f, rfl⟩ : ∃ f, fuel = f + 1 := ⟨fuel - 1, by omega⟩
    simp only [ip_aac_fill_buffer]
    rw [if_pos hpast]

/-- Witness of C25: on the sample stream the first call skips the priming
frame and returns 1 with the four bytes of frame 2, the cursor at frame 3 and
the position at 2048. -/
theorem ip_aac_fill_buffer_skips_witness :
    (∃ m, 3 = ip_aac_ipdata.opened.sample + m ∧
      (2048 : Nat) = (ip_aac_ipdata.opened.pos +
        durations AacEnv.sample ip_aac_ipdata.opened.sample m) % (UINT64_MAX + 1)) ∧
    ip_aac_fill_buffer AacEnv.sample 5 ip_aac_ipdata.opened =
      some (1, { ip_aac_ipdata.opened with
        sample := 3, pos := 2048, pcmbuflen := 4, pcmbuf := [1, 2, 3, 4] }) :=
  ⟨(((ip_aac_fill_buffer_skips AacEnv.sample 5 ip_aac_ipdata.opened (by decide)
      (by decide)).1 1 { ip_aac_ipdata.opened with
        sample := 3, pos := 2048, pcmbuflen := 4, pcmbuf := [1, 2, 3, 4] } (by decide)).imp
      fun _ hm => ⟨hm.1, hm.2.1⟩),
   by decide⟩

/-! ## The passes of `ip_aac_read` -/

/-- One pass of the loop of `ip_aac_fill_buffer`: it returns, or it goes on
with the cursor advanced by one. -/
theorem ip_aac_fill_buffer_pass (env : AacEnv) (fuel : Nat) (ipd : ip_aac_ipdata)
    (hmax : ipd.nsamples < UINT32_MAX) :
    (∃ r, ip_aac_fill_buffer env 1 ipd = some r ∧
      ip_aac_fill_buffer env (fuel + 1) ipd = some r) ∨
    (∃ ipd1, ip_aac_fill_buffer env 1 ipd = none ∧ ipd1.sample = ipd.sample + 1 ∧
      ipd1.nsamples = ipd.nsamples ∧
      ip_aac_fill_buffer env (fuel + 1) ipd = ip_aac_fill_buffer env fuel ipd1) := by
  simp only [ip_aac_fill_buffer]
  by_cases h1 : ipd.sample > ipd.nsamples
  · rw [if_pos h1, if_pos h1]
    exact Or.inl ⟨_, rfl, rfl⟩
  · rw [if_neg h1, if_neg h1]
    by_cases h2 : (env.frame ipd.sample).read_ok = false
    · rw [if_pos h2, if_pos h2]
      exact Or.inl ⟨_, rfl, rfl⟩
    · rw [if_neg h2, if_neg h2]
      by_cases h3 : (env.frame ipd.sample).error ≠ 0
      · rw [if_pos h3, if_pos h3]
        exact Or.inl ⟨_, rfl, rfl⟩
      · rw [if_neg h3, if_neg h3]
        by_cases h4 : (env.frame ipd.sample).samples.length > 0
        · rw [if_pos h4, if_pos h4]
          exact Or.inl ⟨_, rfl, rfl⟩
        · rw [if_neg h4, if_neg h4]
          have hlt : ipd.sample + 1 < UINT32_MAX + 1 := by omega
          exact Or.inr ⟨{ ipd with
              pos := (ipd.pos + (env.frame ipd.sample).duration) % (UINT64_MAX + 1),
              sample := (ipd.sample + 1) % (UINT32_MAX + 1),
              pcmbuf := pcm_bytes (env.frame ipd.sample).samples },
            rfl, Nat.mod_eq_of_lt hlt, rfl, rfl⟩

/-- One pass of the loop of `ip_aac_read`: it ends, or it goes on with less
room in the buffer. -/
theorem ip_aac_read_loop_pass (env : AacEnv) (fuel passes : Nat) (ipd : ip_aac_ipdata)
    (buf : List Nat) (bufsize : Nat) (hmax : ipd.nsamples < UINT32_MAX)
    (hfuel : ipd.nsamples + 2 ≤ fuel) :
    (∃ r, ip_aac_read_loop env fuel 1 ipd buf bufsize = some r ∧
      ip_aac_read_loop env fuel (passes + 1) ipd buf bufsize = some r) ∨
    (∃ ipd1 buf1 bufsize1 len, 0 < len ∧ bufsize1 + len = bufsize ∧
      ipd1.nsamples = ipd.nsamples ∧
      ip_aac_read_loop env fuel (passes + 1) ipd buf bufsize =
        ip_aac_read_loop env fuel passes ipd1 buf1 bufsize1) := by
  simp only [ip_aac_read_loop]
  by_cases h1 : bufsize > 0
  · rw [if_pos h1, if_pos h1]
    by_cases h2 : ipd.pcmbuflen = 0
    · rw [if_pos h2, if_pos h2]
      obtain ⟨r, hfill⟩ := ip_aac_fill_buffer_returns env fuel ipd hmax (by omega) (by omega)
      obtain ⟨ret, ipd1⟩ := r
      obtain ⟨f1, f2, f3, f4, f5⟩ := ip_aac_fill_buffer_spec env fuel ipd ipd1 ret hfill
      simp only [hfill]
      by_cases h3 : ret = 0
      · rw [if_pos h3, if_pos h3]
        exact Or.inl ⟨_, rfl, rfl⟩
      · rw [if_neg h3, if_neg h3]
        by_cases h4 : ret = -1
        · rw [if_pos h4, if_pos h4]
          exact Or.inl ⟨_, rfl, rfl⟩
        · rw [if_neg h4, if_neg h4]
          have hret : ret = 1 := by
            rcases f2 with e | e | e
            · exact absurd e h4
            · exact absurd e h3
            · exact e
          obtain ⟨c1, _, c3, c4⟩ := ip_aac_read_copy_spec ipd1 buf bufsize
          have := c4 h1 (f4 hret)
          exact Or.inr ⟨_, _, _, bufsize - (ip_aac_read_copy ipd1 buf bufsize).2.2,
            by omega, by omega, by rw [c1, f1], rfl⟩
    · rw [if_neg h2, if_neg h2]
      obtain ⟨c1, _, c3, c4⟩ := ip_aac_read_copy_spec ipd buf bufsize
      have := c4 h1 (by omega)
      exact Or.inr ⟨_, _, _, bufsize - (ip_aac_read_copy ipd buf bufsize).2.2,
        by omega, by omega, c1, rfl⟩
  · rw [if_neg h1, if_neg h1]
    exact Or.inl ⟨_, rfl, rfl⟩

/-- C29, with the bound as the code has it: on a stream whose number of
frames is below the largest sample id, `ip_aac_read` returns for every
capacity of the buffer, given enough passes.  Each pass of its copy loop
either ends the loop, at the end of the stream, on an error or with a full
buffer, or copies `len > 0` bytes and goes on with `bufsize` smaller by
`len`.  Each pass of the loop of `ip_aac_fill_buffer` either returns or goes
on with the cursor advanced by one; and `ip_aac_fill_buffer` returns within
`nsamples - cursor + 2` passes when the cursor is at most `nsamples + 1`, and
within one pass otherwise. -/
theorem ip_aac_read_terminates (env : AacEnv) (fuel passes : Nat) (ipd : ip_aac_ipdata)
    (sb : sample_buffer) (buf : List Nat) (bufsize : Nat)
    (hmax : ipd.nsamples < UINT32_MAX) :
    (ipd.nsamples + 2 ≤ fuel → sb.size_b + 1 ≤ fuel →
      ∃ r, ip_aac_read env fuel ipd sb = some r) ∧
    (ipd.nsamples + 2 ≤ fuel →
      (∃ r, ip_aac_read_loop env fuel 1 ipd buf bufsize = some r ∧
        ip_aac_read_loop env fuel (passes + 1) ipd buf bufsize = some r) ∨
      (∃ ipd1 buf1 bufsize1 len, 0 < len ∧ bufsize1 + len = bufsize ∧
        ipd1.nsamples = ipd.nsamples ∧
        ip_aac_read_loop env fuel (passes + 1) ipd buf bufsize =
          ip_aac_read_loop env fuel passes ipd1 buf1 bufsize1)) ∧
    ((∃ r, ip_aac_fill_buffer env 1 ipd = some r ∧
        ip_aac_fill_buffer env (passes + 1) ipd = some r) ∨
      (∃ ipd1, ip_aac_fill_buffer env 1 ipd = none ∧ ipd1.sample = ipd.sample + 1 ∧
        ipd1.nsamples = ipd.nsamples ∧
        ip_aac_fill_buffer env (passes + 1) ipd = ip_aac_fill_buffer env passes ipd1)) ∧
    (ipd.sample ≤ ipd.nsamples + 1 →
      ∃ r, ip_aac_fill_buffer env (ipd.nsamples - ipd.sample + 2) ipd = some r) ∧
    (ipd.nsamples + 1 < ipd.sample → ∃ r, ip_aac_fill_buffer env 1 ipd = some r) := by
  refine ⟨fun hfuel hpasses => ?_, fun hfuel => ?_, ?_, fun hle => ?_, fun hpast => ?_⟩
  · obtain ⟨r, hr⟩ := ip_aac_read_loop_returns env fuel fuel ipd [] sb.size_b hmax hfuel hpasses
    obtain ⟨err, ipd1, buf1, bufsize1⟩ := r
    unfold ip_aac_read
    rw [hr]
    cases err <;> exact ⟨_, rfl⟩
  · exact ip_aac_read_loop_pass env fuel passes ipd buf bufsize hmax hfuel
  · exact ip_aac_fill_buffer_pass env passes ipd hmax
  · exact ip_aac_fill_buffer_returns env _ ipd hmax (by omega) (by omega)
  · exact ip_aac_fill_buffer_returns env 1 ipd hmax (by omega) (by omega)

/-- Witness of C29 as amended: the first read of the sample stream into a
buffer of four bytes returns, and `ip_aac_fill_buffer` returns within the 4
passes that the bound gives at the first of three frames. -/
theorem ip_aac_read_terminates_witness :
    (∃ r, ip_aac_read AacEnv.sample 10 ip_aac_ipdata.opened (sample_buffer.sample 4) = some r) ∧
    (∃ r, ip_aac_fill_buffer AacEnv.sample
      (ip_aac_ipdata.opened.nsamples - ip_aac_ipdata.opened.sample + 2)
      ip_aac_ipdata.opened = some r) :=
  ⟨(ip_aac_read_terminates AacEnv.sample 10 0 ip_aac_ipdata.opened (sample_buffer.sample 4)
      [] 4 (by decide)).1 (by decide) (by decide),
   (ip_aac_read_terminates AacEnv.sample 10 0 ip_aac_ipdata.opened (sample_buffer.sample 4)
      [] 4 (by decide)).2.2.2.1 (by decide)⟩

/-- C29 fails as stated, in its bound: on a stream whose only frame is a
priming frame, with the cursor at that frame, `nsamples - cursor + 1` is 1,
but `ip_aac_fill_buffer` does not return within one pass; it returns 0 in its
second pass, the first having consumed the frame. -/
theorem ip_aac_fill_buffer_bound_exceeded :
    ip_aac_ipdata.priming.nsamples < UINT32_MAX ∧
    ip_aac_ipdata.priming.nsamples - ip_aac_ipdata.priming.sample + 1 = 1 ∧
    ip_aac_fill_buffer AacEnv.sample 1 ip_aac_ipdata.priming = none ∧
    (ip_aac_fill_buffer AacEnv.sample 2 ip_aac_ipdata.priming).map (fun r => (r.1, r.2.sample)) =
      some (0, 2) := by
  decide

/-! ## The bytes that `ip_aac_read` delivers -/

theorem decoded_bytes_cursor (env : AacEnv) (k n : Nat) (h : k ≤ n) :
    decoded_bytes env k (n + 1 - k) =
      pcm_bytes (env.frame k).samples ++ decoded_bytes env (k + 1) (n + 1 - (k + 1)) := by
  have e : n + 1 - k = (n + 1 - (k + 1)) + 1 := by omega
  rw [e, decoded_bytes]

theorem pending_past (env : AacEnv) (ipd : ip_aac_ipdata) (h : ipd.sample > ipd.nsamples)
    (hp : ipd.pcmbuflen = 0) : ipd.pending env = [] := by
  have e : ipd.nsamples + 1 - ipd.sample = 0 := by omega
  simp only [ip_aac_ipdata.pending, hp, e, decoded_bytes, List.take_zero, List.append_nil]

/-- A call of `ip_aac_fill_buffer` that does not fail, made without bytes
carried over, leaves the bytes still to deliver as they are. -/
theorem ip_aac_fill_buffer_pending (env : AacEnv) (fuel : Nat) (ipd ipd' : ip_aac_ipdata)
    (ret : Int) (hmax : ipd.nsamples < UINT32_MAX) (hp : ipd.pcmbuflen = 0)
    (h : ip_aac_fill_buffer env fuel ipd = some (ret, ipd')) (hret : ret ≠ -1) :
    ipd'.pending env = ipd.pending env ∧ ipd'.pcmbuflen ≤ ipd'.pcmbuf.length := by
  induction fuel generalizing ipd with
  | zero => simp [ip_aac_fill_buffer] at h
  | succ fuel ih =>
    simp only [ip_aac_fill_buffer] at h
    by_cases h1 : ipd.sample > ipd.nsamples
    · rw [if_pos h1] at h
      simp only [Option.some.injEq, Prod.mk.injEq] at h
      obtain ⟨_, rfl⟩ := h
      exact ⟨rfl, by omega⟩
    · rw [if_neg h1] at h
      by_cases h2 : (env.frame ipd.sample).read_ok = false
      · rw [if_pos h2] at h
        simp only [Option.some.injEq, Prod.mk.injEq] at h
        exact absurd h.1.symm hret
      · rw [if_neg h2] at h
        have hlt : ipd.sample + 1 < UINT32_MAX + 1 := by omega
        simp only [Nat.mod_eq_of_lt hlt] at h
        by_cases h3 : (env.frame ipd.sample).error ≠ 0
        · rw [if_pos h3] at h
          simp only [Option.some.injEq, Prod.mk.injEq] at h
          exact absurd h.1.symm hret
        · rw [if_neg h3] at h
          have hcur : ipd.pending env =
              pcm_bytes (env.frame ipd.sample).samples ++
                decoded_bytes env (ipd.sample + 1) (ipd.nsamples + 1 - (ipd.sample + 1)) := by
            simp only [ip_aac_ipdata.pending, hp, List.take_zero, List.nil_append]
            exact decoded_bytes_cursor env _ _ (by omega)
          by_cases h4 : (env.frame ipd.sample).samples.length > 0
          · rw [if_pos h4] at h
            simp only [Option.some.injEq, Prod.mk.injEq] at h
            obtain ⟨_, rfl⟩ := h
            have hl := pcm_bytes_length (env.frame ipd.sample).samples
            refine ⟨?_, ?_⟩
            · rw [hcur]
              simp only [ip_aac_ipdata.pending]
              rw [List.take_of_length_le (by omega)]
            · simp only
              omega
          · rw [if_neg h4] at h
            have hnil : (env.frame ipd.sample).samples = [] :=
              List.length_eq_zero.1 (by omega)
            obtain ⟨i1, i2⟩ := ih _ (by exact hmax) (by exact hp) h
            refine ⟨?_, i2⟩
            rw [i1, hcur, hnil]
            simp only [ip_aac_ipdata.pending, hp, pcm_bytes, List.take_zero, List.nil_append]

/-- What the end of a pass of the loop of `ip_aac_read` copies, when the
bytes carried over are there. -/
theorem ip_aac_read_copy_pending (env : AacEnv) (ipd : ip_aac_ipdata) (buf : List Nat)
    (bufsize : Nat) (hinv : ipd.pcmbuflen ≤ ipd.pcmbuf.length) :
    ∃ d, (ip_aac_read_copy ipd buf bufsize).2.1 = buf ++ d ∧
      d.length + (ip_aac_read_copy ipd buf bufsize).2.2 = bufsize ∧
      d ++ (ip_aac_read_copy ipd buf bufsize).1.pending env = ipd.pending env ∧
      (ip_aac_read_copy ipd buf bufsize).1.pcmbuflen ≤
        (ip_aac_read_copy ipd buf bufsize).1.pcmbuf.length := by
  unfold ip_aac_read_copy
  generalize hlen : (if bufsize < ipd.pcmbuflen then bufsize else ipd.pcmbuflen) = len
  have hle : len ≤ bufsize ∧ len ≤ ipd.pcmbuflen := by
    rw [← hlen]
    split_ifs <;> omega
  refine ⟨ipd.pcmbuf.take len, rfl, ?_, ?_, ?_⟩
  · simp only [List.length_take]
    omega
  · simp only [ip_aac_ipdata.pending]
    rw [← List.append_assoc]
    congr 1
    have e : ipd.pcmbuflen = len + (ipd.pcmbuflen - len) := by omega
    conv_rhs => rw [e, List.take_add]
  · simp only [List.length_drop]
    omega

/-- The bytes that the loop of `ip_aac_read` has copied when it ends without
an error: the first of the bytes still to deliver, as many as there was room
for. -/
theorem ip_aac_read_loop_pending (env : AacEnv) (fuel passes : Nat) (ipd ipd' : ip_aac_ipdata)
    (buf buf' : List Nat) (bufsize bufsize' : Nat) (hmax : ipd.nsamples < UINT32_MAX)
    (hinv : ipd.pcmbuflen ≤ ipd.pcmbuf.length)
    (h : ip_aac_read_loop env fuel passes ipd buf bufsize = some (false, ipd', buf', bufsize')) :
    ∃ d, buf' = buf ++ d ∧ d.length + bufsize' = bufsize ∧
      d ++ ipd'.pending env = ipd.pending env ∧ ipd'.pcmbuflen ≤ ipd'.pcmbuf.length := by
  induction passes generalizing ipd buf bufsize with
  | zero => simp [ip_aac_read_loop] at h
  | succ passes ih =>
    simp only [ip_aac_read_loop] at h
    by_cases h1 : bufsize > 0
    · rw [if_pos h1] at h
      by_cases h2 : ipd.pcmbuflen = 0
      · rw [if_pos h2] at h
        cases hfill : ip_aac_fill_buffer env fuel ipd with
        | none => simp [hfill] at h
        | some r =>
          obtain ⟨ret, ipd1⟩ := r
          obtain ⟨f1, f2, f3, f4, f5⟩ := ip_aac_fill_buffer_spec env fuel ipd ipd1 ret hfill
          simp only [hfill] at h
          by_cases h3 : ret = 0
          · rw [if_pos h3] at h
            simp only [Option.some.injEq, Prod.mk.injEq] at h
            obtain ⟨_, rfl, rfl, rfl⟩ := h
            obtain ⟨p1, p2⟩ := ip_aac_fill_buffer_pending env fuel ipd ipd1 ret hmax h2 hfill
              (by rw [h3]; decide)
            exact ⟨[], by simp, by simp, by simpa using p1, p2⟩
          · rw [if_neg h3] at h
            by_cases h4 : ret = -1
            · rw [if_pos h4] at h
              simp at h
            · rw [if_neg h4] at h
              obtain ⟨p1, p2⟩ := ip_aac_fill_buffer_pending env fuel ipd ipd1 ret hmax h2 hfill h4
              obtain ⟨c1, _, _, _⟩ := ip_aac_read_copy_spec ipd1 buf bufsize
              obtain ⟨d1, q1, q2, q3, q4⟩ := ip_aac_read_copy_pending env ipd1 buf bufsize p2
              obtain ⟨d2, r1, r2, r3, r4⟩ := ih _ _ _ (by rw [c1, f1]; exact hmax) q4 h
              refine ⟨d1 ++ d2, ?_, ?_, ?_, r4⟩
              · rw [r1, q1, List.append_assoc]
              · rw [List.length_append]
                omega
              · rw [List.append_assoc, r3, q3, p1]
      · rw [if_neg h2] at h
        obtain ⟨c1, _, _, _⟩ := ip_aac_read_copy_spec ipd buf bufsize
        obtain ⟨d1, q1, q2, q3, q4⟩ := ip_aac_read_copy_pending env ipd buf bufsize hinv
        obtain ⟨d2, r1, r2, r3, r4⟩ := ih _ _ _ (by rw [c1]; exact hmax) q4 h
        refine ⟨d1 ++ d2, ?_, ?_, ?_, r4⟩
        · rw [r1, q1, List.append_assoc]
        · rw [List.length_append]
          omega
        · rw [List.append_assoc, r3, q3]
    · rw [if_neg h1] at h
      simp only [Option.some.injEq, Prod.mk.injEq] at h
      obtain ⟨_, rfl, rfl, rfl⟩ := h
      exact ⟨[], by simp, by simp, by simp, hinv⟩

/-- What a call of `ip_aac_read` that does not fail delivers, when the bytes
carried over are there. -/
theorem ip_aac_read_pending (env : AacEnv) (fuel : Nat) (ipd ipd' : ip_aac_ipdata)
    (sb sb' : sample_buffer) (ret : Int) (hmax : ipd.nsamples < UINT32_MAX)
    (hinv : ipd.pcmbuflen ≤ ipd.pcmbuf.length)
    (h : ip_aac_read env fuel ipd sb = some (ret, ipd', sb')) (hret : ret ≠ -1) :
    sb'.delivered ++ ipd'.pending env = ipd.pending env ∧
    sb'.delivered.length = sb'.len_b ∧
    sb'.len_b ≤ sb.size_b ∧
    (sb'.len_b < sb.size_b →
      ipd'.pending env = [] ∧ ipd'.sample > ipd'.nsamples ∧ ipd'.pcmbuflen = 0) ∧
    ipd'.nsamples = ipd.nsamples ∧ ipd'.pcmbuflen ≤ ipd'.pcmbuf.length := by
  unfold ip_aac_read at h
  cases hloop : ip_aac_read_loop env fuel fuel ipd [] sb.size_b with
  | none => simp [hloop] at h
  | some r =>
    obtain ⟨err, ipd1, buf1, bufsize1⟩ := r
    rw [hloop] at h
    cases err with
    | true =>
      simp only [Option.some.injEq, Prod.mk.injEq] at h
      exact absurd h.1.symm hret
    | false =>
      simp only [Option.some.injEq, Prod.mk.injEq] at h
      obtain ⟨_, rfl, rfl⟩ := h
      obtain ⟨s1, s2, s3, _⟩ := ip_aac_read_loop_spec env fuel fuel ipd ipd1 [] buf1
        sb.size_b bufsize1 false hloop
      obtain ⟨d, p1, p2, p3, p4⟩ := ip_aac_read_loop_pending env fuel fuel ipd ipd1 [] buf1
        sb.size_b bufsize1 hmax hinv hloop
      rw [List.nil_append] at p1
      subst p1
      have hlen : sb.size_b - bufsize1 = buf1.length := by omega
      have hdel : (buf1 ++ List.drop buf1.length sb.data).take (sb.size_b - bufsize1) = buf1 := by
        rw [hlen, List.take_left]
      simp only [sample_buffer.delivered]
      rw [hdel]
      refine ⟨p3, by omega, by omega, fun hlt => ?_, s1, p4⟩
      rcases s3 rfl with e | ⟨e1, e2⟩
      · omega
      · exact ⟨pending_past env ipd1 e1 e2, e1, e2⟩

theorem ip_aac_read_all_pending (env : AacEnv) (fuel : Nat) (sbs : List sample_buffer)
    (ipd ipd' : ip_aac_ipdata) (bytes : List Nat) (hmax : ipd.nsamples < UINT32_MAX)
    (hinv : ipd.pcmbuflen ≤ ipd.pcmbuf.length)
    (h : ip_aac_read_all env fuel ipd sbs = some (bytes, ipd')) :
    bytes ++ ipd'.pending env = ipd.pending env := by
  induction sbs generalizing ipd bytes with
  | nil =>
    simp only [ip_aac_read_all, Option.some.injEq, Prod.mk.injEq] at h
    obtain ⟨rfl, rfl⟩ := h
    rfl
  | cons sb sbs ih =>
    simp only [ip_aac_read_all] at h
    cases hread : ip_aac_read env fuel ipd sb with
    | none => simp [hread] at h
    | some r =>
      obtain ⟨ret, ipd1, sb1⟩ := r
      simp only [hread] at h
      by_cases hret : ret = -1
      · rw [if_pos hret] at h
        simp at h
      · rw [if_neg hret] at h
        obtain ⟨p1, _, _, _, p5, p6⟩ := ip_aac_read_pending env fuel ipd ipd1 sb sb1 ret hmax
          hinv hread hret
        cases hall : ip_aac_read_all env fuel ipd1 sbs with
        | none => simp [hall] at h
        | some r =>
          obtain ⟨bytes1, ipd2⟩ := r
          simp only [hall, Option.some.injEq, Prod.mk.injEq] at h
          obtain ⟨rfl, rfl⟩ := h
          rw [List.append_assoc, ih ipd1 bytes1 (by rw [p5]; exact hmax) p6 hall, p1]

theorem ip_aac_read_all_returns (env : AacEnv) (fuel : Nat) (sbs : List sample_buffer)
    (ipd : ip_aac_ipdata) (hmax : ipd.nsamples < UINT32_MAX)
    (hok : ∀ k, k ≤ ipd.nsamples → (env.frame k).read_ok = true ∧ (env.frame k).error = 0)
    (hfuel : ipd.nsamples + 2 ≤ fuel) (hsize : ∀ sb ∈ sbs, sample_buffer.size_b sb + 1 ≤ fuel) :
    ∃ r, ip_aac_read_all env fuel ipd sbs = some r := by
  induction sbs generalizing ipd with
  | nil => exact ⟨_, rfl⟩
  | cons sb sbs ih =>
    simp only [ip_aac_read_all]
    obtain ⟨r, hr⟩ := ip_aac_read_loop_returns env fuel fuel ipd [] sb.size_b hmax hfuel
      (hsize sb (List.mem_cons_self _ _))
    obtain ⟨err, ipd1, buf1, bufsize1⟩ := r
    obtain ⟨s1, _, _, s4⟩ := ip_aac_read_loop_spec env fuel fuel ipd ipd1 [] buf1
      sb.size_b bufsize1 err hr
    cases err with
    | true =>
      obtain ⟨k, hk, hk'⟩ := s4 rfl
      obtain ⟨o1, o2⟩ := hok k hk
      rcases hk' with ⟨e, _⟩ | ⟨e, _⟩
      · rw [o1] at e
        exact absurd e (by decide)
      · exact absurd o2 e
    | false =>
      obtain ⟨r2, hr2⟩ := ih ipd1 (by rw [s1]; exact hmax) (by rw [s1]; exact hok)
        (by rw [s1]; exact hfuel) (fun sb' hsb' => hsize sb' (List.mem_cons_of_mem _ hsb'))
      have hread : ip_aac_read env fuel ipd sb =
          some (if (sb.size_b - bufsize1) / sb.nbytes ≠ 0 then 1 else 0, ipd1,
            { sb with data := buf1 ++ sb.data.drop buf1.length, len_b := sb.size_b - bufsize1,
                      len_s := (sb.size_b - bufsize1) / sb.nbytes }) := by
        unfold ip_aac_read
        rw [hr]
      rw [hread]
      simp only
      have hne : ¬ ((if (sb.size_b - bufsize1) / sb.nbytes ≠ 0 then (1 : Int) else 0) = -1) := by
        split_ifs <;> decide
      rw [if_neg hne, hr2]
      exact ⟨_, rfl⟩

/-- C24: carry-over in `ip_aac_read`, on a session whose number of frames is
below the largest sample id and whose carried-over bytes are there.  The
bytes that the session has still to deliver are the bytes carried over and
then the bytes of the frames from the cursor to the last, in order.  A call
that does not fail delivers the first `min(size_b, bytes still to deliver)`
of them, so the carried-over bytes first, and leaves the others still to
deliver; when it delivers fewer than `size_b` bytes nothing is left: the
cursor is past the last frame and no byte is carried over; and the session
is again one whose carried-over bytes are there.  So the bytes
delivered by successive calls without a failure, followed by the bytes then
still to deliver, are the bytes to deliver at the start, which after
`ip_aac_open` are those of all frames of the stream.  When every frame of the
stream can be read and decoded, such calls do not fail. -/
theorem ip_aac_read_carry_over (env : AacEnv) (fuel : Nat) (ipd : ip_aac_ipdata)
    (hmax : ipd.nsamples < UINT32_MAX) (hinv : ipd.pcmbuflen ≤ ipd.pcmbuf.length) :
    (∀ (sb sb' : sample_buffer) (ret : Int) (ipd' : ip_aac_ipdata),
      ip_aac_read env fuel ipd sb = some (ret, ipd', sb') → ret ≠ -1 →
      sb'.delivered = (ipd.pending env).take sb.size_b ∧
      ipd'.pending env = (ipd.pending env).drop sb.size_b ∧
      sb'.len_b = min sb.size_b (ipd.pending env).length ∧
      sb'.delivered.length = sb'.len_b ∧
      (sb'.len_b < sb.size_b →
        ipd'.pending env = [] ∧ ipd'.sample > ipd'.nsamples ∧ ipd'.pcmbuflen = 0) ∧
      ipd'.nsamples = ipd.nsamples ∧ ipd'.pcmbuflen ≤ ipd'.pcmbuf.length) ∧
    (∀ (sbs : List sample_buffer) (bytes : List Nat) (ipd' : ip_aac_ipdata),
      ip_aac_read_all env fuel ipd sbs = some (bytes, ipd') →
      bytes ++ ipd'.pending env = ipd.pending env) ∧
    (ipd.sample = 1 → ipd.pcmbuflen = 0 →
      ipd.pending env = decoded_bytes env 1 ipd.nsamples) ∧
    ((∀ k, k ≤ ipd.nsamples → (env.frame k).read_ok = true ∧ (env.frame k).error = 0) →
      ipd.nsamples + 2 ≤ fuel →
      ∀ sbs : List sample_buffer, (∀ sb ∈ sbs, sample_buffer.size_b sb + 1 ≤ fuel) →
      ∃ r, ip_aac_read_all env fuel ipd sbs = some r) := by
  refine ⟨fun sb sb' ret ipd' h hret => ?_, fun sbs bytes ipd' h => ?_, fun h1 h2 => ?_,
    fun hok hfuel sbs hsize => ?_⟩
  · obtain ⟨p1, p2, p3, p4, p5, p6⟩ :=
      ip_aac_read_pending env fuel ipd ipd' sb sb' ret hmax hinv h hret
    have hlen : (ipd.pending env).length = sb'.len_b + (ipd'.pending env).length := by
      rw [← p1, List.length_append, p2]
    by_cases hlt : sb'.len_b < sb.size_b
    · obtain ⟨q1, q2, q3⟩ := p4 hlt
      rw [q1, List.append_nil] at p1
      rw [q1, List.length_nil] at hlen
      refine ⟨?_, ?_, ?_, p2, fun _ => ⟨q1, q2, q3⟩, p5, p6⟩
      · rw [← p1, List.take_of_length_le (by omega)]
      · rw [← p1, List.drop_of_length_le (by omega)]
        exact q1
      · omega
    · have heq : sb'.len_b = sb.size_b := by omega
      refine ⟨?_, ?_, ?_, p2, fun h => absurd h hlt, p5, p6⟩
      · rw [← p1, ← heq, ← p2, List.take_left]
      · rw [← p1, ← heq, ← p2, List.drop_left]
      · omega
  · exact ip_aac_read_all_pending env fuel sbs ipd ipd' bytes hmax hinv h
  · simp only [ip_aac_ipdata.pending, h1, h2, List.take_zero, List.nil_append]
    congr 1
  · exact ip_aac_read_all_returns env fuel sbs ipd hmax hok hfuel hsize

/-- Witness of C24: three reads of the sample stream into buffers of three
bytes deliver its six bytes in order, the third read without a whole buffer;
the stream is then exhausted. -/
theorem ip_aac_read_carry_over_witness :
    ip_aac_read_all AacEnv.sample 10 ip_aac_ipdata.opened
        [sample_buffer.sample 3, sample_buffer.sample 3, sample_buffer.sample 3] =
      some ([1, 2, 3, 4, 5, 6], { ip_aac_ipdata.opened with sample := 4, pos := 3072 }) ∧
    [1, 2, 3, 4, 5, 6] ++
        ip_aac_ipdata.pending AacEnv.sample { ip_aac_ipdata.opened with sample := 4, pos := 3072 } =
      ip_aac_ipdata.opened.pending AacEnv.sample :=
  ⟨by decide,
   (ip_aac_read_carry_over AacEnv.sample 10 ip_aac_ipdata.opened (by decide) (by decide)).2.1
    [sample_buffer.sample 3, sample_buffer.sample 3, sample_buffer.sample 3] [1, 2, 3, 4, 5, 6]
    { ip_aac_ipdata.opened with sample := 4, pos := 3072 } (by decide)⟩

/-! ## The display order, with the arguments swapped -/

theorem strcasecmp_swap (a b : CStr) : strcasecmp b a = -strcasecmp a b :=
  strcmp_swap _ _

theorem track_cmp_string_swap (x y : Option CStr) :
    track_cmp_string y x = -track_cmp_string x y := by
  cases x <;> cases y <;> first | rfl | exact strcasecmp_swap _ _

theorem track_cmp_number_swap (x y : Option CStr) :
    track_cmp_number y x = -track_cmp_number x y := by
  cases x with
  | none => cases y <;> rfl
  | some a =>
    cases y with
    | none => rfl
    | some b =>
      simp only [track_cmp_number]
      cases ha : strtonum a with
      | none =>
        cases hb : strtonum b with
        | none => exact strcasecmp_swap _ _
        | some j => exact strcasecmp_swap _ _
      | some i =>
        cases hb : strtonum b with
        | none => exact strcasecmp_swap _ _
        | some j =>
          simp only
          split_ifs <;> omega

theorem track_cmp_swap (a b : track) : track_cmp b a = -track_cmp a b := by
  have e1 := track_cmp_string_swap a.artist b.artist
  have e2 := track_cmp_number_swap a.date b.date
  have e3 := track_cmp_string_swap a.album b.album
  have e4 := track_cmp_number_swap a.discnumber b.discnumber
  have e5 := track_cmp_number_swap a.tracknumber b.tracknumber
  have e6 := track_cmp_string_swap a.title b.title
  have e7 := strcmp_swap a.path b.path
  simp only [track_cmp, e1, e2, e3, e4, e5, e6, e7, ne_eq, neg_eq_zero]
  split_ifs <;> rfl

/-- C27: `track_cmp` is antisymmetric: for all tracks `a` and `b` the sign
of `track_cmp a b` is the negation of the sign of `track_cmp b a`, and so it
is for `track_cmp_string` and `track_cmp_number` on every pair of values.  On
two present values `track_cmp_number` gives the result of `strcasecmp` in
both directions when at least one of them fails to parse, and compares the
two integers in both directions when both parse. -/
theorem track_cmp_antisymmetric (a b : track) :
    Int.sign (track_cmp a b) = -Int.sign (track_cmp b a) ∧
    (∀ x y : Option CStr,
      Int.sign (track_cmp_string x y) = -Int.sign (track_cmp_string y x) ∧
      Int.sign (track_cmp_number x y) = -Int.sign (track_cmp_number y x)) ∧
    (∀ x y : CStr, strtonum x = none ∨ strtonum y = none →
      track_cmp_number (some x) (some y) = strcasecmp x y ∧
      track_cmp_number (some y) (some x) = strcasecmp y x) ∧
    (∀ (x y : CStr) (i j : Nat), strtonum x = some i → strtonum y = some j →
      track_cmp_number (some x) (some y) = (if i < j then -1 else if i > j then 1 else 0) ∧
      track_cmp_number (some y) (some x) = (if j < i then -1 else if j > i then 1 else 0)) := by
  refine ⟨?_, fun x y => ⟨?_, ?_⟩, fun x y h => ?_, fun x y i j hx hy => ?_⟩
  · rw [track_cmp_swap a b, Int.sign_neg, neg_neg]
  · rw [track_cmp_string_swap x y, Int.sign_neg, neg_neg]
  · rw [track_cmp_number_swap x y, Int.sign_neg, neg_neg]
  · simp only [track_cmp_number]
    rcases h with h | h
    · rw [h]
      cases strtonum y <;> exact ⟨rfl, rfl⟩
    · rw [h]
      cases strtonum x <;> exact ⟨rfl, rfl⟩
  · simp only [track_cmp_number, hx, hy, and_self]

/-- Witness of C27: the dates unknown and 1998 compare as strings in both
directions, and the dates 9 and 10 as integers in both directions. -/
theorem track_cmp_antisymmetric_witness :
    (track_cmp_number (some (cstr "unknown")) (some (cstr "1998")) =
        strcasecmp (cstr "unknown") (cstr "1998") ∧
      track_cmp_number (some (cstr "1998")) (some (cstr "unknown")) =
        strcasecmp (cstr "1998") (cstr "unknown")) ∧
    (track_cmp_number (some (cstr "9")) (some (cstr "10")) = -1 ∧
      track_cmp_number (some (cstr "10")) (some (cstr "9")) = 1) :=
  ⟨(track_cmp_antisymmetric track.sample track.sample).2.2.1 (cstr "unknown") (cstr "1998")
      (Or.inl (by decide)),
   (track_cmp_antisymmetric track.sample track.sample).2.2.2 (cstr "9") (cstr "10") 9 10
      (by decide) (by decide)⟩

/-! ## The progress messages of `track_update_metadata` -/

theorem track_update_entry_no_progress (env : Env) (delete : Int) (te : track_entry)
    (i n : Nat) (p : Option Nat) :
    Event.msg_updating i n p ∉ (track_update_entry env delete te).2 := by
  unfold track_update_entry
  by_cases h : env.access te.track.path = -1
  · rw [if_pos h]
    simp
  · rw [if_neg h]
    simp only
    split <;> simp

/-- The progress messages of the loop of `track_update_metadata` that
starts with the counter `i0`, when the counter does not wrap. -/
theorem track_update_loop_progress (env : Env) (delete : Int) (n i0 : Nat)
    (tree : List track_entry) (h : i0 + tree.length ≤ SIZE_MAX + 1) :
    (∀ k, k < tree.length →
      Event.msg_updating (i0 + k) n
        (if n = 0 then none else some (100 * (i0 + k) % (SIZE_MAX + 1) / n)) ∈
          (track_update_loop env delete n i0 tree).2) ∧
    (∀ i m p, Event.msg_updating i m p ∈ (track_update_loop env delete n i0 tree).2 →
      m = n ∧ i0 ≤ i ∧ i < i0 + tree.length ∧
      p = if n = 0 then none else some (100 * i % (SIZE_MAX + 1) / n)) := by
  induction tree generalizing i0 with
  | nil =>
    refine ⟨fun k hk => absurd hk (by simp), fun i m p hm => ?_⟩
    simp [track_update_loop] at hm
  | cons te rest ih =>
    simp only [List.length_cons] at h
    by_cases hrest : rest = []
    · subst hrest
      rw [track_update_loop_cons]
      simp only [track_update_loop, List.append_nil, List.length_cons, List.length_nil]
      refine ⟨fun k hk => ?_, fun i m p hm => ?_⟩
      · have : k = 0 := by omega
        subst this
        exact List.mem_cons_self _ _
      · rcases List.mem_cons.1 hm with e | e
        · injection e with e1 e2 e3
          subst e1 e2 e3
          exact ⟨rfl, le_refl _, by omega, rfl⟩
        · exact absurd e (track_update_entry_no_progress env delete te i m p)
    · have hlen : 0 < rest.length := List.length_pos.2 hrest
      have hmod : (i0 + 1) % (SIZE_MAX + 1) = i0 + 1 := Nat.mod_eq_of_lt (by omega)
      obtain ⟨ih1, ih2⟩ := ih (i0 + 1) (by omega)
      rw [track_update_loop_cons, hmod]
      simp only [List.length_cons]
      refine ⟨fun k hk => ?_, fun i m p hm => ?_⟩
      · cases k with
        | zero => exact List.mem_cons_self _ _
        | succ k =>
          have := ih1 k (by omega)
          have e : i0 + (k + 1) = i0 + 1 + k := by omega
          rw [e]
          exact List.mem_cons_of_mem _ (List.mem_append_right _ this)
      · rcases List.mem_cons.1 hm with e | e
        · injection e with e1 e2 e3
          subst e1 e2 e3
          exact ⟨rfl, le_refl _, by omega, rfl⟩
        · rcases List.mem_append.1 e with e | e
          · exact absurd e (track_update_entry_no_progress env delete te i m p)
          · obtain ⟨j1, j2, j3, j4⟩ := ih2 i m p e
            exact ⟨j1, by omega, by omega, j4⟩

/-- C28: in every state that the calls `track_read_cache`, `track_get`,
`track_require`, `track_update_metadata` and `track_write_cache` reach from
the empty index, the live-entry count `track_nentries` is the number of
entries of the tree.  So `track_update_metadata` there adds to the trace the
events of its loop, among them one progress message for each entry, the
message of entry `k`, counted from 0, with the counter `k + 1`; and every
progress message of the loop has a counter `i` with
`1 <= i <= track_nentries`, the count itself, which is not 0, so that the
division is not by zero, and the percentage `100 * i / track_nentries`,
computed in `size_t`, which is at most 100. -/
theorem track_update_metadata_progress (env : Env) (s : State) (delete : Int)
    (h : Reachable s) :
    s.track_nentries = s.track_tree.length ∧
    (track_update_metadata env s delete).trace =
      s.trace ++ (track_update_loop env delete s.track_nentries 1 s.track_tree).2 ∧
    (∀ k, k < s.track_tree.length →
      Event.msg_updating (k + 1) s.track_nentries
        (some (100 * (k + 1) % (SIZE_MAX + 1) / s.track_nentries)) ∈
          (track_update_loop env delete s.track_nentries 1 s.track_tree).2) ∧
    (∀ i n percent,
      Event.msg_updating i n percent ∈
        (track_update_loop env delete s.track_nentries 1 s.track_tree).2 →
      n = s.track_nentries ∧ 1 ≤ i ∧ i ≤ s.track_nentries ∧ n ≠ 0 ∧
      ∃ p, percent = some p ∧ p = 100 * i % (SIZE_MAX + 1) / n ∧ p ≤ 100 ∧
        (100 * i ≤ SIZE_MAX → p = 100 * i / n)) := by
  obtain ⟨_, hcount, hmax⟩ := WF_of_reachable h
  obtain ⟨p1, p2⟩ := track_update_loop_progress env delete s.track_nentries 1 s.track_tree
    (by omega)
  refine ⟨hcount, rfl, fun k hk => ?_, fun i n percent hm => ?_⟩
  · have := p1 k hk
    rw [if_neg (by omega), Nat.add_comm 1 k] at this
    exact this
  · obtain ⟨j1, j2, j3, j4⟩ := p2 i n percent hm
    subst j1
    have hn : s.track_nentries ≠ 0 := by omega
    rw [if_neg hn] at j4
    refine ⟨rfl, j2, by omega, hn, _, j4, rfl, ?_, fun hfit => ?_⟩
    · have h1 : 100 * i % (SIZE_MAX + 1) ≤ 100 * i := Nat.mod_le _ _
      have h2 : 100 * i ≤ 100 * s.track_nentries := by omega
      calc 100 * i % (SIZE_MAX + 1) / s.track_nentries
          ≤ 100 * s.track_nentries / s.track_nentries := Nat.div_le_div_right (by omega)
        _ = 100 := Nat.mul_div_cancel _ (by omega)
    · rw [Nat.mod_eq_of_lt (by omega)]

/-- Witness of C28: in the index of the sample world after one `track_get`
the only progress message has the counter 1 of 1 and the percentage 100. -/
theorem track_update_metadata_progress_witness :
    Reachable State.sample ∧ State.sample.track_nentries = State.sample.track_tree.length ∧
    (track_update_loop Env.sample 0 State.sample.track_nentries 1 State.sample.track_tree).2 =
      [Event.msg_updating 1 1 (some 100), Event.get_metadata 0 [97]] :=
  ⟨Reachable.step _ _ (Reachable.init []),
   (track_update_metadata_progress Env.sample State.sample 0
      (Reachable.step _ _ (Reachable.init []))).1,
   by decide⟩

end Siren
